import Mathlib

/-!
# Option-Pricing: engines, payoffs and options

A shallow embedding of the `PricingLibrary` namespace of the repository and of
`Helper_functions::create_mesh`, `create_mesh_matrix` and `compute_option_prices` with
the call / put helpers built on it (a `std::vector<double>` is a `List`).

* `double` is modelled by an arbitrary linearly ordered field `α` (exact arithmetic,
  no rounding, no NaN / infinity).
* The external numeric primitives (`std::log`, `std::exp`, `std::sqrt`, `std::pow`,
  and the cdf / pdf of `boost::math::normal_distribution(0.0, 1.0)`) are the fields
  of a `NumLib α` passed to every function that calls one of them; over `ℝ`,
  `NumLib.IsStandard` says that a library computes the real functions.
* A `throw` is a value `Except.error`; a normal `return` is `Except.ok`.
* A call with no defined result (a null engine dereferenced, a quotient that is not an
  `int`) is the value `none` of an outer `Option`.
* A quotient is the field's quotient. Where a property is about a zero divisor, the
  perpetual engine's `Checked` price functions take each `/` by `quotient`, which is
  `none` at a zero divisor; they agree with the unchecked functions wherever they have a
  value.
-/

namespace PricingLibrary

/-! ## External numeric primitives -/

/-- The library functions the engines call. `cdf` and `pdf` stand for
`boost::math::cdf(standard_normal, ·)` and `boost::math::pdf(standard_normal, ·)`. -/
structure NumLib (α : Type) where
  log : α → α
  exp : α → α
  sqrt : α → α
  pow : α → α → α
  cdf : α → α
  pdf : α → α

/-- A library over `ℚ` used to run the engines on concrete rational inputs. Its
functions are placeholders (no rational function is the exponential); they are only
supplied where an engine fails or returns before any library call is reached. -/
def ratLib : NumLib ℚ where
  log := fun x => x
  exp := fun x => x
  sqrt := fun x => x
  pow := fun x _ => x
  cdf := fun x => x
  pdf := fun x => x

/-- The library in exact real arithmetic: each function is the mathematical one wherever
`std` / `boost` define a value for it, and `cdf`, `pdf` are the distribution function and
the density of the standard normal law. -/
structure NumLib.IsStandard (m : NumLib ℝ) : Prop where
  log_eq : ∀ x : ℝ, 0 < x → m.log x = Real.log x
  exp_eq : ∀ x : ℝ, m.exp x = Real.exp x
  sqrt_eq : ∀ x : ℝ, 0 ≤ x → m.sqrt x = Real.sqrt x
  pow_eq : ∀ x y : ℝ, 0 < x → m.pow x y = x ^ y
  pow_two : ∀ x : ℝ, m.pow x 2 = x ^ 2
  cdf_eq : ∀ x : ℝ, m.cdf x = ProbabilityTheory.cdf (ProbabilityTheory.gaussianReal 0 1) x
  pdf_eq : ∀ x : ℝ, m.pdf x = ProbabilityTheory.gaussianPDFReal 0 1 x

/-! ## Payoff.hpp / Payoff.cpp -/

/-- `Payoff::Type`: `enum Type {Call=1, Put=-1}`. -/
inductive PayoffType where
  | Call
  | Put
deriving DecidableEq, Repr

/-- `Payoff::Exercise`: `enum Exercise {European=1, American=2}`. -/
inductive Exercise where
  | European
  | American
deriving DecidableEq, Repr

/-- `class Payoff`: maturity, strike, type and exercise. -/
structure Payoff (α : Type) where
  _maturity : α
  _strike : α
  _type : PayoffType
  _exercise : Exercise

def Payoff.getMaturity {α : Type} (p : Payoff α) : α := p._maturity

def Payoff.getStrike {α : Type} (p : Payoff α) : α := p._strike

def Payoff.getType {α : Type} (p : Payoff α) : PayoffType := p._type

def Payoff.getExercise {α : Type} (p : Payoff α) : Exercise := p._exercise

/-! ## EngineException.hpp / IncorrectEngineException.hpp -/

/-- The exception hierarchy: `EngineException` is abstract and
`IncorrectEngineException` is its only concrete subclass. -/
inductive EngineException where
  | IncorrectEngineException (_message : String)
deriving DecidableEq, Repr

def EngineException.what : EngineException → String
  | .IncorrectEngineException _message => "Incorrect Pricing Engine.\n" ++ _message

/-! ## AnalyticEuropeanEngine.hpp / AnalyticEuropeanEngine.cpp -/

/-- `class AnalyticEuropeanEngine`: the four market parameters. -/
structure AnalyticEuropeanEngine (α : Type) where
  _S : α
  _sigma : α
  _r : α
  _b : α

namespace AnalyticEuropeanEngine

variable {α : Type} [LinearOrderedField α]

def validate (_e : AnalyticEuropeanEngine α) (exercise : Exercise) :
    Except EngineException Unit :=
  if exercise ≠ Exercise.European then
    throw (EngineException.IncorrectEngineException
      "Only European Options have analytic solution.")
  else
    pure ()

def getEngineCallPrice (e : AnalyticEuropeanEngine α) (m : NumLib α) (payoff : Payoff α) :
    Except EngineException α := do
  e.validate payoff.getExercise
  let K := payoff.getStrike
  let T := payoff.getMaturity
  let d1 := (m.log (e._S / K) + (e._b + e._sigma * e._sigma / 2) * T) / (e._sigma * m.sqrt T)
  let d2 := d1 - e._sigma * m.sqrt T
  let N_d1 := m.cdf d1
  let N_d2 := m.cdf d2
  let price := e._S * m.exp ((e._b - e._r) * T) * N_d1 - K * m.exp (-e._r * T) * N_d2
  return price

def getEnginePutPrice (e : AnalyticEuropeanEngine α) (m : NumLib α) (payoff : Payoff α) :
    Except EngineException α := do
  let K := payoff.getStrike
  let T := payoff.getMaturity
  let callPrice ← e.getEngineCallPrice m payoff
  return callPrice - e._S + K * m.exp (-e._r * T)

def getEnginePrice (e : AnalyticEuropeanEngine α) (m : NumLib α) (payoff : Payoff α) :
    Except EngineException α := do
  e.validate payoff.getExercise
  if payoff.getType = PayoffType.Call then
    e.getEngineCallPrice m payoff
  else
    e.getEnginePutPrice m payoff

def getEngineDelta (e : AnalyticEuropeanEngine α) (m : NumLib α) (payoff : Payoff α) :
    Except EngineException α := do
  e.validate payoff.getExercise
  let K := payoff.getStrike
  let T := payoff.getMaturity
  let d1 := (m.log (e._S / K) + (e._b + e._sigma * e._sigma / 2) * T) / (e._sigma * m.sqrt T)
  let d1 := if payoff.getType = PayoffType.Call then d1 else -d1
  let N_d1 := m.cdf d1
  let delta := m.exp ((e._b - e._r) * T) * N_d1
  return (if payoff.getType = PayoffType.Call then delta else -delta)

def getEngineGamma (e : AnalyticEuropeanEngine α) (m : NumLib α) (payoff : Payoff α) :
    Except EngineException α := do
  e.validate payoff.getExercise
  let K := payoff.getStrike
  let T := payoff.getMaturity
  let d1 := (m.log (e._S / K) + (e._b + e._sigma * e._sigma / 2) * T) / (e._sigma * m.sqrt T)
  let n_d1 := m.pdf d1
  let gamma := n_d1 * m.exp ((e._b - e._r) * T) / (e._S * e._sigma * m.sqrt T)
  return gamma

def getEngineVega (e : AnalyticEuropeanEngine α) (m : NumLib α) (payoff : Payoff α) :
    Except EngineException α := do
  e.validate payoff.getExercise
  let K := payoff.getStrike
  let T := payoff.getMaturity
  let d1 := (m.log (e._S / K) + (e._b + e._sigma * e._sigma / 2) * T) / (e._sigma * m.sqrt T)
  let n_d1 := m.pdf d1
  let vega := e._S * m.sqrt T * m.exp ((e._b - e._r) * T) * n_d1 / 100
  return vega

def getEngineTheta (e : AnalyticEuropeanEngine α) (m : NumLib α) (payoff : Payoff α) :
    Except EngineException α := do
  e.validate payoff.getExercise
  let K := payoff.getStrike
  let T := payoff.getMaturity
  let d1 := (m.log (e._S / K) + (e._b + e._sigma * e._sigma / 2) * T) / (e._sigma * m.sqrt T)
  let d2 := d1 - e._sigma * m.sqrt T
  let N_d1 := if payoff.getType = PayoffType.Call then m.cdf d1 else m.cdf (-d1)
  let N_d2 := if payoff.getType = PayoffType.Call then m.cdf d2 else m.cdf (-d2)
  let n_d1 := m.pdf d1
  let theta :=
    if payoff.getType = PayoffType.Call then
      -(e._S * e._sigma * m.exp ((e._b - e._r) * T) * n_d1) / (2 * m.sqrt T)
        - (e._b - e._r) * e._S * m.exp ((e._b - e._r) * T) * N_d1
        - e._r * K * m.exp (-e._r * T) * N_d2
    else
      -(e._S * e._sigma * m.exp ((e._b - e._r) * T) * n_d1) / (2 * m.sqrt T)
        + (e._b - e._r) * e._S * m.exp ((e._b - e._r) * T) * N_d1
        + e._r * K * m.exp (-e._r * T) * N_d2
  return theta

/-- The `static` member `satisfy_put_call_parity`; the header gives `epsilon` the default
`1e-6`. -/
def satisfy_put_call_parity (m : NumLib α) (call put K S r T : α) (epsilon : α := 1e-6) :
    Bool :=
  decide (|call - put - S + K * m.exp (-r * T)| ≤ epsilon)

end AnalyticEuropeanEngine

/-! ## AnalyticAmericanPerpetualEngine.hpp / AnalyticAmericanPerpetualEngine.cpp -/

/-- `class AnalyticAmericanPerpetualEngine`: the four market parameters. -/
structure AnalyticAmericanPerpetualEngine (α : Type) where
  _S : α
  _sigma : α
  _r : α
  _b : α

namespace AnalyticAmericanPerpetualEngine

variable {α : Type} [LinearOrderedField α]

def validate (_e : AnalyticAmericanPerpetualEngine α) (exercise : Exercise) :
    Except EngineException Unit :=
  if exercise ≠ Exercise.American then
    throw (EngineException.IncorrectEngineException
      "Only American options have perpetual engine pricing.")
  else
    pure ()

def getEngineCallPrice (e : AnalyticAmericanPerpetualEngine α) (m : NumLib α)
    (payoff : Payoff α) : Except EngineException α := do
  e.validate payoff.getExercise
  let y1 := 0.5 - e._b / (e._sigma * e._sigma)
    + m.sqrt (m.pow (e._b / (e._sigma * e._sigma) - 0.5) 2 + (2 * e._r) / (e._sigma * e._sigma))
  let price := payoff.getStrike / (y1 - 1)
    * m.pow (((y1 - 1) * e._S) / (y1 * payoff.getStrike)) y1
  return price

def getEnginePutPrice (e : AnalyticAmericanPerpetualEngine α) (m : NumLib α)
    (payoff : Payoff α) : Except EngineException α := do
  e.validate payoff.getExercise
  let y2 := 0.5 - e._b / (e._sigma * e._sigma)
    - m.sqrt (m.pow (e._b / (e._sigma * e._sigma) - 0.5) 2 + (2 * e._r) / (e._sigma * e._sigma))
  let price := payoff.getStrike / (1 - y2)
    * m.pow (((y2 - 1) * e._S) / (y2 * payoff.getStrike)) y2
  return price

def getEnginePrice (e : AnalyticAmericanPerpetualEngine α) (m : NumLib α)
    (payoff : Payoff α) : Except EngineException α := do
  e.validate payoff.getExercise
  if payoff.getType = PayoffType.Call then
    e.getEngineCallPrice m payoff
  else
    e.getEnginePutPrice m payoff

/-- The quotient `x / y` of two doubles with the zero divisor set apart: `none` when `y`
is zero. In exact arithmetic that quotient has no value, and the C++ quotient is an
infinity or NaN, not a finite number. -/
def quotient (x y : α) : Option α :=
  if y = 0 then none else some (x / y)

/-- `getEngineCallPrice` with each `/` of the body taken by `quotient`: after `validate`,
the price is `none` when one of the divisors `_sigma * _sigma`, `y1 - 1`,
`y1 * payoff->getStrike()` is zero, and otherwise the value of the same expression. -/
def getEngineCallPriceChecked (e : AnalyticAmericanPerpetualEngine α) (m : NumLib α)
    (payoff : Payoff α) : Except EngineException (Option α) := do
  e.validate payoff.getExercise
  return (do
    let q1 ← quotient e._b (e._sigma * e._sigma)
    let q2 ← quotient e._b (e._sigma * e._sigma)
    let q3 ← quotient (2 * e._r) (e._sigma * e._sigma)
    let y1 := 0.5 - q1 + m.sqrt (m.pow (q2 - 0.5) 2 + q3)
    let q4 ← quotient payoff.getStrike (y1 - 1)
    let q5 ← quotient ((y1 - 1) * e._S) (y1 * payoff.getStrike)
    let price := q4 * m.pow q5 y1
    return price)

/-- `getEnginePutPrice` with each `/` of the body taken by `quotient`: after `validate`,
the price is `none` when one of the divisors `_sigma * _sigma`, `1 - y2`,
`y2 * payoff->getStrike()` is zero, and otherwise the value of the same expression. -/
def getEnginePutPriceChecked (e : AnalyticAmericanPerpetualEngine α) (m : NumLib α)
    (payoff : Payoff α) : Except EngineException (Option α) := do
  e.validate payoff.getExercise
  return (do
    let q1 ← quotient e._b (e._sigma * e._sigma)
    let q2 ← quotient e._b (e._sigma * e._sigma)
    let q3 ← quotient (2 * e._r) (e._sigma * e._sigma)
    let y2 := 0.5 - q1 - m.sqrt (m.pow (q2 - 0.5) 2 + q3)
    let q4 ← quotient payoff.getStrike (1 - y2)
    let q5 ← quotient ((y2 - 1) * e._S) (y2 * payoff.getStrike)
    let price := q4 * m.pow q5 y2
    return price)

/-- `getEnginePrice` over the two checked price functions. -/
def getEnginePriceChecked (e : AnalyticAmericanPerpetualEngine α) (m : NumLib α)
    (payoff : Payoff α) : Except EngineException (Option α) := do
  e.validate payoff.getExercise
  if payoff.getType = PayoffType.Call then
    e.getEngineCallPriceChecked m payoff
  else
    e.getEnginePutPriceChecked m payoff

/-- Not implemented calculation of Delta greek: the body is `return -1.0;`. -/
def getEngineDelta (_e : AnalyticAmericanPerpetualEngine α) (_payoff : Payoff α) :
    Except EngineException α :=
  return -1.0

/-- Not implemented calculation of Gamma greek: the body is `return -1.0;`. -/
def getEngineGamma (_e : AnalyticAmericanPerpetualEngine α) (_payoff : Payoff α) :
    Except EngineException α :=
  return -1.0

/-- Not implemented calculation of Theta greek: the body is `return -1.0;`. -/
def getEngineTheta (_e : AnalyticAmericanPerpetualEngine α) (_payoff : Payoff α) :
    Except EngineException α :=
  return -1.0

/-- Not implemented calculation of Vega greek: the body is `return -1.0;`. -/
def getEngineVega (_e : AnalyticAmericanPerpetualEngine α) (_payoff : Payoff α) :
    Except EngineException α :=
  return -1.0

end AnalyticAmericanPerpetualEngine

/-! ## NumericalEuropeanEngine.hpp / NumericalEuropeanEngine.cpp -/

/-- `class NumericalEuropeanEngine`: the four market parameters and the
finite-difference step `_h`. -/
structure NumericalEuropeanEngine (α : Type) where
  _S : α
  _sigma : α
  _r : α
  _b : α
  _h : α

namespace NumericalEuropeanEngine

variable {α : Type} [LinearOrderedField α]

/-- The constructor `NumericalEuropeanEngine(S, sigma, r, b)`, which sets `_h{0.01}`. -/
def new (S sigma r b : α) : NumericalEuropeanEngine α :=
  { _S := S, _sigma := sigma, _r := r, _b := b, _h := 0.01 }

/-- The copy constructor `NumericalEuropeanEngine(const NumericalEuropeanEngine& source)`.
Its initialiser list names `_S`, `_sigma`, `_r` and `_b` and does not name `_h`, so `_h`
is left uninitialised; `indeterminate` stands for whatever value that member then holds. -/
def copy (source : NumericalEuropeanEngine α) (indeterminate : α) :
    NumericalEuropeanEngine α :=
  { _S := source._S, _sigma := source._sigma, _r := source._r, _b := source._b,
    _h := indeterminate }

/-- Copy assignment `operator=`: `_S`, `_sigma`, `_r` and `_b` are assigned from `source`
and `_h` is not assigned, so the target keeps its own. (On self-assignment the body
returns at once, which gives the same value.) -/
def assign (self source : NumericalEuropeanEngine α) : NumericalEuropeanEngine α :=
  { _S := source._S, _sigma := source._sigma, _r := source._r, _b := source._b,
    _h := self._h }

def validate (_e : NumericalEuropeanEngine α) (exercise : Exercise) :
    Except EngineException Unit :=
  if exercise ≠ Exercise.European then
    throw (EngineException.IncorrectEngineException
      "Only European Options have analytic solution.")
  else
    pure ()

def getAnalyticCallPrice (e : NumericalEuropeanEngine α) (m : NumLib α) (payoff : Payoff α)
    (S_new : α) : α :=
  let K := payoff.getStrike
  let T := payoff.getMaturity
  let d1 := (m.log (S_new / K) + (e._b + e._sigma * e._sigma / 2) * T) / (e._sigma * m.sqrt T)
  let d2 := d1 - e._sigma * m.sqrt T
  let N_d1 := m.cdf d1
  let N_d2 := m.cdf d2
  let price := S_new * m.exp ((e._b - e._r) * T) * N_d1 - K * m.exp (-e._r * T) * N_d2
  price

def getAnalyticPutPrice (e : NumericalEuropeanEngine α) (m : NumLib α) (payoff : Payoff α)
    (S_new : α) : α :=
  let K := payoff.getStrike
  let T := payoff.getMaturity
  let d1 := (m.log (S_new / K) + (e._b + e._sigma * e._sigma / 2) * T) / (e._sigma * m.sqrt T)
  let d2 := d1 - e._sigma * m.sqrt T
  let N_d1 := m.cdf (-d1)
  let N_d2 := m.cdf (-d2)
  let price := -S_new * m.exp ((e._b - e._r) * T) * N_d1 + K * m.exp (-e._r * T) * N_d2
  price

def getEngineCallDelta (e : NumericalEuropeanEngine α) (m : NumLib α) (payoff : Payoff α) :
    Except EngineException α := do
  e.validate payoff.getExercise
  let price_plus_h := e.getAnalyticCallPrice m payoff (e._S + e._h)
  let price_minus_h := e.getAnalyticCallPrice m payoff (e._S - e._h)
  let delta := (price_plus_h - price_minus_h) / (2 * e._h)
  return delta

def getEngineCallGamma (e : NumericalEuropeanEngine α) (m : NumLib α) (payoff : Payoff α) :
    Except EngineException α := do
  e.validate payoff.getExercise
  let price := e.getAnalyticCallPrice m payoff e._S
  let price_plus_h := e.getAnalyticCallPrice m payoff (e._S + e._h)
  let price_minus_h := e.getAnalyticCallPrice m payoff (e._S - e._h)
  let gamma := (price_plus_h - 2 * price + price_minus_h) / (e._h * e._h)
  return gamma

def getEnginePutDelta (e : NumericalEuropeanEngine α) (m : NumLib α) (payoff : Payoff α) :
    Except EngineException α := do
  e.validate payoff.getExercise
  let price_plus_h := e.getAnalyticPutPrice m payoff (e._S + e._h)
  let price_minus_h := e.getAnalyticPutPrice m payoff (e._S - e._h)
  let delta := (price_plus_h - price_minus_h) / (2 * e._h)
  return delta

def getEnginePutGamma (e : NumericalEuropeanEngine α) (m : NumLib α) (payoff : Payoff α) :
    Except EngineException α := do
  e.validate payoff.getExercise
  let price := e.getAnalyticPutPrice m payoff e._S
  let price_plus_h := e.getAnalyticPutPrice m payoff (e._S + e._h)
  let price_minus_h := e.getAnalyticPutPrice m payoff (e._S - e._h)
  let gamma := (price_plus_h - 2 * price + price_minus_h) / (e._h * e._h)
  return gamma

def getEngineDelta (e : NumericalEuropeanEngine α) (m : NumLib α) (payoff : Payoff α) :
    Except EngineException α := do
  e.validate payoff.getExercise
  if payoff.getType = PayoffType.Call then
    e.getEngineCallDelta m payoff
  else
    e.getEnginePutDelta m payoff

def getEngineGamma (e : NumericalEuropeanEngine α) (m : NumLib α) (payoff : Payoff α) :
    Except EngineException α := do
  e.validate payoff.getExercise
  if payoff.getType = PayoffType.Call then
    e.getEngineCallGamma m payoff
  else
    e.getEnginePutGamma m payoff

/-- Not implemented calculation of option price: the body is `return -1.0;`. -/
def getEnginePrice (_e : NumericalEuropeanEngine α) (_payoff : Payoff α) :
    Except EngineException α :=
  return -1.0

/-- Not implemented calculation of Theta greek: the body is `return -1.0;`. -/
def getEngineTheta (_e : NumericalEuropeanEngine α) (_payoff : Payoff α) :
    Except EngineException α :=
  return -1.0

/-- Not implemented calculation of Vega greek: the body is `return -1.0;`. -/
def getEngineVega (_e : NumericalEuropeanEngine α) (_payoff : Payoff α) :
    Except EngineException α :=
  return -1.0

end NumericalEuropeanEngine

/-! ## PricingEngine.hpp -/

/-- The abstract `class PricingEngine` with its three concrete subclasses; a virtual
call dispatches on the constructor. -/
inductive PricingEngine (α : Type) where
  | analyticEuropean (e : AnalyticEuropeanEngine α)
  | analyticAmericanPerpetual (e : AnalyticAmericanPerpetualEngine α)
  | numericalEuropean (e : NumericalEuropeanEngine α)

namespace PricingEngine

variable {α : Type} [LinearOrderedField α]

def validate : PricingEngine α → Exercise → Except EngineException Unit
  | analyticEuropean e, exercise => e.validate exercise
  | analyticAmericanPerpetual e, exercise => e.validate exercise
  | numericalEuropean e, exercise => e.validate exercise

def getEnginePrice (m : NumLib α) : PricingEngine α → Payoff α → Except EngineException α
  | analyticEuropean e, payoff => e.getEnginePrice m payoff
  | analyticAmericanPerpetual e, payoff => e.getEnginePrice m payoff
  | numericalEuropean e, payoff => e.getEnginePrice payoff

def getEngineDelta (m : NumLib α) : PricingEngine α → Payoff α → Except EngineException α
  | analyticEuropean e, payoff => e.getEngineDelta m payoff
  | analyticAmericanPerpetual e, payoff => e.getEngineDelta payoff
  | numericalEuropean e, payoff => e.getEngineDelta m payoff

def getEngineGamma (m : NumLib α) : PricingEngine α → Payoff α → Except EngineException α
  | analyticEuropean e, payoff => e.getEngineGamma m payoff
  | analyticAmericanPerpetual e, payoff => e.getEngineGamma payoff
  | numericalEuropean e, payoff => e.getEngineGamma m payoff

def getEngineTheta (m : NumLib α) : PricingEngine α → Payoff α → Except EngineException α
  | analyticEuropean e, payoff => e.getEngineTheta m payoff
  | analyticAmericanPerpetual e, payoff => e.getEngineTheta payoff
  | numericalEuropean e, payoff => e.getEngineTheta payoff

def getEngineVega (m : NumLib α) : PricingEngine α → Payoff α → Except EngineException α
  | analyticEuropean e, payoff => e.getEngineVega m payoff
  | analyticAmericanPerpetual e, payoff => e.getEngineVega payoff
  | numericalEuropean e, payoff => e.getEngineVega payoff

end PricingEngine

/-! ## Option.hpp / VanillaOption.hpp / VanillaOption.cpp -/

/-- `class VanillaOption`: the payoff inherited from `Option` and the engine pointer,
which is null (`none`) after the one-argument constructor. -/
structure VanillaOption (α : Type) where
  _payoff : Payoff α
  _engine : Option (PricingEngine α)

namespace VanillaOption

variable {α : Type} [LinearOrderedField α]

/-- The body is `return _engine->getEnginePrice(_payoff);`. The outer `Option` is `none`
when `_engine` is null: the dereference then has no defined behaviour. -/
def getPrice (o : VanillaOption α) (m : NumLib α) : Option (Except EngineException α) :=
  match o._engine with
  | none => none
  | some engine => some (engine.getEnginePrice m o._payoff)

/-- The constructor `VanillaOption(payoff)`: `_engine` is default-initialised, a null
pointer. -/
def new (payoff : Payoff α) : VanillaOption α :=
  { _payoff := payoff, _engine := none }

/-- The constructor `VanillaOption(payoff, engine)`; the shared pointer handed in may be
null. -/
def newWithEngine (payoff : Payoff α) (engine : Option (PricingEngine α)) :
    VanillaOption α :=
  { _payoff := payoff, _engine := engine }

/-- The body is `_engine = engine;`. -/
def setEngine (o : VanillaOption α) (engine : Option (PricingEngine α)) : VanillaOption α :=
  { o with _engine := engine }

/-- The body is `return _engine->getEngineDelta(_payoff);`. -/
def getDelta (o : VanillaOption α) (m : NumLib α) : Option (Except EngineException α) :=
  match o._engine with
  | none => none
  | some engine => some (engine.getEngineDelta m o._payoff)

/-- The body is `return _engine->getEngineGamma(_payoff);`. -/
def getGamma (o : VanillaOption α) (m : NumLib α) : Option (Except EngineException α) :=
  match o._engine with
  | none => none
  | some engine => some (engine.getEngineGamma m o._payoff)

/-- The body is `return _engine->getEngineVega(_payoff);`. -/
def getVega (o : VanillaOption α) (m : NumLib α) : Option (Except EngineException α) :=
  match o._engine with
  | none => none
  | some engine => some (engine.getEngineVega m o._payoff)

/-- The body is `return _engine->getEngineTheta(_payoff);`. -/
def getTheta (o : VanillaOption α) (m : NumLib α) : Option (Except EngineException α) :=
  match o._engine with
  | none => none
  | some engine => some (engine.getEngineTheta m o._payoff)

end VanillaOption

/-! ## ExoticOption.hpp / ExoticOption.cpp -/

/-- `class ExoticOption`: the payoff inherited from `Option` and the engine pointer, which
is null (`none`) after the one-argument constructor. -/
structure ExoticOption (α : Type) where
  _payoff : Payoff α
  _engine : Option (PricingEngine α)

namespace ExoticOption

variable {α : Type} [LinearOrderedField α]

/-- The constructor `ExoticOption(payoff)`: `_engine` is default-initialised, a null
pointer. -/
def new (payoff : Payoff α) : ExoticOption α :=
  { _payoff := payoff, _engine := none }

/-- The constructor `ExoticOption(payoff, engine)`; the shared pointer handed in may be
null. -/
def newWithEngine (payoff : Payoff α) (engine : Option (PricingEngine α)) :
    ExoticOption α :=
  { _payoff := payoff, _engine := engine }

/-- The body is `_engine = engine;`. -/
def setEngine (o : ExoticOption α) (engine : Option (PricingEngine α)) : ExoticOption α :=
  { o with _engine := engine }

/-- The body is `return _engine->getEnginePrice(_payoff);`. The outer `Option` is `none`
when `_engine` is null: the dereference then has no defined behaviour. -/
def getPrice (o : ExoticOption α) (m : NumLib α) : Option (Except EngineException α) :=
  match o._engine with
  | none => none
  | some engine => some (engine.getEnginePrice m o._payoff)

end ExoticOption

end PricingLibrary

/-! ## Helper_functions.hpp / Helper_functions.cpp -/

namespace Helper_functions

variable {α : Type} [LinearOrderedField α] [FloorRing α]

/-- The conversion of a `double` to `int` in `int n_elements = (max_value - min_value) /
step;`: the value is truncated toward zero, and the conversion has no defined result
(`none`) when the truncated value is not an `int`. -/
def toInt (x : α) : Option Int :=
  let truncated : Int := if 0 ≤ x then ⌊x⌋ else ⌈x⌉
  if -2147483648 ≤ truncated ∧ truncated ≤ 2147483647 then some truncated else none

/-- The `for` loop of `create_mesh`: `count` passes, each storing `val` in the next slot
and then executing `val += step`. -/
def create_mesh_loop (step : α) : Nat → α → List α
  | 0, _ => []
  | count + 1, val => val :: create_mesh_loop step count (val + step)

/-- `create_mesh`. The result is `none` when no mesh is returned: the quotient is not a
number convertible to `int` (also when `step` is zero), `n_elements + 1` overflows
`int`, or `n_elements + 1` is negative and the vector cannot be allocated. -/
def create_mesh (min_value max_value step : α) : Option (List α) :=
  if step = 0 then none
  else
    match toInt ((max_value - min_value) / step) with
    | none => none
    | some n_elements =>
      if n_elements = 2147483647 then none
      else if n_elements + 1 < 0 then none
      else some (create_mesh_loop step (n_elements + 1).toNat min_value)

/-- `create_mesh_matrix`; the header gives `b` the default `-1`. The three nested `for`
loops are folds over the state `(res, b)`: the parameter `b` is a local variable that
the innermost body overwrites with `r` when `tmp` holds, before it pushes the row. -/
def create_mesh_matrix (S K : α) (expiry volatility rate : List α) (b : α := -1) :
    List (List α) :=
  let tmp : Bool := if |b + 1.0| ≤ 0.01 then true else false
  let state : List (List α) × α :=
    expiry.foldl (fun state T =>
      volatility.foldl (fun state sigma =>
        rate.foldl (fun state r =>
          let b := if tmp then r else state.2
          (state.1 ++ [[S, K, T, sigma, r, b]], b)) state) state) ([], b)
  state.1

open PricingLibrary in
/-- The `for` loop of `compute_option_prices` over the rows still to be read, with the
rows pushed so far in `optionPrices`. The result is `none` when a row has no element at
one of the indices `0 .. 5` (`operator[]` past the end) or the option has no engine; an
exception thrown by the engine leaves the function. `res` is value-initialised, so it
is `0` when `function` is none of the three names. -/
def compute_option_prices_loop (m : NumLib α) (type : PayoffType) (function : String) :
    List (List α) → List (List α) → Option (Except EngineException (List (List α)))
  | [], optionPrices => some (Except.ok optionPrices)
  | parameters :: rest, optionPrices =>
    match parameters[0]?, parameters[1]?, parameters[2]?, parameters[3]?, parameters[4]?,
      parameters[5]? with
    | some S, some K, some T, some sig, some r, some b =>
      let exercise := Exercise.European
      let analytic_engine : PricingEngine α :=
        PricingEngine.analyticEuropean { _S := S, _sigma := sig, _r := r, _b := b }
      let payoff_call : Payoff α :=
        { _maturity := T, _strike := K, _type := type, _exercise := exercise }
      let myEuropeanOption := VanillaOption.newWithEngine payoff_call (some analytic_engine)
      let res : Option (Except EngineException α) :=
        if function = "price" then myEuropeanOption.getPrice m
        else if function = "delta" then myEuropeanOption.getDelta m
        else if function = "gamma" then myEuropeanOption.getGamma m
        else some (Except.ok 0)
      match res with
      | none => none
      | some (Except.error ex) => some (Except.error ex)
      | some (Except.ok res) =>
        compute_option_prices_loop m type function rest
          (optionPrices ++ [[S, K, T, sig, r, res]])
    | _, _, _, _, _, _ => none

open PricingLibrary in
def compute_option_prices (m : NumLib α) (parameterMatrix : List (List α))
    (type : PayoffType) (function : String) :
    Option (Except EngineException (List (List α))) :=
  compute_option_prices_loop m type function parameterMatrix []

open PricingLibrary in
def compute_call_option_prices (m : NumLib α) (parameterMatrix : List (List α)) :
    Option (Except EngineException (List (List α))) :=
  compute_option_prices m parameterMatrix PayoffType.Call "price"

open PricingLibrary in
def compute_put_option_prices (m : NumLib α) (parameterMatrix : List (List α)) :
    Option (Except EngineException (List (List α))) :=
  compute_option_prices m parameterMatrix PayoffType.Put "price"

open PricingLibrary in
def compute_call_option_delta (m : NumLib α) (parameterMatrix : List (List α)) :
    Option (Except EngineException (List (List α))) :=
  compute_option_prices m parameterMatrix PayoffType.Call "delta"

open PricingLibrary in
/-- The body is `return compute_option_prices(parameterMatrix,
PricingLibrary::Payoff::Call, "delta");`. -/
def compute_put_option_delta (m : NumLib α) (parameterMatrix : List (List α)) :
    Option (Except EngineException (List (List α))) :=
  compute_option_prices m parameterMatrix PayoffType.Call "delta"

open PricingLibrary in
def compute_call_option_gamma (m : NumLib α) (parameterMatrix : List (List α)) :
    Option (Except EngineException (List (List α))) :=
  compute_option_prices m parameterMatrix PayoffType.Call "gamma"

open PricingLibrary in
/-- The body is `return compute_option_prices(parameterMatrix,
PricingLibrary::Payoff::Call, "gamma");`. -/
def compute_put_option_gamma (m : NumLib α) (parameterMatrix : List (List α)) :
    Option (Except EngineException (List (List α))) :=
  compute_option_prices m parameterMatrix PayoffType.Call "gamma"

end Helper_functions

/-! # Properties -/

namespace PricingLibrary

/-! ## Shared lemmas on `validate` -/

section Validate

variable {α : Type}

theorem analyticEuropean_validate_European (e : AnalyticEuropeanEngine α) :
    e.validate Exercise.European = Except.ok () := rfl

theorem analyticEuropean_validate_American (e : AnalyticEuropeanEngine α) :
    e.validate Exercise.American = Except.error
      (EngineException.IncorrectEngineException
        "Only European Options have analytic solution.") := rfl

theorem perpetual_validate_American
    (e : AnalyticAmericanPerpetualEngine α) :
    e.validate Exercise.American = Except.ok () := rfl

theorem perpetual_validate_European
    (e : AnalyticAmericanPerpetualEngine α) :
    e.validate Exercise.European = Except.error
      (EngineException.IncorrectEngineException
        "Only American options have perpetual engine pricing.") := rfl

theorem numerical_validate_European (e : NumericalEuropeanEngine α) :
    e.validate Exercise.European = Except.ok () := rfl

theorem numerical_validate_American (e : NumericalEuropeanEngine α) :
    e.validate Exercise.American = Except.error
      (EngineException.IncorrectEngineException
        "Only European Options have analytic solution.") := rfl

/-- A failed `validate` at the head of a `do` block is the result of the block. -/
theorem bind_error_eq {β γ : Type} (x : Except EngineException β) (ex : EngineException)
    (f : β → Except EngineException γ) (h : x = Except.error ex) :
    (x >>= f) = Except.error ex := by
  subst h; rfl

/-- A successful `validate` at the head of a `do` block hands over to the rest. -/
theorem bind_ok_eq {β γ : Type} (x : Except EngineException β) (v : β)
    (f : β → Except EngineException γ) (h : x = Except.ok v) :
    (x >>= f) = f v := by
  subst h; rfl

end Validate

variable {α : Type} [LinearOrderedField α]

/-! ## Engine / exercise mismatch -/

/-- C1: an `AnalyticEuropeanEngine` given a payoff whose exercise is American fails with
`IncorrectEngineException` in each of `getEnginePrice`, `getEngineDelta`,
`getEngineGamma`, `getEngineVega` and `getEngineTheta`, and the same failure is what
`VanillaOption.getPrice` hands to its caller. -/
theorem analyticEuropean_rejects_American (m : NumLib α) (e : AnalyticEuropeanEngine α)
    (payoff : Payoff α) (h : payoff.getExercise = Exercise.American) :
    e.getEnginePrice m payoff = Except.error
        (EngineException.IncorrectEngineException
          "Only European Options have analytic solution.") ∧
    e.getEngineDelta m payoff = Except.error
        (EngineException.IncorrectEngineException
          "Only European Options have analytic solution.") ∧
    e.getEngineGamma m payoff = Except.error
        (EngineException.IncorrectEngineException
          "Only European Options have analytic solution.") ∧
    e.getEngineVega m payoff = Except.error
        (EngineException.IncorrectEngineException
          "Only European Options have analytic solution.") ∧
    e.getEngineTheta m payoff = Except.error
        (EngineException.IncorrectEngineException
          "Only European Options have analytic solution.") ∧
    VanillaOption.getPrice
        { _payoff := payoff, _engine := some (PricingEngine.analyticEuropean e) } m =
      some (Except.error
        (EngineException.IncorrectEngineException
          "Only European Options have analytic solution.")) := by
  have hv := analyticEuropean_validate_American e
  have hP : e.getEnginePrice m payoff = Except.error
      (EngineException.IncorrectEngineException
        "Only European Options have analytic solution.") := by
    unfold AnalyticEuropeanEngine.getEnginePrice
    rw [h]
    exact bind_error_eq _ _ _ hv
  refine ⟨hP, ?_, ?_, ?_, ?_, ?_⟩
  · unfold AnalyticEuropeanEngine.getEngineDelta
    rw [h]
    exact bind_error_eq _ _ _ hv
  · unfold AnalyticEuropeanEngine.getEngineGamma
    rw [h]
    exact bind_error_eq _ _ _ hv
  · unfold AnalyticEuropeanEngine.getEngineVega
    rw [h]
    exact bind_error_eq _ _ _ hv
  · unfold AnalyticEuropeanEngine.getEngineTheta
    rw [h]
    exact bind_error_eq _ _ _ hv
  · simp only [VanillaOption.getPrice, PricingEngine.getEnginePrice, hP]

/-- C1 at a concrete input: the engine `(S, sigma, r, b) = (60, 0.3, 0.08, 0.08)` and the
American Call payoff with maturity `0.25` and strike `65`. -/
theorem analyticEuropean_rejects_American_witness :
    (Payoff.getExercise
        ({ _maturity := 1 / 4, _strike := 65, _type := PayoffType.Call,
           _exercise := Exercise.American } : Payoff ℚ) = Exercise.American) ∧
    (AnalyticEuropeanEngine.getEnginePrice
        ({ _S := 60, _sigma := 3 / 10, _r := 2 / 25, _b := 2 / 25 } :
          AnalyticEuropeanEngine ℚ) ratLib
        ({ _maturity := 1 / 4, _strike := 65, _type := PayoffType.Call,
           _exercise := Exercise.American } : Payoff ℚ) =
      Except.error (EngineException.IncorrectEngineException
        "Only European Options have analytic solution.")) :=
  ⟨rfl,
    (analyticEuropean_rejects_American ratLib
      { _S := 60, _sigma := 3 / 10, _r := 2 / 25, _b := 2 / 25 }
      { _maturity := 1 / 4, _strike := 65, _type := PayoffType.Call,
        _exercise := Exercise.American } rfl).1⟩

/-- C2 as stated fails: on a European payoff the perpetual engine's `getEngineDelta`,
`getEngineGamma`, `getEngineTheta` and `getEngineVega` do not fail, they return `-1.0`. -/
theorem perpetual_greeks_European_counterexample :
    (Payoff.getExercise
        ({ _maturity := 1, _strike := 100, _type := PayoffType.Call,
           _exercise := Exercise.European } : Payoff ℚ) = Exercise.European) ∧
    (AnalyticAmericanPerpetualEngine.getEngineDelta
        ({ _S := 110, _sigma := 1 / 10, _r := 1 / 10, _b := 1 / 50 } :
          AnalyticAmericanPerpetualEngine ℚ)
        { _maturity := 1, _strike := 100, _type := PayoffType.Call,
          _exercise := Exercise.European } = Except.ok (-1.0)) ∧
    (AnalyticAmericanPerpetualEngine.getEngineDelta
        ({ _S := 110, _sigma := 1 / 10, _r := 1 / 10, _b := 1 / 50 } :
          AnalyticAmericanPerpetualEngine ℚ)
        { _maturity := 1, _strike := 100, _type := PayoffType.Call,
          _exercise := Exercise.European } ≠
      Except.error (EngineException.IncorrectEngineException
        "Only American options have perpetual engine pricing.")) :=
  ⟨rfl, rfl, by intro h; cases h⟩

/-- C2, amended: on a payoff whose exercise is European the perpetual engine's
`getEnginePrice` fails with `IncorrectEngineException`, while `getEngineDelta`,
`getEngineGamma`, `getEngineTheta` and `getEngineVega` return `-1.0` without validating. -/
theorem perpetual_on_European (m : NumLib α) (e : AnalyticAmericanPerpetualEngine α)
    (payoff : Payoff α) (h : payoff.getExercise = Exercise.European) :
    e.getEnginePrice m payoff = Except.error
        (EngineException.IncorrectEngineException
          "Only American options have perpetual engine pricing.") ∧
    e.getEngineDelta payoff = Except.ok (-1.0) ∧
    e.getEngineGamma payoff = Except.ok (-1.0) ∧
    e.getEngineTheta payoff = Except.ok (-1.0) ∧
    e.getEngineVega payoff = Except.ok (-1.0) := by
  refine ⟨?_, rfl, rfl, rfl, rfl⟩
  unfold AnalyticAmericanPerpetualEngine.getEnginePrice
  rw [h]
  exact bind_error_eq _ _ _ (perpetual_validate_European e)

/-- C2, amended, at a concrete input: the engine `(110, 0.1, 0.1, 0.02)` and a European
Call payoff with strike `100`. -/
theorem perpetual_on_European_witness :
    (Payoff.getExercise
        ({ _maturity := 1, _strike := 100, _type := PayoffType.Call,
           _exercise := Exercise.European } : Payoff ℚ) = Exercise.European) ∧
    (AnalyticAmericanPerpetualEngine.getEnginePrice
        ({ _S := 110, _sigma := 1 / 10, _r := 1 / 10, _b := 1 / 50 } :
          AnalyticAmericanPerpetualEngine ℚ) ratLib
        ({ _maturity := 1, _strike := 100, _type := PayoffType.Call,
           _exercise := Exercise.European } : Payoff ℚ) =
      Except.error (EngineException.IncorrectEngineException
        "Only American options have perpetual engine pricing.")) :=
  ⟨rfl,
    (perpetual_on_European ratLib
      { _S := 110, _sigma := 1 / 10, _r := 1 / 10, _b := 1 / 50 }
      { _maturity := 1, _strike := 100, _type := PayoffType.Call,
        _exercise := Exercise.European } rfl).1⟩

/-- C3 as stated fails: on an American payoff the numerical engine's `getEnginePrice`,
`getEngineTheta` and `getEngineVega` do not validate and do not fail, they return `-1.0`. -/
theorem numerical_stubs_American_counterexample :
    (Payoff.getExercise
        ({ _maturity := 1 / 2, _strike := 100, _type := PayoffType.Call,
           _exercise := Exercise.American } : Payoff ℚ) = Exercise.American) ∧
    (NumericalEuropeanEngine.getEnginePrice
        (NumericalEuropeanEngine.new 105 (9 / 25) (1 / 10) 0 : NumericalEuropeanEngine ℚ)
        { _maturity := 1 / 2, _strike := 100, _type := PayoffType.Call,
          _exercise := Exercise.American } = Except.ok (-1.0)) ∧
    (NumericalEuropeanEngine.getEnginePrice
        (NumericalEuropeanEngine.new 105 (9 / 25) (1 / 10) 0 : NumericalEuropeanEngine ℚ)
        { _maturity := 1 / 2, _strike := 100, _type := PayoffType.Call,
          _exercise := Exercise.American } ≠
      Except.error (EngineException.IncorrectEngineException
        "Only European Options have analytic solution.")) :=
  ⟨rfl, rfl, by intro h; cases h⟩

/-- C3, amended: on a payoff whose exercise is American the numerical engine's
`getEngineDelta` and `getEngineGamma` validate first and fail with
`IncorrectEngineException`, while `getEnginePrice`, `getEngineTheta` and `getEngineVega`
return `-1.0` without validating. -/
theorem numerical_on_American (m : NumLib α) (e : NumericalEuropeanEngine α)
    (payoff : Payoff α) (h : payoff.getExercise = Exercise.American) :
    e.getEngineDelta m payoff = Except.error
        (EngineException.IncorrectEngineException
          "Only European Options have analytic solution.") ∧
    e.getEngineGamma m payoff = Except.error
        (EngineException.IncorrectEngineException
          "Only European Options have analytic solution.") ∧
    e.getEnginePrice payoff = Except.ok (-1.0) ∧
    e.getEngineTheta payoff = Except.ok (-1.0) ∧
    e.getEngineVega payoff = Except.ok (-1.0) := by
  refine ⟨?_, ?_, rfl, rfl, rfl⟩
  · unfold NumericalEuropeanEngine.getEngineDelta
    rw [h]
    exact bind_error_eq _ _ _ (numerical_validate_American e)
  · unfold NumericalEuropeanEngine.getEngineGamma
    rw [h]
    exact bind_error_eq _ _ _ (numerical_validate_American e)

/-- C3, amended, at a concrete input: the engine built from `(105, 0.36, 0.1, 0)` and an
American Call payoff with maturity `0.5` and strike `100`. -/
theorem numerical_on_American_witness :
    (Payoff.getExercise
        ({ _maturity := 1 / 2, _strike := 100, _type := PayoffType.Call,
           _exercise := Exercise.American } : Payoff ℚ) = Exercise.American) ∧
    (NumericalEuropeanEngine.getEngineDelta
        (NumericalEuropeanEngine.new 105 (9 / 25) (1 / 10) 0) ratLib
        ({ _maturity := 1 / 2, _strike := 100, _type := PayoffType.Call,
           _exercise := Exercise.American } : Payoff ℚ) =
      Except.error (EngineException.IncorrectEngineException
        "Only European Options have analytic solution.")) :=
  ⟨rfl,
    (numerical_on_American ratLib (NumericalEuropeanEngine.new 105 (9 / 25) (1 / 10) 0)
      { _maturity := 1 / 2, _strike := 100, _type := PayoffType.Call,
        _exercise := Exercise.American } rfl).1⟩

/-- C4: for each engine variant `validate` fails with `IncorrectEngineException` exactly
when the exercise differs from the supported style (European for the analytic European
and the numerical engine, American for the perpetual engine), and returns normally
exactly on the supported style. -/
theorem validate_fails_iff_unsupported {α : Type} (exercise : Exercise)
    (ae : AnalyticEuropeanEngine α) (pe : AnalyticAmericanPerpetualEngine α)
    (ne : NumericalEuropeanEngine α) :
    ((ae.validate exercise = Except.error
        (EngineException.IncorrectEngineException
          "Only European Options have analytic solution.") ↔
        exercise ≠ Exercise.European) ∧
      (ae.validate exercise = Except.ok () ↔ exercise = Exercise.European)) ∧
    ((ne.validate exercise = Except.error
        (EngineException.IncorrectEngineException
          "Only European Options have analytic solution.") ↔
        exercise ≠ Exercise.European) ∧
      (ne.validate exercise = Except.ok () ↔ exercise = Exercise.European)) ∧
    ((pe.validate exercise = Except.error
        (EngineException.IncorrectEngineException
          "Only American options have perpetual engine pricing.") ↔
        exercise ≠ Exercise.American) ∧
      (pe.validate exercise = Except.ok () ↔ exercise = Exercise.American)) := by
  cases exercise <;>
    simp [analyticEuropean_validate_European, analyticEuropean_validate_American,
      numerical_validate_European, numerical_validate_American,
      perpetual_validate_European,
      perpetual_validate_American]

/-! ## The analytic European engine on European payoffs -/

/-- On a European payoff `getEngineCallPrice` passes `validate` and returns its `price`. -/
theorem analyticEuropean_callPrice_ok (m : NumLib α) (e : AnalyticEuropeanEngine α)
    (payoff : Payoff α) (h : payoff.getExercise = Exercise.European) :
    e.getEngineCallPrice m payoff = Except.ok
      (e._S * m.exp ((e._b - e._r) * payoff.getMaturity)
          * m.cdf ((m.log (e._S / payoff.getStrike)
              + (e._b + e._sigma * e._sigma / 2) * payoff.getMaturity)
            / (e._sigma * m.sqrt payoff.getMaturity))
        - payoff.getStrike * m.exp (-e._r * payoff.getMaturity)
          * m.cdf ((m.log (e._S / payoff.getStrike)
              + (e._b + e._sigma * e._sigma / 2) * payoff.getMaturity)
            / (e._sigma * m.sqrt payoff.getMaturity)
            - e._sigma * m.sqrt payoff.getMaturity)) := by
  unfold AnalyticEuropeanEngine.getEngineCallPrice
  rw [h]
  rfl

/-- On a European Call payoff `getEnginePrice` takes the `getEngineCallPrice` branch. -/
theorem analyticEuropean_price_Call (m : NumLib α) (e : AnalyticEuropeanEngine α)
    (payoff : Payoff α) (h : payoff.getExercise = Exercise.European)
    (ht : payoff.getType = PayoffType.Call) :
    e.getEnginePrice m payoff = e.getEngineCallPrice m payoff := by
  unfold AnalyticEuropeanEngine.getEnginePrice
  rw [h, ht]
  rfl

/-- On a European Put payoff `getEnginePrice` takes the `getEnginePutPrice` branch, which
adjusts the call price. -/
theorem analyticEuropean_price_Put (m : NumLib α) (e : AnalyticEuropeanEngine α)
    (payoff : Payoff α) (h : payoff.getExercise = Exercise.European)
    (ht : payoff.getType = PayoffType.Put) :
    e.getEnginePrice m payoff =
      (e.getEngineCallPrice m payoff >>= fun callPrice =>
        Except.ok (callPrice - e._S + payoff.getStrike * m.exp (-e._r * payoff.getMaturity))) := by
  unfold AnalyticEuropeanEngine.getEnginePrice
  rw [h, ht]
  rfl

/-- C5: for every engine `(S, sigma, r, b)` and every strike `K` and maturity `T`, the
prices the engine returns for the European Call and the European Put satisfy
`call - put = S - K * exp(-r T)`, and `satisfy_put_call_parity` with the default epsilon
accepts them. -/
theorem analyticEuropean_put_call_parity (m : NumLib α) (e : AnalyticEuropeanEngine α)
    (K T : α) :
    ∃ call put : α,
      e.getEnginePrice m
          { _maturity := T, _strike := K, _type := PayoffType.Call,
            _exercise := Exercise.European } = Except.ok call ∧
      e.getEnginePrice m
          { _maturity := T, _strike := K, _type := PayoffType.Put,
            _exercise := Exercise.European } = Except.ok put ∧
      call - put = e._S - K * m.exp (-(e._r * T)) ∧
      AnalyticEuropeanEngine.satisfy_put_call_parity m call put K e._S e._r T = true := by
  have hcall := analyticEuropean_price_Call m e
    ⟨T, K, PayoffType.Call, Exercise.European⟩ rfl rfl
  rw [analyticEuropean_callPrice_ok m e
    ⟨T, K, PayoffType.Call, Exercise.European⟩ rfl] at hcall
  have hput := analyticEuropean_price_Put m e
    ⟨T, K, PayoffType.Put, Exercise.European⟩ rfl rfl
  rw [analyticEuropean_callPrice_ok m e ⟨T, K, PayoffType.Put, Exercise.European⟩ rfl,
    bind_ok_eq _ _ _ rfl] at hput
  refine ⟨_, _, hcall, hput, ?_, ?_⟩
  · simp only [Payoff.getStrike, Payoff.getMaturity, neg_mul]
    ring
  · unfold AnalyticEuropeanEngine.satisfy_put_call_parity
    simp only [Payoff.getStrike, Payoff.getMaturity, decide_eq_true_eq]
    have h0 : ∀ c x : α, c - (c - e._S + x) - e._S + x = 0 := fun c x => by ring
    rw [h0, abs_zero]
    norm_num

/-- C6: `satisfy_put_call_parity` returns true exactly when
`|call - put - S + K * exp(-r T)| ≤ epsilon`, the bound included, and when `epsilon` is
left out the bound is `10⁻⁶`. -/
theorem satisfy_put_call_parity_iff (m : NumLib α) (call put K S r T epsilon : α) :
    (AnalyticEuropeanEngine.satisfy_put_call_parity m call put K S r T epsilon = true ↔
      |call - put - S + K * m.exp (-(r * T))| ≤ epsilon) ∧
    (AnalyticEuropeanEngine.satisfy_put_call_parity m call put K S r T = true ↔
      |call - put - S + K * m.exp (-(r * T))| ≤ 1 / 1000000) := by
  unfold AnalyticEuropeanEngine.satisfy_put_call_parity
  simp only [decide_eq_true_eq, neg_mul]
  norm_num

/-- C7: on a European payoff `(K, T)` `getEnginePrice` returns, for a Call,
`S e^((b-r)T) N(d1) - K e^(-rT) N(d2)` with
`d1 = (ln(S/K) + (b + sigma²/2) T) / (sigma √T)` and `d2 = d1 - sigma √T`, and for a Put
that Call value minus `S` plus `K e^(-rT)`. -/
theorem analyticEuropean_price_formula (m : NumLib α) (e : AnalyticEuropeanEngine α)
    (K T : α) :
    let d1 := (m.log (e._S / K) + (e._b + e._sigma ^ 2 / 2) * T) / (e._sigma * m.sqrt T)
    let d2 := d1 - e._sigma * m.sqrt T
    let call :=
      e._S * m.exp ((e._b - e._r) * T) * m.cdf d1 - K * m.exp (-(e._r * T)) * m.cdf d2
    e.getEnginePrice m
        { _maturity := T, _strike := K, _type := PayoffType.Call,
          _exercise := Exercise.European } = Except.ok call ∧
    e.getEnginePrice m
        { _maturity := T, _strike := K, _type := PayoffType.Put,
          _exercise := Exercise.European } =
      Except.ok (call - e._S + K * m.exp (-(e._r * T))) := by
  intro d1 d2 call
  constructor
  · rw [analyticEuropean_price_Call m e ⟨T, K, PayoffType.Call, Exercise.European⟩ rfl rfl,
      analyticEuropean_callPrice_ok m e ⟨T, K, PayoffType.Call, Exercise.European⟩ rfl]
    simp only [Payoff.getStrike, Payoff.getMaturity, ← sq, neg_mul]
  · rw [analyticEuropean_price_Put m e ⟨T, K, PayoffType.Put, Exercise.European⟩ rfl rfl,
      analyticEuropean_callPrice_ok m e ⟨T, K, PayoffType.Put, Exercise.European⟩ rfl]
    simp only [Payoff.getStrike, Payoff.getMaturity, ← sq, neg_mul]
    rfl

/-- C8: on a European payoff `getEngineDelta` returns `e^((b-r)T) N(d1)` for a Call and
`-e^((b-r)T) N(-d1)` for a Put, with `d1 = (ln(S/K) + (b + sigma²/2) T) / (sigma √T)`. -/
theorem analyticEuropean_delta_formula (m : NumLib α) (e : AnalyticEuropeanEngine α)
    (K T : α) :
    let d1 := (m.log (e._S / K) + (e._b + e._sigma ^ 2 / 2) * T) / (e._sigma * m.sqrt T)
    e.getEngineDelta m
        { _maturity := T, _strike := K, _type := PayoffType.Call,
          _exercise := Exercise.European } =
      Except.ok (m.exp ((e._b - e._r) * T) * m.cdf d1) ∧
    e.getEngineDelta m
        { _maturity := T, _strike := K, _type := PayoffType.Put,
          _exercise := Exercise.European } =
      Except.ok (-m.exp ((e._b - e._r) * T) * m.cdf (-d1)) := by
  intro d1
  constructor
  · unfold AnalyticEuropeanEngine.getEngineDelta
    simp only [Payoff.getExercise, Payoff.getType, Payoff.getStrike, Payoff.getMaturity,
      ← sq]
    rfl
  · unfold AnalyticEuropeanEngine.getEngineDelta
    simp only [Payoff.getExercise, Payoff.getType, Payoff.getStrike, Payoff.getMaturity,
      ← sq, neg_mul]
    rfl

/-- C9: on a European payoff `getEngineGamma` returns
`n(d1) e^((b-r)T) / (S sigma √T)`, the same value for a Call and for a Put of equal strike
and maturity. -/
theorem analyticEuropean_gamma_formula (m : NumLib α) (e : AnalyticEuropeanEngine α)
    (K T : α) :
    let d1 := (m.log (e._S / K) + (e._b + e._sigma ^ 2 / 2) * T) / (e._sigma * m.sqrt T)
    e.getEngineGamma m
        { _maturity := T, _strike := K, _type := PayoffType.Call,
          _exercise := Exercise.European } =
      Except.ok (m.pdf d1 * m.exp ((e._b - e._r) * T) / (e._S * e._sigma * m.sqrt T)) ∧
    e.getEngineGamma m
        { _maturity := T, _strike := K, _type := PayoffType.Put,
          _exercise := Exercise.European } =
      e.getEngineGamma m
        { _maturity := T, _strike := K, _type := PayoffType.Call,
          _exercise := Exercise.European } := by
  intro d1
  constructor
  · unfold AnalyticEuropeanEngine.getEngineGamma
    simp only [Payoff.getExercise, Payoff.getStrike, Payoff.getMaturity, ← sq]
    rfl
  · rfl

/-- C10: on a European payoff of either type `getEngineVega` returns
`S √T e^((b-r)T) n(d1) / 100`. -/
theorem analyticEuropean_vega_formula (m : NumLib α) (e : AnalyticEuropeanEngine α)
    (K T : α) (type : PayoffType) :
    let d1 := (m.log (e._S / K) + (e._b + e._sigma ^ 2 / 2) * T) / (e._sigma * m.sqrt T)
    e.getEngineVega m
        { _maturity := T, _strike := K, _type := type, _exercise := Exercise.European } =
      Except.ok (e._S * m.sqrt T * m.exp ((e._b - e._r) * T) * m.pdf d1 / 100) := by
  intro d1
  unfold AnalyticEuropeanEngine.getEngineVega
  simp only [Payoff.getExercise, Payoff.getStrike, Payoff.getMaturity, ← sq]
  rfl

/-- C11: on a European payoff `getEngineTheta` returns, for a Call,
`-S sigma e^((b-r)T) n(d1) / (2 √T) - (b-r) S e^((b-r)T) N(d1) - r K e^(-rT) N(d2)`, and
for a Put the same first term with the drift and rate terms added instead and `N` taken
at `-d1` and `-d2`. -/
theorem analyticEuropean_theta_formula (m : NumLib α) (e : AnalyticEuropeanEngine α)
    (K T : α) :
    let d1 := (m.log (e._S / K) + (e._b + e._sigma ^ 2 / 2) * T) / (e._sigma * m.sqrt T)
    let d2 := d1 - e._sigma * m.sqrt T
    e.getEngineTheta m
        { _maturity := T, _strike := K, _type := PayoffType.Call,
          _exercise := Exercise.European } =
      Except.ok
        (-e._S * e._sigma * m.exp ((e._b - e._r) * T) * m.pdf d1 / (2 * m.sqrt T)
          - (e._b - e._r) * e._S * m.exp ((e._b - e._r) * T) * m.cdf d1
          - e._r * K * m.exp (-(e._r * T)) * m.cdf d2) ∧
    e.getEngineTheta m
        { _maturity := T, _strike := K, _type := PayoffType.Put,
          _exercise := Exercise.European } =
      Except.ok
        (-e._S * e._sigma * m.exp ((e._b - e._r) * T) * m.pdf d1 / (2 * m.sqrt T)
          + (e._b - e._r) * e._S * m.exp ((e._b - e._r) * T) * m.cdf (-d1)
          + e._r * K * m.exp (-(e._r * T)) * m.cdf (-d2)) := by
  intro d1 d2
  have hfirst : ∀ a b c d f : α, -(a * b * c * d) / f = -a * b * c * d / f := by
    intro a b c d f; ring
  constructor
  · unfold AnalyticEuropeanEngine.getEngineTheta
    simp only [Payoff.getExercise, Payoff.getType, Payoff.getStrike, Payoff.getMaturity,
      ← sq, neg_mul, hfirst]
    rfl
  · unfold AnalyticEuropeanEngine.getEngineTheta
    simp only [Payoff.getExercise, Payoff.getType, Payoff.getStrike, Payoff.getMaturity,
      ← sq, neg_mul, hfirst]
    rfl

/-! ## The perpetual engine on American payoffs -/

/-- On an American payoff `getEngineCallPrice` passes `validate` and returns its `price`. -/
theorem perpetual_callPrice_ok (m : NumLib α) (e : AnalyticAmericanPerpetualEngine α)
    (payoff : Payoff α) (h : payoff.getExercise = Exercise.American) :
    e.getEngineCallPrice m payoff = Except.ok
      (payoff.getStrike
          / (0.5 - e._b / (e._sigma * e._sigma)
              + m.sqrt (m.pow (e._b / (e._sigma * e._sigma) - 0.5) 2
                  + (2 * e._r) / (e._sigma * e._sigma)) - 1)
        * m.pow
            (((0.5 - e._b / (e._sigma * e._sigma)
                  + m.sqrt (m.pow (e._b / (e._sigma * e._sigma) - 0.5) 2
                      + (2 * e._r) / (e._sigma * e._sigma)) - 1) * e._S)
              / ((0.5 - e._b / (e._sigma * e._sigma)
                  + m.sqrt (m.pow (e._b / (e._sigma * e._sigma) - 0.5) 2
                      + (2 * e._r) / (e._sigma * e._sigma))) * payoff.getStrike))
            (0.5 - e._b / (e._sigma * e._sigma)
              + m.sqrt (m.pow (e._b / (e._sigma * e._sigma) - 0.5) 2
                  + (2 * e._r) / (e._sigma * e._sigma)))) := by
  unfold AnalyticAmericanPerpetualEngine.getEngineCallPrice
  rw [h]
  rfl

/-- On an American payoff `getEnginePutPrice` passes `validate` and returns its `price`. -/
theorem perpetual_putPrice_ok (m : NumLib α) (e : AnalyticAmericanPerpetualEngine α)
    (payoff : Payoff α) (h : payoff.getExercise = Exercise.American) :
    e.getEnginePutPrice m payoff = Except.ok
      (payoff.getStrike
          / (1 - (0.5 - e._b / (e._sigma * e._sigma)
              - m.sqrt (m.pow (e._b / (e._sigma * e._sigma) - 0.5) 2
                  + (2 * e._r) / (e._sigma * e._sigma))))
        * m.pow
            (((0.5 - e._b / (e._sigma * e._sigma)
                  - m.sqrt (m.pow (e._b / (e._sigma * e._sigma) - 0.5) 2
                      + (2 * e._r) / (e._sigma * e._sigma)) - 1) * e._S)
              / ((0.5 - e._b / (e._sigma * e._sigma)
                  - m.sqrt (m.pow (e._b / (e._sigma * e._sigma) - 0.5) 2
                      + (2 * e._r) / (e._sigma * e._sigma))) * payoff.getStrike))
            (0.5 - e._b / (e._sigma * e._sigma)
              - m.sqrt (m.pow (e._b / (e._sigma * e._sigma) - 0.5) 2
                  + (2 * e._r) / (e._sigma * e._sigma)))) := by
  unfold AnalyticAmericanPerpetualEngine.getEnginePutPrice
  rw [h]
  rfl

/-- On an American Call payoff `getEnginePrice` takes the `getEngineCallPrice` branch. -/
theorem perpetual_price_Call (m : NumLib α) (e : AnalyticAmericanPerpetualEngine α)
    (payoff : Payoff α) (h : payoff.getExercise = Exercise.American)
    (ht : payoff.getType = PayoffType.Call) :
    e.getEnginePrice m payoff = e.getEngineCallPrice m payoff := by
  unfold AnalyticAmericanPerpetualEngine.getEnginePrice
  rw [h, ht]
  rfl

/-- On an American Put payoff `getEnginePrice` takes the `getEnginePutPrice` branch. -/
theorem perpetual_price_Put (m : NumLib α) (e : AnalyticAmericanPerpetualEngine α)
    (payoff : Payoff α) (h : payoff.getExercise = Exercise.American)
    (ht : payoff.getType = PayoffType.Put) :
    e.getEnginePrice m payoff = e.getEnginePutPrice m payoff := by
  unfold AnalyticAmericanPerpetualEngine.getEnginePrice
  rw [h, ht]
  rfl

/-- C12: on an American payoff with strike `K` the perpetual engine's `getEnginePrice`
returns `K/(y1-1) * ((y1-1) S / (y1 K))^y1` for a Call and
`K/(1-y2) * ((y2-1) S / (y2 K))^y2` for a Put, where `y1`, `y2` are
`0.5 - b/sigma² ± √((b/sigma² - 0.5)² + 2r/sigma²)`; the inner square is computed by
`std::pow(·, 2)`, taken here to be the square. -/
theorem perpetual_price_formula (m : NumLib α) (e : AnalyticAmericanPerpetualEngine α)
    (K T : α) (hsq : ∀ x : α, m.pow x 2 = x ^ 2) :
    let root := m.sqrt ((e._b / e._sigma ^ 2 - 0.5) ^ 2 + 2 * e._r / e._sigma ^ 2)
    let y1 := 0.5 - e._b / e._sigma ^ 2 + root
    let y2 := 0.5 - e._b / e._sigma ^ 2 - root
    e.getEnginePrice m
        { _maturity := T, _strike := K, _type := PayoffType.Call,
          _exercise := Exercise.American } =
      Except.ok (K / (y1 - 1) * m.pow ((y1 - 1) * e._S / (y1 * K)) y1) ∧
    e.getEnginePrice m
        { _maturity := T, _strike := K, _type := PayoffType.Put,
          _exercise := Exercise.American } =
      Except.ok (K / (1 - y2) * m.pow ((y2 - 1) * e._S / (y2 * K)) y2) := by
  intro root y1 y2
  constructor
  · rw [perpetual_price_Call m e ⟨T, K, PayoffType.Call, Exercise.American⟩ rfl rfl,
      perpetual_callPrice_ok m e ⟨T, K, PayoffType.Call, Exercise.American⟩ rfl]
    simp only [Payoff.getStrike, ← sq, hsq]
  · rw [perpetual_price_Put m e ⟨T, K, PayoffType.Put, Exercise.American⟩ rfl rfl,
      perpetual_putPrice_ok m e ⟨T, K, PayoffType.Put, Exercise.American⟩ rfl]
    simp only [Payoff.getStrike, ← sq, hsq]

/-- C12 at a concrete input: the real library, the engine `(110, 0.1, 0.1, 0.02)` and
the American payoffs with strike `100`. -/
theorem perpetual_price_formula_witness :
    let m : NumLib ℝ :=
      { log := Real.log, exp := Real.exp, sqrt := Real.sqrt, pow := fun x y => x ^ y,
        cdf := fun x => ProbabilityTheory.cdf (ProbabilityTheory.gaussianReal 0 1) x,
        pdf := ProbabilityTheory.gaussianPDFReal 0 1 }
    let e : AnalyticAmericanPerpetualEngine ℝ :=
      { _S := 110, _sigma := 1 / 10, _r := 1 / 10, _b := 1 / 50 }
    (∀ x : ℝ, m.pow x 2 = x ^ 2) ∧
    (let root := m.sqrt ((e._b / e._sigma ^ 2 - 0.5) ^ 2 + 2 * e._r / e._sigma ^ 2)
     let y1 := 0.5 - e._b / e._sigma ^ 2 + root
     let y2 := 0.5 - e._b / e._sigma ^ 2 - root
     e.getEnginePrice m
         { _maturity := 1, _strike := 100, _type := PayoffType.Call,
           _exercise := Exercise.American } =
       Except.ok (100 / (y1 - 1) * m.pow ((y1 - 1) * e._S / (y1 * 100)) y1) ∧
     e.getEnginePrice m
         { _maturity := 1, _strike := 100, _type := PayoffType.Put,
           _exercise := Exercise.American } =
       Except.ok (100 / (1 - y2) * m.pow ((y2 - 1) * e._S / (y2 * 100)) y2)) := by
  intro m e
  exact ⟨fun x => Real.rpow_two x, perpetual_price_formula m e 100 1 (fun x => Real.rpow_two x)⟩

/-- C13: the perpetual engine's price does not depend on the payoff's maturity: two
American payoffs with the same strike and type get the same price, whatever their
maturities hold. -/
theorem perpetual_price_ignores_maturity (m : NumLib α)
    (e : AnalyticAmericanPerpetualEngine α) (K T₁ T₂ : α) (type : PayoffType) :
    ∃ price : α,
      e.getEnginePrice m
          { _maturity := T₁, _strike := K, _type := type,
            _exercise := Exercise.American } = Except.ok price ∧
      e.getEnginePrice m
          { _maturity := T₂, _strike := K, _type := type,
            _exercise := Exercise.American } = Except.ok price := by
  cases type
  · exact ⟨_,
      (perpetual_price_Call m e ⟨T₁, K, PayoffType.Call, Exercise.American⟩ rfl rfl).trans
        (perpetual_callPrice_ok m e ⟨T₁, K, PayoffType.Call, Exercise.American⟩ rfl),
      (perpetual_price_Call m e ⟨T₂, K, PayoffType.Call, Exercise.American⟩ rfl rfl).trans
        (perpetual_callPrice_ok m e ⟨T₂, K, PayoffType.Call, Exercise.American⟩ rfl)⟩
  · exact ⟨_,
      (perpetual_price_Put m e ⟨T₁, K, PayoffType.Put, Exercise.American⟩ rfl rfl).trans
        (perpetual_putPrice_ok m e ⟨T₁, K, PayoffType.Put, Exercise.American⟩ rfl),
      (perpetual_price_Put m e ⟨T₂, K, PayoffType.Put, Exercise.American⟩ rfl rfl).trans
        (perpetual_putPrice_ok m e ⟨T₂, K, PayoffType.Put, Exercise.American⟩ rfl)⟩

/-- C14: on every American payoff the perpetual engine's `getEngineDelta`,
`getEngineGamma`, `getEngineTheta` and `getEngineVega` each return `-1` and do not
fail. -/
theorem perpetual_greeks_sentinel (e : AnalyticAmericanPerpetualEngine α) (K T : α)
    (type : PayoffType) :
    e.getEngineDelta
        { _maturity := T, _strike := K, _type := type, _exercise := Exercise.American } =
      Except.ok (-1) ∧
    e.getEngineGamma
        { _maturity := T, _strike := K, _type := type, _exercise := Exercise.American } =
      Except.ok (-1) ∧
    e.getEngineTheta
        { _maturity := T, _strike := K, _type := type, _exercise := Exercise.American } =
      Except.ok (-1) ∧
    e.getEngineVega
        { _maturity := T, _strike := K, _type := type, _exercise := Exercise.American } =
      Except.ok (-1) := by
  have h1 : (-1.0 : α) = -1 := by norm_num
  simp only [AnalyticAmericanPerpetualEngine.getEngineDelta,
    AnalyticAmericanPerpetualEngine.getEngineGamma,
    AnalyticAmericanPerpetualEngine.getEngineTheta,
    AnalyticAmericanPerpetualEngine.getEngineVega, pure, Except.pure, h1, and_self]

/-! ## The numerical engine on European payoffs -/

/-- C15: on every European payoff the numerical engine's `getEnginePrice`,
`getEngineTheta` and `getEngineVega` each return `-1` and do not fail. -/
theorem numerical_stubs_sentinel (e : NumericalEuropeanEngine α) (K T : α)
    (type : PayoffType) :
    e.getEnginePrice
        { _maturity := T, _strike := K, _type := type, _exercise := Exercise.European } =
      Except.ok (-1) ∧
    e.getEngineTheta
        { _maturity := T, _strike := K, _type := type, _exercise := Exercise.European } =
      Except.ok (-1) ∧
    e.getEngineVega
        { _maturity := T, _strike := K, _type := type, _exercise := Exercise.European } =
      Except.ok (-1) := by
  have h1 : (-1.0 : α) = -1 := by norm_num
  simp only [NumericalEuropeanEngine.getEnginePrice, NumericalEuropeanEngine.getEngineTheta,
    NumericalEuropeanEngine.getEngineVega, pure, Except.pure, h1, and_self]

/-- The step of an engine built by the constructor is one hundredth. -/
theorem numerical_new_h (S sigma r b : α) :
    (NumericalEuropeanEngine.new S sigma r b)._h = 1 / 100 := by
  show (0.01 : α) = 1 / 100
  norm_num

/-- On a European payoff `getEngineDelta` is the central difference of the internal price
of the payoff's type, with the engine's own `_S` and `_h`. -/
theorem numerical_delta_ok (m : NumLib α) (e : NumericalEuropeanEngine α) (K T : α) :
    e.getEngineDelta m ⟨T, K, PayoffType.Call, Exercise.European⟩ =
      Except.ok
        ((e.getAnalyticCallPrice m ⟨T, K, PayoffType.Call, Exercise.European⟩ (e._S + e._h)
          - e.getAnalyticCallPrice m ⟨T, K, PayoffType.Call, Exercise.European⟩
              (e._S - e._h)) / (2 * e._h)) ∧
    e.getEngineDelta m ⟨T, K, PayoffType.Put, Exercise.European⟩ =
      Except.ok
        ((e.getAnalyticPutPrice m ⟨T, K, PayoffType.Put, Exercise.European⟩ (e._S + e._h)
          - e.getAnalyticPutPrice m ⟨T, K, PayoffType.Put, Exercise.European⟩
              (e._S - e._h)) / (2 * e._h)) :=
  ⟨rfl, rfl⟩

/-- On a European payoff `getEngineGamma` is the second central difference of the
internal price of the payoff's type, with the engine's own `_S` and `_h`. -/
theorem numerical_gamma_ok (m : NumLib α) (e : NumericalEuropeanEngine α) (K T : α) :
    e.getEngineGamma m ⟨T, K, PayoffType.Call, Exercise.European⟩ =
      Except.ok
        ((e.getAnalyticCallPrice m ⟨T, K, PayoffType.Call, Exercise.European⟩ (e._S + e._h)
          - 2 * e.getAnalyticCallPrice m ⟨T, K, PayoffType.Call, Exercise.European⟩ e._S
          + e.getAnalyticCallPrice m ⟨T, K, PayoffType.Call, Exercise.European⟩
              (e._S - e._h)) / (e._h * e._h)) ∧
    e.getEngineGamma m ⟨T, K, PayoffType.Put, Exercise.European⟩ =
      Except.ok
        ((e.getAnalyticPutPrice m ⟨T, K, PayoffType.Put, Exercise.European⟩ (e._S + e._h)
          - 2 * e.getAnalyticPutPrice m ⟨T, K, PayoffType.Put, Exercise.European⟩ e._S
          + e.getAnalyticPutPrice m ⟨T, K, PayoffType.Put, Exercise.European⟩
              (e._S - e._h)) / (e._h * e._h)) :=
  ⟨rfl, rfl⟩

/-- C16: for an engine built by the constructor from `(S, sigma, r, b)` and a European
payoff, `getEngineDelta` returns `(Price(S+h) - Price(S-h)) / (2h)` with `h = 1/100`,
`Price` being `getAnalyticCallPrice` for a Call and `getAnalyticPutPrice` for a Put. -/
theorem numerical_delta_formula (m : NumLib α) (S sigma r b K T : α) :
    let e := NumericalEuropeanEngine.new S sigma r b
    let h : α := 1 / 100
    e.getEngineDelta m
        { _maturity := T, _strike := K, _type := PayoffType.Call,
          _exercise := Exercise.European } =
      Except.ok
        ((e.getAnalyticCallPrice m ⟨T, K, PayoffType.Call, Exercise.European⟩ (S + h)
          - e.getAnalyticCallPrice m ⟨T, K, PayoffType.Call, Exercise.European⟩ (S - h))
          / (2 * h)) ∧
    e.getEngineDelta m
        { _maturity := T, _strike := K, _type := PayoffType.Put,
          _exercise := Exercise.European } =
      Except.ok
        ((e.getAnalyticPutPrice m ⟨T, K, PayoffType.Put, Exercise.European⟩ (S + h)
          - e.getAnalyticPutPrice m ⟨T, K, PayoffType.Put, Exercise.European⟩ (S - h))
          / (2 * h)) := by
  intro e h
  have hh : e._h = h := numerical_new_h S sigma r b
  have hS : e._S = S := rfl
  have key := numerical_delta_ok m e K T
  rw [hh, hS] at key
  exact key

/-- C17: for an engine built by the constructor from `(S, sigma, r, b)` and a European
payoff, `getEngineGamma` returns `(Price(S+h) - 2 Price(S) + Price(S-h)) / h²` with
`h = 1/100`, `Price` being `getAnalyticCallPrice` for a Call and `getAnalyticPutPrice`
for a Put. -/
theorem numerical_gamma_formula (m : NumLib α) (S sigma r b K T : α) :
    let e := NumericalEuropeanEngine.new S sigma r b
    let h : α := 1 / 100
    e.getEngineGamma m
        { _maturity := T, _strike := K, _type := PayoffType.Call,
          _exercise := Exercise.European } =
      Except.ok
        ((e.getAnalyticCallPrice m ⟨T, K, PayoffType.Call, Exercise.European⟩ (S + h)
          - 2 * e.getAnalyticCallPrice m ⟨T, K, PayoffType.Call, Exercise.European⟩ S
          + e.getAnalyticCallPrice m ⟨T, K, PayoffType.Call, Exercise.European⟩ (S - h))
          / h ^ 2) ∧
    e.getEngineGamma m
        { _maturity := T, _strike := K, _type := PayoffType.Put,
          _exercise := Exercise.European } =
      Except.ok
        ((e.getAnalyticPutPrice m ⟨T, K, PayoffType.Put, Exercise.European⟩ (S + h)
          - 2 * e.getAnalyticPutPrice m ⟨T, K, PayoffType.Put, Exercise.European⟩ S
          + e.getAnalyticPutPrice m ⟨T, K, PayoffType.Put, Exercise.European⟩ (S - h))
          / h ^ 2) := by
  intro e h
  have hh : e._h = h := numerical_new_h S sigma r b
  have hS : e._S = S := rfl
  have key := numerical_gamma_ok m e K T
  rw [hh, hS, ← sq] at key
  exact key

/-- C18: the numerical engine's internal call price at underlying `x` is the price the
analytic European engine built from `(x, sigma, r, b)` returns for the same European Call
payoff. -/
theorem numerical_callPrice_eq_analytic (m : NumLib α) (ne : NumericalEuropeanEngine α)
    (K T x : α) :
    AnalyticEuropeanEngine.getEnginePrice
        { _S := x, _sigma := ne._sigma, _r := ne._r, _b := ne._b } m
        { _maturity := T, _strike := K, _type := PayoffType.Call,
          _exercise := Exercise.European } =
      Except.ok
        (ne.getAnalyticCallPrice m
          { _maturity := T, _strike := K, _type := PayoffType.Call,
            _exercise := Exercise.European } x) := by
  rw [analyticEuropean_price_Call m _ ⟨T, K, PayoffType.Call, Exercise.European⟩ rfl rfl,
    analyticEuropean_callPrice_ok m _ ⟨T, K, PayoffType.Call, Exercise.European⟩ rfl]
  rfl

/-! ## The standard normal law and finite differences over `ℝ` -/

section RealLibrary

open MeasureTheory ProbabilityTheory Set Filter Topology

/-- The standard normal density in closed form. -/
theorem gaussianPDFReal_std (x : ℝ) :
    gaussianPDFReal 0 1 x = (√(2 * Real.pi))⁻¹ * Real.exp (-(x ^ 2) / 2) := by
  simp [gaussianPDFReal]

/-- The standard normal density is continuous. -/
theorem continuous_gaussianPDFReal_std : Continuous (gaussianPDFReal 0 1) := by
  have : gaussianPDFReal 0 1 = fun x => (√(2 * Real.pi))⁻¹ * Real.exp (-(x ^ 2) / 2) := by
    funext x; exact gaussianPDFReal_std x
  rw [this]
  fun_prop

/-- The standard normal distribution function is the integral of the density. -/
theorem gaussian_cdf_eq_integral (x : ℝ) :
    cdf (gaussianReal 0 1) x = ∫ t in Iic x, gaussianPDFReal 0 1 t := by
  rw [cdf_eq_toReal, gaussianReal_apply_eq_integral 0 one_ne_zero,
    ENNReal.toReal_ofReal]
  exact integral_nonneg (fun t => gaussianPDFReal_nonneg 0 1 t)

/-- The standard normal distribution function has the density as its derivative. -/
theorem gaussian_cdf_hasDerivAt (x : ℝ) :
    HasDerivAt (fun y => cdf (gaussianReal 0 1) y) (gaussianPDFReal 0 1 x) x := by
  have hint : ∀ a : ℝ, IntegrableOn (gaussianPDFReal 0 1) (Iic a) :=
    fun a => (integrable_gaussianPDFReal 0 1).integrableOn
  have heq : (fun y => cdf (gaussianReal 0 1) y) =
      fun y => (∫ t in (0:ℝ)..y, gaussianPDFReal 0 1 t) + cdf (gaussianReal 0 1) 0 := by
    funext y
    rw [gaussian_cdf_eq_integral y, gaussian_cdf_eq_integral 0,
      ← intervalIntegral.integral_Iic_sub_Iic (hint 0) (hint y)]
    ring
  rw [heq]
  exact ((continuous_gaussianPDFReal_std.integral_hasStrictDerivAt 0 x).hasDerivAt).add_const _

/-- The standard normal density is even. -/
theorem gaussianPDFReal_std_neg (x : ℝ) :
    gaussianPDFReal 0 1 (-x) = gaussianPDFReal 0 1 x := by
  rw [gaussianPDFReal_std, gaussianPDFReal_std, neg_sq]

/-- Symmetry of the standard normal law: `N(-x) = 1 - N(x)`. -/
theorem gaussian_cdf_neg (x : ℝ) :
    cdf (gaussianReal 0 1) (-x) = 1 - cdf (gaussianReal 0 1) x := by
  set Φ : ℝ → ℝ := fun y => cdf (gaussianReal 0 1) y with hΦ
  have hd : ∀ y, HasDerivAt (fun z => Φ z + Φ (-z)) 0 y := by
    intro y
    have h1 := gaussian_cdf_hasDerivAt y
    have h2 : HasDerivAt (fun z => Φ (-z)) (gaussianPDFReal 0 1 (-y) * (-1)) y :=
      HasDerivAt.comp y (gaussian_cdf_hasDerivAt (-y)) (hasDerivAt_neg y)
    have h3 := h1.add h2
    rw [gaussianPDFReal_std_neg] at h3
    convert h3 using 1
    ring
  have hconst : ∀ y z, Φ y + Φ (-y) = Φ z + Φ (-z) := by
    have hdiff : Differentiable ℝ (fun z => Φ z + Φ (-z)) := fun y => (hd y).differentiableAt
    exact is_const_of_deriv_eq_zero hdiff (fun y => (hd y).deriv)
  have hlim : Tendsto (fun z => Φ z + Φ (-z)) atTop (𝓝 (1 + 0)) := by
    refine Tendsto.add (tendsto_cdf_atTop (gaussianReal 0 1)) ?_
    exact (tendsto_cdf_atBot (gaussianReal 0 1)).comp tendsto_neg_atTop_atBot
  have hlim2 : Tendsto (fun z => Φ z + Φ (-z)) atTop (𝓝 (Φ x + Φ (-x))) := by
    have : (fun z => Φ z + Φ (-z)) = fun _ => Φ x + Φ (-x) := by
      funext z; exact hconst z x
    rw [this]; exact tendsto_const_nhds
  have := tendsto_nhds_unique hlim2 hlim
  simp only [hΦ] at this
  linarith
/-- The derivative of the standard normal density `n` is `-x n(x)`. -/
theorem gaussianPDFReal_std_hasDerivAt (x : ℝ) :
    HasDerivAt (gaussianPDFReal 0 1) (-(x * gaussianPDFReal 0 1 x)) x := by
  have heq : gaussianPDFReal 0 1 =
      fun y => (√(2 * Real.pi))⁻¹ * Real.exp (-(y ^ 2) / 2) := by
    funext y; exact gaussianPDFReal_std y
  have h1 : HasDerivAt (fun y : ℝ => -(y ^ 2) / 2) (-x) x := by
    have := ((hasDerivAt_pow 2 x).neg).div_const 2
    convert this using 1
    simp
    ring
  have h2 := (h1.exp).const_mul ((√(2 * Real.pi))⁻¹)
  rw [gaussianPDFReal_std x, heq]
  convert h2 using 1
  ring

/-- The standard normal density is at most one. -/
theorem gaussianPDFReal_std_le_one (x : ℝ) : gaussianPDFReal 0 1 x ≤ 1 := by
  rw [gaussianPDFReal_std]
  have h1 : (1 : ℝ) ≤ √(2 * Real.pi) := by
    rw [show (1 : ℝ) = √1 by simp]
    apply Real.sqrt_le_sqrt
    nlinarith [Real.pi_gt_three]
  have h2 : (√(2 * Real.pi))⁻¹ ≤ 1 := inv_le_one_of_one_le₀ h1
  have h3 : Real.exp (-(x ^ 2) / 2) ≤ 1 := by
    rw [Real.exp_le_one_iff]
    nlinarith [sq_nonneg x]
  have h4 : 0 ≤ (√(2 * Real.pi))⁻¹ := by positivity
  have h5 : 0 ≤ Real.exp (-(x ^ 2) / 2) := (Real.exp_pos _).le
  nlinarith

/-- The first moment integrand `x n(x)` is at most one in absolute value. -/
theorem abs_mul_gaussianPDFReal_std_le_one (x : ℝ) : |x * gaussianPDFReal 0 1 x| ≤ 1 := by
  rw [abs_mul, abs_of_nonneg (gaussianPDFReal_nonneg 0 1 x), gaussianPDFReal_std]
  have h1 : (1 : ℝ) ≤ √(2 * Real.pi) := by
    rw [show (1 : ℝ) = √1 by simp]
    apply Real.sqrt_le_sqrt
    nlinarith [Real.pi_gt_three]
  have h2 : (√(2 * Real.pi))⁻¹ ≤ 1 := inv_le_one_of_one_le₀ h1
  have h4 : 0 ≤ (√(2 * Real.pi))⁻¹ := by positivity
  have h3 : |x| * Real.exp (-(x ^ 2) / 2) ≤ 1 := by
    have he : Real.exp (-(x ^ 2) / 2) = (Real.exp (x ^ 2 / 2))⁻¹ := by
      rw [← Real.exp_neg]; congr 1; ring
    rw [he, ← div_eq_mul_inv, div_le_one (Real.exp_pos _)]
    have h6 : x ^ 2 / 2 + 1 ≤ Real.exp (x ^ 2 / 2) := Real.add_one_le_exp _
    have h7 : |x| ≤ x ^ 2 / 2 + 1 := by
      have := sq_nonneg (|x| - 1)
      have h8 : |x| ^ 2 = x ^ 2 := sq_abs x
      nlinarith
    linarith
  have h5 : 0 ≤ |x| * Real.exp (-(x ^ 2) / 2) := by positivity
  calc |x| * ((√(2 * Real.pi))⁻¹ * Real.exp (-(x ^ 2) / 2))
      = (√(2 * Real.pi))⁻¹ * (|x| * Real.exp (-(x ^ 2) / 2)) := by ring
    _ ≤ 1 * 1 := mul_le_mul h2 h3 h5 (by norm_num)
    _ = 1 := by norm_num

/-- Lipschitz bound from a bound on the derivative over an interval. -/
theorem abs_sub_le_of_deriv_bound (g g' : ℝ → ℝ) (a b C : ℝ)
    (hg : ∀ y ∈ Icc a b, HasDerivAt g (g' y) y) (hb : ∀ y ∈ Icc a b, |g' y| ≤ C)
    (x y : ℝ) (hx : x ∈ Icc a b) (hy : y ∈ Icc a b) : |g y - g x| ≤ C * |y - x| := by
  have := Convex.norm_image_sub_le_of_norm_hasDerivWithin_le
    (fun z hz => (hg z hz).hasDerivWithinAt) (fun z hz => by simpa using hb z hz)
    (convex_Icc a b) hx hy
  simpa using this

/-- Error of the central first difference. -/
theorem central_diff_error (f f₁ f₂ : ℝ → ℝ) (S h M : ℝ) (hh : 0 < h)
    (hf : ∀ y ∈ Icc (S - h) (S + h), HasDerivAt f (f₁ y) y)
    (hf₁ : ∀ y ∈ Icc (S - h) (S + h), HasDerivAt f₁ (f₂ y) y)
    (hM : ∀ y ∈ Icc (S - h) (S + h), |f₂ y| ≤ M) :
    |(f (S + h) - f (S - h)) / (2 * h) - f₁ S| ≤ M * h := by
  have hS : S ∈ Icc (S - h) (S + h) := ⟨by linarith, by linarith⟩
  have hM0 : 0 ≤ M := le_trans (abs_nonneg _) (hM S hS)
  -- χ t = f (S + t) - f (S - t) - 2 t f₁ S on [0, h]
  have hχ : ∀ t ∈ Icc (0:ℝ) h,
      HasDerivAt (fun t => f (S + t) - f (S - t) - 2 * t * f₁ S)
        (f₁ (S + t) + f₁ (S - t) - 2 * f₁ S) t := by
    intro t ht
    have hp : S + t ∈ Icc (S - h) (S + h) := ⟨by linarith [ht.1], by linarith [ht.2]⟩
    have hm : S - t ∈ Icc (S - h) (S + h) := ⟨by linarith [ht.2], by linarith [ht.1]⟩
    have h1 : HasDerivAt (fun t => f (S + t)) (f₁ (S + t)) t := by
      have := HasDerivAt.comp t (hf (S + t) hp) ((hasDerivAt_id t).const_add S)
      simpa using this
    have h2 : HasDerivAt (fun t => f (S - t)) (-f₁ (S - t)) t := by
      have := HasDerivAt.comp t (hf (S - t) hm) ((hasDerivAt_id t).const_sub S)
      simpa using this
    have h3 : HasDerivAt (fun t : ℝ => 2 * t * f₁ S) (2 * f₁ S) t := by
      have := ((hasDerivAt_id t).const_mul 2).mul_const (f₁ S)
      simpa using this
    have := (h1.sub h2).sub h3
    convert this using 1
    ring
  have hχb : ∀ t ∈ Icc (0:ℝ) h, |f₁ (S + t) + f₁ (S - t) - 2 * f₁ S| ≤ 2 * M * h := by
    intro t ht
    have hp : S + t ∈ Icc (S - h) (S + h) := ⟨by linarith [ht.1], by linarith [ht.2]⟩
    have hm : S - t ∈ Icc (S - h) (S + h) := ⟨by linarith [ht.2], by linarith [ht.1]⟩
    have e1 := abs_sub_le_of_deriv_bound f₁ f₂ _ _ M hf₁ hM S (S + t) hS hp
    have e2 := abs_sub_le_of_deriv_bound f₁ f₂ _ _ M hf₁ hM S (S - t) hS hm
    have a1 : |S + t - S| = t := by rw [add_sub_cancel_left, abs_of_nonneg ht.1]
    have a2 : |S - t - S| = t := by
      rw [show S - t - S = -t by ring, abs_neg, abs_of_nonneg ht.1]
    rw [a1] at e1
    rw [a2] at e2
    have : f₁ (S + t) + f₁ (S - t) - 2 * f₁ S = (f₁ (S + t) - f₁ S) + (f₁ (S - t) - f₁ S) := by
      ring
    rw [this]
    calc |(f₁ (S + t) - f₁ S) + (f₁ (S - t) - f₁ S)|
        ≤ |f₁ (S + t) - f₁ S| + |f₁ (S - t) - f₁ S| := abs_add _ _
      _ ≤ M * t + M * t := add_le_add e1 e2
      _ ≤ 2 * M * h := by nlinarith [ht.2]
  have key := abs_sub_le_of_deriv_bound _ _ 0 h (2 * M * h) hχ hχb 0 h
    ⟨le_refl _, hh.le⟩ ⟨hh.le, le_refl _⟩
  simp only [add_zero, sub_zero, sub_self, mul_zero, zero_mul] at key
  rw [abs_of_pos hh] at key
  have hdiv : (f (S + h) - f (S - h)) / (2 * h) - f₁ S
      = (f (S + h) - f (S - h) - 2 * h * f₁ S) / (2 * h) := by
    field_simp
  rw [hdiv, abs_div, abs_of_pos (by linarith : (0:ℝ) < 2 * h), div_le_iff₀ (by linarith)]
  nlinarith

/-- Error of the central second difference. -/
theorem central_second_diff_error (f f₁ f₂ f₃ : ℝ → ℝ) (S h M : ℝ) (hh : 0 < h)
    (hf : ∀ y ∈ Icc (S - h) (S + h), HasDerivAt f (f₁ y) y)
    (hf₁ : ∀ y ∈ Icc (S - h) (S + h), HasDerivAt f₁ (f₂ y) y)
    (hf₂ : ∀ y ∈ Icc (S - h) (S + h), HasDerivAt f₂ (f₃ y) y)
    (hM : ∀ y ∈ Icc (S - h) (S + h), |f₃ y| ≤ M) :
    |(f (S + h) - 2 * f S + f (S - h)) / (h * h) - f₂ S| ≤ 2 * M * h := by
  have hS : S ∈ Icc (S - h) (S + h) := ⟨by linarith, by linarith⟩
  have hM0 : 0 ≤ M := le_trans (abs_nonneg _) (hM S hS)
  have hψ : ∀ t ∈ Icc (0:ℝ) h,
      HasDerivAt (fun t => f (S + t) + f (S - t) - 2 * f S - t ^ 2 * f₂ S)
        (f₁ (S + t) - f₁ (S - t) - 2 * t * f₂ S) t := by
    intro t ht
    have hp : S + t ∈ Icc (S - h) (S + h) := ⟨by linarith [ht.1], by linarith [ht.2]⟩
    have hm : S - t ∈ Icc (S - h) (S + h) := ⟨by linarith [ht.2], by linarith [ht.1]⟩
    have h1 : HasDerivAt (fun t => f (S + t)) (f₁ (S + t)) t := by
      have := HasDerivAt.comp t (hf (S + t) hp) ((hasDerivAt_id t).const_add S)
      simpa using this
    have h2 : HasDerivAt (fun t => f (S - t)) (-f₁ (S - t)) t := by
      have := HasDerivAt.comp t (hf (S - t) hm) ((hasDerivAt_id t).const_sub S)
      simpa using this
    have h3 : HasDerivAt (fun t : ℝ => t ^ 2 * f₂ S) (2 * t * f₂ S) t := by
      have := (hasDerivAt_pow 2 t).mul_const (f₂ S)
      simpa using this
    have := ((h1.add h2).sub_const (2 * f S)).sub h3
    convert this using 1
  have hψ' : ∀ t ∈ Icc (0:ℝ) h,
      HasDerivAt (fun t => f₁ (S + t) - f₁ (S - t) - 2 * t * f₂ S)
        (f₂ (S + t) + f₂ (S - t) - 2 * f₂ S) t := by
    intro t ht
    have hp : S + t ∈ Icc (S - h) (S + h) := ⟨by linarith [ht.1], by linarith [ht.2]⟩
    have hm : S - t ∈ Icc (S - h) (S + h) := ⟨by linarith [ht.2], by linarith [ht.1]⟩
    have h1 : HasDerivAt (fun t => f₁ (S + t)) (f₂ (S + t)) t := by
      have := HasDerivAt.comp t (hf₁ (S + t) hp) ((hasDerivAt_id t).const_add S)
      simpa using this
    have h2 : HasDerivAt (fun t => f₁ (S - t)) (-f₂ (S - t)) t := by
      have := HasDerivAt.comp t (hf₁ (S - t) hm) ((hasDerivAt_id t).const_sub S)
      simpa using this
    have h3 : HasDerivAt (fun t : ℝ => 2 * t * f₂ S) (2 * f₂ S) t := by
      have := ((hasDerivAt_id t).const_mul 2).mul_const (f₂ S)
      simpa using this
    have := (h1.sub h2).sub h3
    convert this using 1
    ring
  have hψ'b : ∀ t ∈ Icc (0:ℝ) h, |f₂ (S + t) + f₂ (S - t) - 2 * f₂ S| ≤ 2 * M * h := by
    intro t ht
    have hp : S + t ∈ Icc (S - h) (S + h) := ⟨by linarith [ht.1], by linarith [ht.2]⟩
    have hm : S - t ∈ Icc (S - h) (S + h) := ⟨by linarith [ht.2], by linarith [ht.1]⟩
    have e1 := abs_sub_le_of_deriv_bound f₂ f₃ _ _ M hf₂ hM S (S + t) hS hp
    have e2 := abs_sub_le_of_deriv_bound f₂ f₃ _ _ M hf₂ hM S (S - t) hS hm
    have a1 : |S + t - S| = t := by rw [add_sub_cancel_left, abs_of_nonneg ht.1]
    have a2 : |S - t - S| = t := by
      rw [show S - t - S = -t by ring, abs_neg, abs_of_nonneg ht.1]
    rw [a1] at e1
    rw [a2] at e2
    have : f₂ (S + t) + f₂ (S - t) - 2 * f₂ S
        = (f₂ (S + t) - f₂ S) + (f₂ (S - t) - f₂ S) := by ring
    rw [this]
    calc |(f₂ (S + t) - f₂ S) + (f₂ (S - t) - f₂ S)|
        ≤ |f₂ (S + t) - f₂ S| + |f₂ (S - t) - f₂ S| := abs_add _ _
      _ ≤ M * t + M * t := add_le_add e1 e2
      _ ≤ 2 * M * h := by nlinarith [ht.2]
  have hψb : ∀ t ∈ Icc (0:ℝ) h, |f₁ (S + t) - f₁ (S - t) - 2 * t * f₂ S| ≤ 2 * M * h * h := by
    intro t ht
    have key := abs_sub_le_of_deriv_bound _ _ 0 h (2 * M * h) hψ' hψ'b 0 t
      ⟨le_refl _, hh.le⟩ ht
    simp only [add_zero, sub_zero, sub_self, mul_zero, zero_mul] at key
    rw [abs_of_nonneg ht.1] at key
    have : 2 * M * h * t ≤ 2 * M * h * h :=
      mul_le_mul_of_nonneg_left ht.2 (by positivity)
    linarith
  have key := abs_sub_le_of_deriv_bound _ _ 0 h (2 * M * h * h) hψ hψb 0 h
    ⟨le_refl _, hh.le⟩ ⟨hh.le, le_refl _⟩
  simp only [add_zero, sub_zero, sub_self, mul_zero, zero_mul] at key
  rw [abs_of_pos hh] at key
  have hdiv : (f (S + h) - 2 * f S + f (S - h)) / (h * h) - f₂ S
      = (f (S + h) + f (S - h) - 2 * f S - h ^ 2 * f₂ S) / (h * h) := by
    field_simp
    ring
  rw [hdiv, abs_div, abs_of_pos (by positivity : (0:ℝ) < h * h), div_le_iff₀ (by positivity)]
  have h0 : (f S + f S - 2 * f S - 0 ^ 2 * f₂ S) = 0 := by ring
  rw [h0, sub_zero] at key
  nlinarith

/-- Derivative of `d1` in the underlying price. -/
theorem bs_d1_hasDerivAt (K c s x : ℝ) (hK : 0 < K) (hx : 0 < x) :
    HasDerivAt (fun y => (Real.log (y / K) + c) / s) (1 / (x * s)) x := by
  have h1 : HasDerivAt (fun y : ℝ => y / K) (1 / K) x := by
    simpa using (hasDerivAt_id x).div_const K
  have h2 : HasDerivAt (fun y : ℝ => Real.log (y / K)) (1 / K / (x / K)) x :=
    h1.log (div_pos hx hK).ne'
  have h3 := (h2.add_const c).div_const s
  convert h3 using 1
  field_simp

/-- The identity behind the Black–Scholes delta: `x A n(d1) = K B n(d2)`. -/
theorem bs_pdf_identity (K A B c s x : ℝ) (hK : 0 < K) (hx : 0 < x) (hs : s ≠ 0)
    (hAB : A = B * Real.exp (c - s ^ 2 / 2)) :
    K * B * gaussianPDFReal 0 1 ((Real.log (x / K) + c) / s - s) =
      x * A * gaussianPDFReal 0 1 ((Real.log (x / K) + c) / s) := by
  rw [gaussianPDFReal_std, gaussianPDFReal_std, hAB]
  have hexp : Real.exp (-(((Real.log (x / K) + c) / s - s) ^ 2) / 2) =
      Real.exp (-(((Real.log (x / K) + c) / s) ^ 2) / 2) * (x / K)
        * Real.exp (c - s ^ 2 / 2) := by
    have hlog : Real.exp (Real.log (x / K)) = x / K := Real.exp_log (div_pos hx hK)
    rw [← hlog, ← Real.exp_add, ← Real.exp_add]
    congr 1
    field_simp
    ring
  rw [hexp]
  field_simp
  ring

/-- The Black–Scholes call expression has derivative `A N(d1)` in the underlying. -/
theorem bs_call_hasDerivAt (K A B c s x : ℝ) (hK : 0 < K) (hx : 0 < x) (hs : s ≠ 0)
    (hAB : A = B * Real.exp (c - s ^ 2 / 2)) :
    HasDerivAt
      (fun y => y * A * cdf (gaussianReal 0 1) ((Real.log (y / K) + c) / s)
        - K * B * cdf (gaussianReal 0 1) ((Real.log (y / K) + c) / s - s))
      (A * cdf (gaussianReal 0 1) ((Real.log (x / K) + c) / s)) x := by
  have hD := bs_d1_hasDerivAt K c s x hK hx
  have h1 : HasDerivAt (fun y => cdf (gaussianReal 0 1) ((Real.log (y / K) + c) / s))
      (gaussianPDFReal 0 1 ((Real.log (x / K) + c) / s) * (1 / (x * s))) x :=
    HasDerivAt.comp x (gaussian_cdf_hasDerivAt _) hD
  have h2 : HasDerivAt (fun y => cdf (gaussianReal 0 1) ((Real.log (y / K) + c) / s - s))
      (gaussianPDFReal 0 1 ((Real.log (x / K) + c) / s - s) * (1 / (x * s))) x :=
    HasDerivAt.comp x (gaussian_cdf_hasDerivAt _) (hD.sub_const s)
  have h3 : HasDerivAt (fun y : ℝ => y * A) A x := by
    simpa using (hasDerivAt_id x).mul_const A
  have h4 := (h3.mul h1).sub (h2.const_mul (K * B))
  have hid := bs_pdf_identity K A B c s x hK hx hs hAB
  convert h4 using 1
  have e : K * B * (gaussianPDFReal 0 1 ((Real.log (x / K) + c) / s - s) * (1 / (x * s)))
      = x * A * gaussianPDFReal 0 1 ((Real.log (x / K) + c) / s) * (1 / (x * s)) := by
    rw [← hid]; ring
  rw [e]
  ring

/-- The delta expression `A N(d1)` has derivative `A n(d1) / (x s)` in the underlying. -/
theorem bs_delta_hasDerivAt (K A c s x : ℝ) (hK : 0 < K) (hx : 0 < x) :
    HasDerivAt (fun y => A * cdf (gaussianReal 0 1) ((Real.log (y / K) + c) / s))
      (A * gaussianPDFReal 0 1 ((Real.log (x / K) + c) / s) / (x * s)) x := by
  have hD := bs_d1_hasDerivAt K c s x hK hx
  have h1 : HasDerivAt (fun y => cdf (gaussianReal 0 1) ((Real.log (y / K) + c) / s))
      (gaussianPDFReal 0 1 ((Real.log (x / K) + c) / s) * (1 / (x * s))) x :=
    HasDerivAt.comp x (gaussian_cdf_hasDerivAt _) hD
  have h2 := h1.const_mul A
  convert h2 using 1
  ring

/-- The derivative of the gamma expression `A n(d1) / (x s)` in the underlying. -/
theorem bs_gamma_hasDerivAt (K A c s x : ℝ) (hK : 0 < K) (hx : 0 < x) (hs : s ≠ 0) :
    HasDerivAt (fun y => A * gaussianPDFReal 0 1 ((Real.log (y / K) + c) / s) / (y * s))
      (-(A * (((Real.log (x / K) + c) / s) * gaussianPDFReal 0 1 ((Real.log (x / K) + c) / s)
            + s * gaussianPDFReal 0 1 ((Real.log (x / K) + c) / s))) / (x ^ 2 * s ^ 2)) x := by
  have hD := bs_d1_hasDerivAt K c s x hK hx
  have h1 : HasDerivAt (fun y => gaussianPDFReal 0 1 ((Real.log (y / K) + c) / s))
      (-(((Real.log (x / K) + c) / s) * gaussianPDFReal 0 1 ((Real.log (x / K) + c) / s))
        * (1 / (x * s))) x := by
    have hφ : HasDerivAt (fun z => gaussianPDFReal 0 1 z)
        (-(((Real.log (x / K) + c) / s) * gaussianPDFReal 0 1 ((Real.log (x / K) + c) / s)))
        ((Real.log (x / K) + c) / s) := gaussianPDFReal_std_hasDerivAt _
    exact hφ.comp x hD
  have h2 : HasDerivAt (fun y : ℝ => y * s) s x := by
    simpa using (hasDerivAt_id x).mul_const s
  have hne : x * s ≠ 0 := mul_ne_zero hx.ne' hs
  have h3 := (h1.const_mul A).div h2 hne
  convert h3 using 1
  field_simp
  ring

/-- A bound on the third derivative of the price in the underlying. -/
theorem bs_third_bound (A D s x : ℝ) (hA0 : 0 ≤ A) (hs : 0 < s) (hx : 0 < x) :
    |-(A * (D * gaussianPDFReal 0 1 D + s * gaussianPDFReal 0 1 D)) / (x ^ 2 * s ^ 2)|
      ≤ A * (1 + s) / (x ^ 2 * s ^ 2) := by
  have hpos : 0 < x ^ 2 * s ^ 2 := by positivity
  rw [abs_div, abs_of_pos hpos, abs_neg, abs_mul, abs_of_nonneg hA0]
  apply div_le_div_of_nonneg_right _ hpos.le
  have h1 := abs_mul_gaussianPDFReal_std_le_one D
  have h2 := gaussianPDFReal_std_le_one D
  have h3 := gaussianPDFReal_nonneg 0 1 D
  have h4 : |D * gaussianPDFReal 0 1 D + s * gaussianPDFReal 0 1 D| ≤ 1 + s := by
    calc |D * gaussianPDFReal 0 1 D + s * gaussianPDFReal 0 1 D|
        ≤ |D * gaussianPDFReal 0 1 D| + |s * gaussianPDFReal 0 1 D| := abs_add _ _
      _ ≤ 1 + s := by
          rw [abs_of_nonneg (mul_nonneg hs.le h3)]
          nlinarith
  exact mul_le_mul_of_nonneg_left h4 hA0

/-- A bound on the gamma expression. -/
theorem bs_second_bound (A D s x : ℝ) (hA0 : 0 ≤ A) (hs : 0 < s) (hx : 0 < x) :
    |A * gaussianPDFReal 0 1 D / (x * s)| ≤ A / (x * s) := by
  have hpos : 0 < x * s := by positivity
  rw [abs_div, abs_of_pos hpos, abs_mul, abs_of_nonneg hA0,
    abs_of_nonneg (gaussianPDFReal_nonneg 0 1 D)]
  apply div_le_div_of_nonneg_right _ hpos.le
  have h2 := gaussianPDFReal_std_le_one D
  have h3 := gaussianPDFReal_nonneg 0 1 D
  nlinarith

/-- Finite-difference errors for a function whose derivative in the underlying is
`A N(d1) + C₀`. -/
theorem bs_fd_errors (K A c s S h C₀ : ℝ) (f : ℝ → ℝ) (hK : 0 < K) (hs : 0 < s)
    (hA : 0 ≤ A) (hh : 0 < h) (hSh : h < S)
    (hf : ∀ y, 0 < y → HasDerivAt f
      (A * cdf (gaussianReal 0 1) ((Real.log (y / K) + c) / s) + C₀) y) :
    |(f (S + h) - f (S - h)) / (2 * h)
        - (A * cdf (gaussianReal 0 1) ((Real.log (S / K) + c) / s) + C₀)|
      ≤ A / ((S - h) * s) * h ∧
    |(f (S + h) - 2 * f S + f (S - h)) / (h * h)
        - A * gaussianPDFReal 0 1 ((Real.log (S / K) + c) / s) / (S * s)|
      ≤ 2 * (A * (1 + s) / ((S - h) ^ 2 * s ^ 2)) * h := by
  have hpos : ∀ y ∈ Icc (S - h) (S + h), 0 < y := fun y hy => by linarith [hy.1]
  have h1 : ∀ y ∈ Icc (S - h) (S + h), HasDerivAt f
      ((fun y => A * cdf (gaussianReal 0 1) ((Real.log (y / K) + c) / s) + C₀) y) y :=
    fun y hy => hf y (hpos y hy)
  have h2 : ∀ y ∈ Icc (S - h) (S + h),
      HasDerivAt (fun y => A * cdf (gaussianReal 0 1) ((Real.log (y / K) + c) / s) + C₀)
        ((fun y => A * gaussianPDFReal 0 1 ((Real.log (y / K) + c) / s) / (y * s)) y) y :=
    fun y hy => (bs_delta_hasDerivAt K A c s y hK (hpos y hy)).add_const C₀
  have h3 : ∀ y ∈ Icc (S - h) (S + h),
      HasDerivAt (fun y => A * gaussianPDFReal 0 1 ((Real.log (y / K) + c) / s) / (y * s))
        ((fun y => -(A * (((Real.log (y / K) + c) / s)
              * gaussianPDFReal 0 1 ((Real.log (y / K) + c) / s)
            + s * gaussianPDFReal 0 1 ((Real.log (y / K) + c) / s))) / (y ^ 2 * s ^ 2)) y) y :=
    fun y hy => bs_gamma_hasDerivAt K A c s y hK (hpos y hy) hs.ne'
  have hSh' : 0 < S - h := by linarith
  have b2 : ∀ y ∈ Icc (S - h) (S + h),
      |(fun y => A * gaussianPDFReal 0 1 ((Real.log (y / K) + c) / s) / (y * s)) y|
        ≤ A / ((S - h) * s) := by
    intro y hy
    have hy0 := hpos y hy
    refine le_trans (bs_second_bound A _ s y hA hs hy0) ?_
    apply div_le_div_of_nonneg_left hA (by positivity)
    exact mul_le_mul_of_nonneg_right hy.1 hs.le
  have b3 : ∀ y ∈ Icc (S - h) (S + h),
      |(fun y => -(A * (((Real.log (y / K) + c) / s)
              * gaussianPDFReal 0 1 ((Real.log (y / K) + c) / s)
            + s * gaussianPDFReal 0 1 ((Real.log (y / K) + c) / s))) / (y ^ 2 * s ^ 2)) y|
        ≤ A * (1 + s) / ((S - h) ^ 2 * s ^ 2) := by
    intro y hy
    have hy0 := hpos y hy
    refine le_trans (bs_third_bound A _ s y hA hs hy0) ?_
    apply div_le_div_of_nonneg_left (by positivity) (by positivity)
    have : (S - h) ^ 2 ≤ y ^ 2 := pow_le_pow_left₀ hSh'.le hy.1 2
    exact mul_le_mul_of_nonneg_right this (by positivity)
  exact ⟨central_diff_error f _ _ S h _ hh h1 h2 b2,
    central_second_diff_error f _ _ _ S h _ hh h1 h2 h3 b3⟩

end RealLibrary

/-! ## The engines over the real library -/

section RealEngines

open MeasureTheory ProbabilityTheory Set Filter Topology

/-- The real functions form a standard library. -/
theorem isStandard_real :
    NumLib.IsStandard
      { log := Real.log, exp := Real.exp, sqrt := Real.sqrt, pow := fun x y => x ^ y,
        cdf := fun x => cdf (gaussianReal 0 1) x, pdf := gaussianPDFReal 0 1 } where
  log_eq := fun _ _ => rfl
  exp_eq := fun _ => rfl
  sqrt_eq := fun _ _ => rfl
  pow_eq := fun _ _ _ => rfl
  pow_two := fun x => Real.rpow_two x
  cdf_eq := fun _ => rfl
  pdf_eq := fun _ => rfl

/-- With a standard library the internal call price at a positive underlying is the
Black–Scholes expression in real functions. -/
theorem numerical_callPrice_std (m : NumLib ℝ) (hm : m.IsStandard)
    (ne : NumericalEuropeanEngine ℝ) (payoff : Payoff ℝ) (x : ℝ)
    (hK : 0 < payoff.getStrike) (hT : 0 ≤ payoff.getMaturity) (hx : 0 < x) :
    ne.getAnalyticCallPrice m payoff x =
      x * Real.exp ((ne._b - ne._r) * payoff.getMaturity)
          * cdf (gaussianReal 0 1)
              ((Real.log (x / payoff.getStrike)
                  + (ne._b + ne._sigma * ne._sigma / 2) * payoff.getMaturity)
                / (ne._sigma * √payoff.getMaturity))
        - payoff.getStrike * Real.exp (-ne._r * payoff.getMaturity)
          * cdf (gaussianReal 0 1)
              ((Real.log (x / payoff.getStrike)
                  + (ne._b + ne._sigma * ne._sigma / 2) * payoff.getMaturity)
                / (ne._sigma * √payoff.getMaturity)
                - ne._sigma * √payoff.getMaturity) := by
  unfold NumericalEuropeanEngine.getAnalyticCallPrice
  simp only [hm.exp_eq, hm.cdf_eq, hm.log_eq _ (div_pos hx hK), hm.sqrt_eq _ hT]

/-- With a standard library the internal put price at a positive underlying is the
internal call price minus `x e^((b-r)T)` plus `K e^(-rT)`. -/
theorem numerical_putPrice_std (m : NumLib ℝ) (hm : m.IsStandard)
    (ne : NumericalEuropeanEngine ℝ) (payoff : Payoff ℝ) (x : ℝ) :
    ne.getAnalyticPutPrice m payoff x =
      ne.getAnalyticCallPrice m payoff x
        - x * Real.exp ((ne._b - ne._r) * payoff.getMaturity)
        + payoff.getStrike * Real.exp (-ne._r * payoff.getMaturity) := by
  unfold NumericalEuropeanEngine.getAnalyticPutPrice NumericalEuropeanEngine.getAnalyticCallPrice
  simp only [hm.exp_eq, hm.cdf_eq, gaussian_cdf_neg]
  ring

/-- With a standard library the internal call price has derivative `e^((b-r)T) N(d1)` in
the underlying price, at every positive underlying. -/
theorem numerical_callPrice_hasDerivAt (m : NumLib ℝ) (hm : m.IsStandard)
    (ne : NumericalEuropeanEngine ℝ) (payoff : Payoff ℝ) (x : ℝ)
    (hK : 0 < payoff.getStrike) (hT : 0 ≤ payoff.getMaturity)
    (hs : ne._sigma * √payoff.getMaturity ≠ 0) (hx : 0 < x) :
    HasDerivAt (fun y => ne.getAnalyticCallPrice m payoff y)
      (Real.exp ((ne._b - ne._r) * payoff.getMaturity)
        * cdf (gaussianReal 0 1)
            ((Real.log (x / payoff.getStrike)
                + (ne._b + ne._sigma * ne._sigma / 2) * payoff.getMaturity)
              / (ne._sigma * √payoff.getMaturity))) x := by
  have hAB : Real.exp ((ne._b - ne._r) * payoff.getMaturity) =
      Real.exp (-ne._r * payoff.getMaturity)
        * Real.exp ((ne._b + ne._sigma * ne._sigma / 2) * payoff.getMaturity
            - (ne._sigma * √payoff.getMaturity) ^ 2 / 2) := by
    rw [← Real.exp_add, mul_pow, Real.sq_sqrt hT]
    congr 1
    ring
  have h := bs_call_hasDerivAt payoff.getStrike _ _ _ _ x hK hx hs hAB
  refine h.congr_of_eventuallyEq ?_
  filter_upwards [Ioi_mem_nhds hx] with y hy
  exact numerical_callPrice_std m hm ne payoff y hK hT hy

/-- With a standard library the internal put price has derivative
`e^((b-r)T) N(d1) - e^((b-r)T)` in the underlying price, at every positive underlying. -/
theorem numerical_putPrice_hasDerivAt (m : NumLib ℝ) (hm : m.IsStandard)
    (ne : NumericalEuropeanEngine ℝ) (payoff : Payoff ℝ) (x : ℝ)
    (hK : 0 < payoff.getStrike) (hT : 0 ≤ payoff.getMaturity)
    (hs : ne._sigma * √payoff.getMaturity ≠ 0) (hx : 0 < x) :
    HasDerivAt (fun y => ne.getAnalyticPutPrice m payoff y)
      (Real.exp ((ne._b - ne._r) * payoff.getMaturity)
        * cdf (gaussianReal 0 1)
            ((Real.log (x / payoff.getStrike)
                + (ne._b + ne._sigma * ne._sigma / 2) * payoff.getMaturity)
              / (ne._sigma * √payoff.getMaturity))
        + -Real.exp ((ne._b - ne._r) * payoff.getMaturity)) x := by
  have h1 := numerical_callPrice_hasDerivAt m hm ne payoff x hK hT hs hx
  have h2 : HasDerivAt (fun y : ℝ => y * Real.exp ((ne._b - ne._r) * payoff.getMaturity))
      (Real.exp ((ne._b - ne._r) * payoff.getMaturity)) x := by
    simpa using (hasDerivAt_id x).mul_const (Real.exp ((ne._b - ne._r) * payoff.getMaturity))
  have h3 := (h1.sub h2).add_const
    (payoff.getStrike * Real.exp (-ne._r * payoff.getMaturity))
  have heq : (fun y => ne.getAnalyticPutPrice m payoff y) =
      fun y => ne.getAnalyticCallPrice m payoff y
        - y * Real.exp ((ne._b - ne._r) * payoff.getMaturity)
        + payoff.getStrike * Real.exp (-ne._r * payoff.getMaturity) := by
    funext y
    exact numerical_putPrice_std m hm ne payoff y
  rw [heq]
  convert h3 using 1

/-- On a European payoff the analytic `getEngineDelta` passes `validate` and returns its
`delta`, negated for a Put. -/
theorem analyticEuropean_delta_ok {α : Type} [LinearOrderedField α] (m : NumLib α)
    (e : AnalyticEuropeanEngine α) (K T : α) :
    e.getEngineDelta m ⟨T, K, PayoffType.Call, Exercise.European⟩ =
      Except.ok (m.exp ((e._b - e._r) * T)
        * m.cdf ((m.log (e._S / K) + (e._b + e._sigma * e._sigma / 2) * T)
            / (e._sigma * m.sqrt T))) ∧
    e.getEngineDelta m ⟨T, K, PayoffType.Put, Exercise.European⟩ =
      Except.ok (-(m.exp ((e._b - e._r) * T)
        * m.cdf (-((m.log (e._S / K) + (e._b + e._sigma * e._sigma / 2) * T)
            / (e._sigma * m.sqrt T))))) :=
  ⟨rfl, rfl⟩

/-- On a European payoff the analytic `getEngineGamma` passes `validate` and returns its
`gamma`. -/
theorem analyticEuropean_gamma_ok {α : Type} [LinearOrderedField α] (m : NumLib α)
    (e : AnalyticEuropeanEngine α) (K T : α) (type : PayoffType) :
    e.getEngineGamma m ⟨T, K, type, Exercise.European⟩ =
      Except.ok (m.pdf ((m.log (e._S / K) + (e._b + e._sigma * e._sigma / 2) * T)
            / (e._sigma * m.sqrt T))
          * m.exp ((e._b - e._r) * T) / (e._S * e._sigma * m.sqrt T)) :=
  rfl

/-- C20: for `S = 105`, `K = 100`, `T = 0.5`, `r = 0.1`, `b = 0`, `sigma = 0.36` and a
European payoff of either type, with the library computing the real functions, the
numerical engine's delta is within `0.001` of the analytic engine's delta and the
numerical gamma within `0.001` of the analytic gamma. -/
theorem numerical_matches_analytic (m : NumLib ℝ) (hm : m.IsStandard) (type : PayoffType) :
    ∃ dn da gn ga : ℝ,
      (NumericalEuropeanEngine.new 105 0.36 0.1 0).getEngineDelta m
          { _maturity := 0.5, _strike := 100, _type := type,
            _exercise := Exercise.European } = Except.ok dn ∧
      AnalyticEuropeanEngine.getEngineDelta
          ({ _S := 105, _sigma := 0.36, _r := 0.1, _b := 0 } : AnalyticEuropeanEngine ℝ) m
          { _maturity := 0.5, _strike := 100, _type := type,
            _exercise := Exercise.European } = Except.ok da ∧
      |dn - da| ≤ 0.001 ∧
      (NumericalEuropeanEngine.new 105 0.36 0.1 0).getEngineGamma m
          { _maturity := 0.5, _strike := 100, _type := type,
            _exercise := Exercise.European } = Except.ok gn ∧
      AnalyticEuropeanEngine.getEngineGamma
          ({ _S := 105, _sigma := 0.36, _r := 0.1, _b := 0 } : AnalyticEuropeanEngine ℝ) m
          { _maturity := 0.5, _strike := 100, _type := type,
            _exercise := Exercise.European } = Except.ok ga ∧
      |gn - ga| ≤ 0.001 := by
  have hK : (0:ℝ) < 100 := by norm_num
  have hT : (0:ℝ) ≤ 0.5 := by norm_num
  have hlo : (0.7:ℝ) ≤ √0.5 := Real.le_sqrt_of_sq_le (by norm_num)
  have hhi : √(0.5:ℝ) ≤ 1 := Real.sqrt_le_one.mpr (by norm_num) 
  have hs : (0:ℝ) < 0.36 * √0.5 := by nlinarith
  have hslo : (0.25:ℝ) ≤ 0.36 * √0.5 := by nlinarith
  have hshi : (0.36:ℝ) * √0.5 ≤ 0.36 := by nlinarith
  have hA0 : 0 ≤ Real.exp (((0:ℝ) - 0.1) * 0.5) := (Real.exp_pos _).le
  have hA1 : Real.exp (((0:ℝ) - 0.1) * 0.5) ≤ 1 := Real.exp_le_one_iff.mpr (by norm_num)
  have hh : (0:ℝ) < 0.01 := by norm_num
  have hSh : (0.01:ℝ) < 105 := by norm_num
  have hX : (26:ℝ) ≤ (105 - 0.01) * (0.36 * √0.5) := by nlinarith
  have hb1 : Real.exp (((0:ℝ) - 0.1) * 0.5) / ((105 - 0.01) * (0.36 * √0.5)) * 0.01
      ≤ 0.001 := by
    have h1 : Real.exp (((0:ℝ) - 0.1) * 0.5) / ((105 - 0.01) * (0.36 * √0.5)) ≤ 1 / 26 :=
      div_le_div₀ (by norm_num) hA1 (by norm_num) hX
    calc Real.exp (((0:ℝ) - 0.1) * 0.5) / ((105 - 0.01) * (0.36 * √0.5)) * 0.01
        ≤ 1 / 26 * 0.01 := mul_le_mul_of_nonneg_right h1 (by norm_num)
      _ ≤ 0.001 := by norm_num
  have hb2 : 2 * (Real.exp (((0:ℝ) - 0.1) * 0.5) * (1 + 0.36 * √0.5)
      / ((105 - 0.01) ^ 2 * (0.36 * √0.5) ^ 2)) * 0.01 ≤ 0.001 := by
    have hX2 : (676:ℝ) ≤ (105 - 0.01) ^ 2 * (0.36 * √0.5) ^ 2 := by
      rw [← mul_pow]
      nlinarith
    have hnum : Real.exp (((0:ℝ) - 0.1) * 0.5) * (1 + 0.36 * √0.5) ≤ 2 := by nlinarith
    have h1 : Real.exp (((0:ℝ) - 0.1) * 0.5) * (1 + 0.36 * √0.5)
        / ((105 - 0.01) ^ 2 * (0.36 * √0.5) ^ 2) ≤ 2 / 676 :=
      div_le_div₀ (by norm_num) hnum (by norm_num) hX2
    calc 2 * (Real.exp (((0:ℝ) - 0.1) * 0.5) * (1 + 0.36 * √0.5)
          / ((105 - 0.01) ^ 2 * (0.36 * √0.5) ^ 2)) * 0.01
        ≤ 2 * (2 / 676) * 0.01 := by nlinarith
      _ ≤ 0.001 := by norm_num
  have hlog : m.log ((105:ℝ) / 100) = Real.log (105 / 100) := hm.log_eq _ (by norm_num)
  have hsq : m.sqrt (0.5:ℝ) = √0.5 := hm.sqrt_eq _ hT
  cases type
  · have hfd := bs_fd_errors 100 (Real.exp (((0:ℝ) - 0.1) * 0.5))
      (((0:ℝ) + 0.36 * 0.36 / 2) * 0.5) (0.36 * √0.5) 105 0.01 0
      (fun y => (NumericalEuropeanEngine.new (105:ℝ) 0.36 0.1 0).getAnalyticCallPrice m
        ⟨0.5, 100, PayoffType.Call, Exercise.European⟩ y) hK hs hA0 hh hSh
      (fun y hy => (numerical_callPrice_hasDerivAt m hm
          (NumericalEuropeanEngine.new (105:ℝ) 0.36 0.1 0)
          ⟨0.5, 100, PayoffType.Call, Exercise.European⟩ y hK hT hs.ne' hy).congr_deriv
            (add_zero _).symm)
    obtain ⟨hd, hg⟩ := hfd
    rw [add_zero] at hd
    refine ⟨_, _, _, _,
      (numerical_delta_ok m (NumericalEuropeanEngine.new (105:ℝ) 0.36 0.1 0) 100 0.5).1,
      (analyticEuropean_delta_ok m _ 100 0.5).1, ?_,
      (numerical_gamma_ok m (NumericalEuropeanEngine.new (105:ℝ) 0.36 0.1 0) 100 0.5).1,
      analyticEuropean_gamma_ok m _ 100 0.5 PayoffType.Call, ?_⟩
    · show |_ / (2 * (0.01:ℝ)) - m.exp (((0:ℝ) - 0.1) * 0.5)
          * m.cdf ((m.log (105 / 100) + ((0:ℝ) + 0.36 * 0.36 / 2) * 0.5)
              / (0.36 * m.sqrt 0.5))| ≤ 0.001
      rw [hm.exp_eq, hm.cdf_eq, hlog, hsq]
      exact le_trans hd hb1
    · show |_ / ((0.01:ℝ) * 0.01) - m.pdf ((m.log (105 / 100)
              + ((0:ℝ) + 0.36 * 0.36 / 2) * 0.5) / (0.36 * m.sqrt 0.5))
            * m.exp (((0:ℝ) - 0.1) * 0.5) / (105 * 0.36 * m.sqrt 0.5)| ≤ 0.001
      rw [hm.exp_eq, hm.pdf_eq, hlog, hsq]
      have e : ∀ p a : ℝ, p * a / (105 * 0.36 * √0.5) = a * p / (105 * (0.36 * √0.5)) :=
        fun p a => by ring
      rw [e]
      exact le_trans hg hb2
  · have hfd := bs_fd_errors 100 (Real.exp (((0:ℝ) - 0.1) * 0.5))
      (((0:ℝ) + 0.36 * 0.36 / 2) * 0.5) (0.36 * √0.5) 105 0.01
      (-Real.exp (((0:ℝ) - 0.1) * 0.5))
      (fun y => (NumericalEuropeanEngine.new (105:ℝ) 0.36 0.1 0).getAnalyticPutPrice m
        ⟨0.5, 100, PayoffType.Put, Exercise.European⟩ y) hK hs hA0 hh hSh
      (fun y hy => numerical_putPrice_hasDerivAt m hm
          (NumericalEuropeanEngine.new (105:ℝ) 0.36 0.1 0)
          ⟨0.5, 100, PayoffType.Put, Exercise.European⟩ y hK hT hs.ne' hy)
    obtain ⟨hd, hg⟩ := hfd
    refine ⟨_, _, _, _,
      (numerical_delta_ok m (NumericalEuropeanEngine.new (105:ℝ) 0.36 0.1 0) 100 0.5).2,
      (analyticEuropean_delta_ok m _ 100 0.5).2, ?_,
      (numerical_gamma_ok m (NumericalEuropeanEngine.new (105:ℝ) 0.36 0.1 0) 100 0.5).2,
      analyticEuropean_gamma_ok m _ 100 0.5 PayoffType.Put, ?_⟩
    · show |_ / (2 * (0.01:ℝ)) - -(m.exp (((0:ℝ) - 0.1) * 0.5)
          * m.cdf (-((m.log (105 / 100) + ((0:ℝ) + 0.36 * 0.36 / 2) * 0.5)
              / (0.36 * m.sqrt 0.5))))| ≤ 0.001
      rw [hm.exp_eq, hm.cdf_eq, hlog, hsq, gaussian_cdf_neg]
      have e : ∀ a p : ℝ, -(a * (1 - p)) = a * p + -a := fun a p => by ring
      rw [e]
      exact le_trans hd hb1
    · show |_ / ((0.01:ℝ) * 0.01) - m.pdf ((m.log (105 / 100)
              + ((0:ℝ) + 0.36 * 0.36 / 2) * 0.5) / (0.36 * m.sqrt 0.5))
            * m.exp (((0:ℝ) - 0.1) * 0.5) / (105 * 0.36 * m.sqrt 0.5)| ≤ 0.001
      rw [hm.exp_eq, hm.pdf_eq, hlog, hsq]
      have e : ∀ p a : ℝ, p * a / (105 * 0.36 * √0.5) = a * p / (105 * (0.36 * √0.5)) :=
        fun p a => by ring
      rw [e]
      exact le_trans hg hb2

/-- C20 at the real library and the Call payoff. -/
theorem numerical_matches_analytic_witness :
    let m : NumLib ℝ :=
      { log := Real.log, exp := Real.exp, sqrt := Real.sqrt, pow := fun x y => x ^ y,
        cdf := fun x => cdf (gaussianReal 0 1) x, pdf := gaussianPDFReal 0 1 }
    m.IsStandard ∧
    ∃ dn da gn ga : ℝ,
      (NumericalEuropeanEngine.new 105 0.36 0.1 0).getEngineDelta m
          { _maturity := 0.5, _strike := 100, _type := PayoffType.Call,
            _exercise := Exercise.European } = Except.ok dn ∧
      AnalyticEuropeanEngine.getEngineDelta
          ({ _S := 105, _sigma := 0.36, _r := 0.1, _b := 0 } : AnalyticEuropeanEngine ℝ) m
          { _maturity := 0.5, _strike := 100, _type := PayoffType.Call,
            _exercise := Exercise.European } = Except.ok da ∧
      |dn - da| ≤ 0.001 ∧
      (NumericalEuropeanEngine.new 105 0.36 0.1 0).getEngineGamma m
          { _maturity := 0.5, _strike := 100, _type := PayoffType.Call,
            _exercise := Exercise.European } = Except.ok gn ∧
      AnalyticEuropeanEngine.getEngineGamma
          ({ _S := 105, _sigma := 0.36, _r := 0.1, _b := 0 } : AnalyticEuropeanEngine ℝ) m
          { _maturity := 0.5, _strike := 100, _type := PayoffType.Call,
            _exercise := Exercise.European } = Except.ok ga ∧
      |gn - ga| ≤ 0.001 := by
  intro m
  exact ⟨isStandard_real, numerical_matches_analytic m isStandard_real PayoffType.Call⟩

end RealEngines

/-! ## The two put prices -/

section PutPrices

variable {α : Type} [LinearOrderedField α]

/-- When `N(-z) = 1 - N(z)`, the analytic engine's put price at underlying `x` is the
numerical engine's internal put price plus `x (e^((b-r)T) - 1)`. -/
theorem analytic_putPrice_eq_numerical_add (m : NumLib α) (ne : NumericalEuropeanEngine α)
    (K T x : α) (hsymm : ∀ z : α, m.cdf (-z) = 1 - m.cdf z) :
    AnalyticEuropeanEngine.getEnginePrice
        { _S := x, _sigma := ne._sigma, _r := ne._r, _b := ne._b } m
        { _maturity := T, _strike := K, _type := PayoffType.Put,
          _exercise := Exercise.European } =
      Except.ok
        (ne.getAnalyticPutPrice m
            { _maturity := T, _strike := K, _type := PayoffType.Put,
              _exercise := Exercise.European } x
          + x * (m.exp ((ne._b - ne._r) * T) - 1)) := by
  rw [analyticEuropean_price_Put m _ ⟨T, K, PayoffType.Put, Exercise.European⟩ rfl rfl,
    analyticEuropean_callPrice_ok m _ ⟨T, K, PayoffType.Put, Exercise.European⟩ rfl,
    bind_ok_eq _ _ _ rfl]
  unfold NumericalEuropeanEngine.getAnalyticPutPrice
  simp only [Payoff.getStrike, Payoff.getMaturity, hsymm]
  congr 1
  ring

/-- C19 as stated fails: with the real library, `b = 0`, `r = 0.1`, `T = 0.5`, `K = 100`,
`sigma = 0.36` and `x = 105`, the analytic engine's price of the European Put is not the
numerical engine's internal put price; it is that price plus `105 (e^(-0.05) - 1)`. -/
theorem numerical_putPrice_counterexample :
    let m : NumLib ℝ :=
      { log := Real.log, exp := Real.exp, sqrt := Real.sqrt, pow := fun x y => x ^ y,
        cdf := fun x => ProbabilityTheory.cdf (ProbabilityTheory.gaussianReal 0 1) x,
        pdf := ProbabilityTheory.gaussianPDFReal 0 1 }
    AnalyticEuropeanEngine.getEnginePrice
        ({ _S := 105, _sigma := 0.36, _r := 0.1, _b := 0 } : AnalyticEuropeanEngine ℝ) m
        { _maturity := 0.5, _strike := 100, _type := PayoffType.Put,
          _exercise := Exercise.European } ≠
      Except.ok
        ((NumericalEuropeanEngine.new 105 0.36 0.1 0).getAnalyticPutPrice m
          { _maturity := 0.5, _strike := 100, _type := PayoffType.Put,
            _exercise := Exercise.European } 105) ∧
    AnalyticEuropeanEngine.getEnginePrice
        ({ _S := 105, _sigma := 0.36, _r := 0.1, _b := 0 } : AnalyticEuropeanEngine ℝ) m
        { _maturity := 0.5, _strike := 100, _type := PayoffType.Put,
          _exercise := Exercise.European } =
      Except.ok
        ((NumericalEuropeanEngine.new 105 0.36 0.1 0).getAnalyticPutPrice m
            { _maturity := 0.5, _strike := 100, _type := PayoffType.Put,
              _exercise := Exercise.European } 105
          + 105 * (Real.exp (-0.05) - 1)) := by
  intro m
  have key := analytic_putPrice_eq_numerical_add m
    (NumericalEuropeanEngine.new 105 0.36 0.1 0) 100 0.5 105 (fun z => gaussian_cdf_neg z)
  have hexp : m.exp (((NumericalEuropeanEngine.new (105:ℝ) 0.36 0.1 0)._b
      - (NumericalEuropeanEngine.new (105:ℝ) 0.36 0.1 0)._r) * 0.5) = Real.exp (-0.05) := by
    show Real.exp (((0:ℝ) - 0.1) * 0.5) = Real.exp (-0.05)
    norm_num
  rw [hexp] at key
  refine ⟨?_, key⟩
  intro h
  have h2 := Except.ok.inj (key.symm.trans h)
  have h3 : Real.exp (-0.05) = 1 := by linarith
  rw [Real.exp_eq_one_iff] at h3
  norm_num at h3

/-- C19, amended: when `N(-z) = 1 - N(z)` and `exp 0 = 1`, the price the analytic engine
built from `(x, sigma, r, b)` returns for the European Put payoff is the numerical
engine's internal put price at `x` plus `x (e^((b-r)T) - 1)`; the two are equal when
`b = r`. -/
theorem numerical_putPrice_vs_analytic (m : NumLib α) (ne : NumericalEuropeanEngine α)
    (K T x : α) (hsymm : ∀ z : α, m.cdf (-z) = 1 - m.cdf z) (hexp : m.exp 0 = 1) :
    AnalyticEuropeanEngine.getEnginePrice
        { _S := x, _sigma := ne._sigma, _r := ne._r, _b := ne._b } m
        { _maturity := T, _strike := K, _type := PayoffType.Put,
          _exercise := Exercise.European } =
      Except.ok
        (ne.getAnalyticPutPrice m
            { _maturity := T, _strike := K, _type := PayoffType.Put,
              _exercise := Exercise.European } x
          + x * (m.exp ((ne._b - ne._r) * T) - 1)) ∧
    (ne._b = ne._r →
      AnalyticEuropeanEngine.getEnginePrice
          { _S := x, _sigma := ne._sigma, _r := ne._r, _b := ne._b } m
          { _maturity := T, _strike := K, _type := PayoffType.Put,
            _exercise := Exercise.European } =
        Except.ok
          (ne.getAnalyticPutPrice m
            { _maturity := T, _strike := K, _type := PayoffType.Put,
              _exercise := Exercise.European } x)) := by
  have key := analytic_putPrice_eq_numerical_add m ne K T x hsymm
  refine ⟨key, fun hbr => ?_⟩
  rw [key, hbr, sub_self, zero_mul, hexp, sub_self, mul_zero, add_zero]

/-- C19, amended, at the real library with `b = r = 0.08`, `sigma = 0.3`, `K = 65`,
`T = 0.25` and `x = 60`. -/
theorem numerical_putPrice_vs_analytic_witness :
    let m : NumLib ℝ :=
      { log := Real.log, exp := Real.exp, sqrt := Real.sqrt, pow := fun x y => x ^ y,
        cdf := fun x => ProbabilityTheory.cdf (ProbabilityTheory.gaussianReal 0 1) x,
        pdf := ProbabilityTheory.gaussianPDFReal 0 1 }
    (∀ z : ℝ, m.cdf (-z) = 1 - m.cdf z) ∧ m.exp 0 = 1 ∧
    AnalyticEuropeanEngine.getEnginePrice
        ({ _S := 60, _sigma := 0.3, _r := 0.08, _b := 0.08 } : AnalyticEuropeanEngine ℝ) m
        { _maturity := 0.25, _strike := 65, _type := PayoffType.Put,
          _exercise := Exercise.European } =
      Except.ok
        ((NumericalEuropeanEngine.new 60 0.3 0.08 0.08).getAnalyticPutPrice m
          { _maturity := 0.25, _strike := 65, _type := PayoffType.Put,
            _exercise := Exercise.European } 60) := by
  intro m
  exact ⟨fun z => gaussian_cdf_neg z, Real.exp_zero,
    (numerical_putPrice_vs_analytic m (NumericalEuropeanEngine.new 60 0.3 0.08 0.08)
      65 0.25 60 (fun z => gaussian_cdf_neg z) Real.exp_zero).2 rfl⟩

end PutPrices

end PricingLibrary

/-! ## Options: delegation, `setEngine`, and the null engine -/

namespace PricingLibrary

section Options

variable {α : Type} [LinearOrderedField α]

/-- C24: a `VanillaOption` built from a payoff `p` and an engine `e` returns from
`getPrice`, `getDelta`, `getGamma`, `getVega` and `getTheta` exactly what
`e.getEnginePrice(p)`, `e.getEngineDelta(p)`, `e.getEngineGamma(p)`, `e.getEngineVega(p)`
and `e.getEngineTheta(p)` return or throw, and an `ExoticOption` built from `(p, e)`
returns from `getPrice` exactly the result of `e.getEnginePrice(p)`. -/
theorem option_accessors_delegate (m : NumLib α) (p : Payoff α) (e : PricingEngine α) :
    (VanillaOption.newWithEngine p (some e)).getPrice m = some (e.getEnginePrice m p) ∧
    (VanillaOption.newWithEngine p (some e)).getDelta m = some (e.getEngineDelta m p) ∧
    (VanillaOption.newWithEngine p (some e)).getGamma m = some (e.getEngineGamma m p) ∧
    (VanillaOption.newWithEngine p (some e)).getVega m = some (e.getEngineVega m p) ∧
    (VanillaOption.newWithEngine p (some e)).getTheta m = some (e.getEngineTheta m p) ∧
    (ExoticOption.newWithEngine p (some e)).getPrice m = some (e.getEnginePrice m p) :=
  ⟨rfl, rfl, rfl, rfl, rfl, rfl⟩

/-- C25: `setEngine(e2)` on a `VanillaOption` or an `ExoticOption` leaves the payoff
unchanged and rebinds the engine: afterwards every valuation accessor returns what `e2`
returns on that payoff, whatever engine, or none, the option held before. -/
theorem setEngine_rebinds (m : NumLib α) (v : VanillaOption α) (x : ExoticOption α)
    (e2 : PricingEngine α) :
    ((v.setEngine (some e2))._payoff = v._payoff ∧
      (v.setEngine (some e2)).getPrice m = some (e2.getEnginePrice m v._payoff) ∧
      (v.setEngine (some e2)).getDelta m = some (e2.getEngineDelta m v._payoff) ∧
      (v.setEngine (some e2)).getGamma m = some (e2.getEngineGamma m v._payoff) ∧
      (v.setEngine (some e2)).getVega m = some (e2.getEngineVega m v._payoff) ∧
      (v.setEngine (some e2)).getTheta m = some (e2.getEngineTheta m v._payoff)) ∧
    ((x.setEngine (some e2))._payoff = x._payoff ∧
      (x.setEngine (some e2)).getPrice m = some (e2.getEnginePrice m x._payoff)) :=
  ⟨⟨rfl, rfl, rfl, rfl, rfl, rfl⟩, rfl, rfl⟩

/-- C26 as stated fails: on a `VanillaOption` built from a payoff alone `getPrice`
dereferences the null engine pointer; no result is defined, in particular no exception is
thrown. -/
theorem null_engine_counterexample :
    (VanillaOption.new
        ({ _maturity := 1 / 4, _strike := 65, _type := PayoffType.Call,
           _exercise := Exercise.European } : Payoff ℚ)).getPrice ratLib = none ∧
    ¬ ∃ ex : EngineException,
      (VanillaOption.new
        ({ _maturity := 1 / 4, _strike := 65, _type := PayoffType.Call,
           _exercise := Exercise.European } : Payoff ℚ)).getPrice ratLib =
        some (Except.error ex) :=
  ⟨rfl, fun ⟨_, h⟩ => by cases h⟩

/-- C26, amended: on a `VanillaOption` or an `ExoticOption` built from a payoff alone every
valuation accessor dereferences the null engine pointer: the code has no null check, and
the call has no defined result, neither a number nor an exception. -/
theorem null_engine_undefined (m : NumLib α) (p : Payoff α) :
    (VanillaOption.new p).getPrice m = none ∧
    (VanillaOption.new p).getDelta m = none ∧
    (VanillaOption.new p).getGamma m = none ∧
    (VanillaOption.new p).getVega m = none ∧
    (VanillaOption.new p).getTheta m = none ∧
    (ExoticOption.new p).getPrice m = none :=
  ⟨rfl, rfl, rfl, rfl, rfl, rfl⟩

/-- C27 fails on the code: the copy constructor leaves `_h` uninitialised, so the step of
a copy is whatever that member holds, while the constructor sets one hundredth and copy
assignment keeps the step of its target. -/
theorem numerical_copy_step (source target : NumericalEuropeanEngine α)
    (indeterminate S sigma r b : α) :
    (NumericalEuropeanEngine.copy source indeterminate)._h = indeterminate ∧
    (NumericalEuropeanEngine.new S sigma r b)._h = 1 / 100 ∧
    (NumericalEuropeanEngine.assign target source)._h = target._h :=
  ⟨rfl, numerical_new_h S sigma r b, rfl⟩

end Options

end PricingLibrary

/-! ## `create_mesh` -/

namespace Helper_functions

section Loop

variable {α : Type} [LinearOrderedField α]

/-- The loop stores as many values as it makes passes. -/
theorem create_mesh_loop_length (step : α) (count : Nat) (val : α) :
    (create_mesh_loop step count val).length = count := by
  induction count generalizing val with
  | zero => rfl
  | succ k ih => simp [create_mesh_loop, ih]

/-- Slot `i` of the loop's result holds the start value plus `i` steps. -/
theorem create_mesh_loop_getElem (step : α) (count : Nat) (val : α) (i : Nat)
    (hi : i < count) :
    (create_mesh_loop step count val)[i]? = some (val + i * step) := by
  induction count generalizing val i with
  | zero => omega
  | succ k ih =>
    cases i with
    | zero => simp [create_mesh_loop]
    | succ j =>
      simp only [create_mesh_loop, List.getElem?_cons_succ]
      rw [ih (val + step) j (by omega)]
      congr 1
      push_cast
      ring

end Loop

variable {α : Type} [LinearOrderedField α] [FloorRing α]

/-- A non-negative value whose integer part is an `int` converts to that integer part. -/
theorem toInt_of_nonneg (x : α) (h0 : 0 ≤ x) (hfit : ⌊x⌋ ≤ 2147483647) :
    toInt x = some ⌊x⌋ := by
  have hn : (0 : ℤ) ≤ ⌊x⌋ := Int.floor_nonneg.mpr h0
  unfold toInt
  simp only [h0, if_true]
  rw [if_pos ⟨by omega, hfit⟩]

/-- C30 as stated fails: with `step = 1 > 0` and `min_value = 0 ≤ max_value = 2³¹` the
quotient `2³¹` is not an `int`, and no mesh is returned. -/
theorem create_mesh_counterexample :
    (0 : ℚ) < 1 ∧ (0 : ℚ) ≤ 2147483648 ∧ create_mesh (0 : ℚ) 2147483648 1 = none := by
  refine ⟨by norm_num, by norm_num, ?_⟩
  have hfloor : ⌊((2147483648 : ℚ) - 0) / 1⌋ = 2147483648 := by
    rw [sub_zero, div_one]
    exact Int.floor_ofNat 2147483648
  unfold create_mesh toInt
  simp only [hfloor]
  norm_num

/-- C30, amended: for `step > 0`, `min_value ≤ max_value` and
`(max_value - min_value) / step < 2³¹ - 1`, `create_mesh` returns a mesh of `n + 1`
elements, `n` the quotient truncated to an integer; element `i` is `min_value + i step`,
the first element is `min_value`, and the last is at most `max_value` and greater than
`max_value - step`. -/
theorem create_mesh_spec (min_value max_value step : α) (hstep : 0 < step)
    (hle : min_value ≤ max_value)
    (hfit : (max_value - min_value) / step < 2147483647) :
    ∃ mesh : List α,
      create_mesh min_value max_value step = some mesh ∧
      mesh.length = ⌊(max_value - min_value) / step⌋.toNat + 1 ∧
      (∀ i : Nat, i < mesh.length → mesh[i]? = some (min_value + i * step)) ∧
      mesh.head? = some min_value ∧
      ∃ last : α, mesh.getLast? = some last ∧ last ≤ max_value ∧ max_value - step < last := by
  have hx0 : 0 ≤ (max_value - min_value) / step :=
    div_nonneg (sub_nonneg.mpr hle) hstep.le
  have hn0 : (0 : ℤ) ≤ ⌊(max_value - min_value) / step⌋ := Int.floor_nonneg.mpr hx0
  have hnlt : ⌊(max_value - min_value) / step⌋ < 2147483647 := by
    rw [Int.floor_lt]
    exact_mod_cast hfit
  obtain ⟨N, hN⟩ := Int.eq_ofNat_of_zero_le hn0
  have hconv := toInt_of_nonneg ((max_value - min_value) / step) hx0 (by omega)
  have hmesh : create_mesh min_value max_value step =
      some (create_mesh_loop step (N + 1) min_value) := by
    unfold create_mesh
    rw [if_neg hstep.ne', hconv]
    simp only
    rw [if_neg (by omega), if_neg (by omega), hN]
    rfl
  have hlen := create_mesh_loop_length step (N + 1) min_value
  have hNle : (N : α) ≤ (max_value - min_value) / step := by
    have := Int.floor_le ((max_value - min_value) / step)
    rw [hN] at this
    exact_mod_cast this
  have hNlt : (max_value - min_value) / step < (N : α) + 1 := by
    have := Int.lt_floor_add_one ((max_value - min_value) / step)
    rw [hN] at this
    exact_mod_cast this
  refine ⟨_, hmesh, ?_, ?_, ?_, min_value + N * step, ?_, ?_, ?_⟩
  · rw [hlen, hN]; rfl
  · intro i hi
    rw [hlen] at hi
    exact create_mesh_loop_getElem step (N + 1) min_value i hi
  · simp [create_mesh_loop]
  · rw [List.getLast?_eq_getElem?, hlen]
    exact create_mesh_loop_getElem step (N + 1) min_value N (by omega)
  · rw [le_div_iff₀ hstep] at hNle
    linarith
  · rw [div_lt_iff₀ hstep] at hNlt
    linarith

/-- C30, amended, at `create_mesh(10, 50, 1)`, which is the 41 values `10, 11, ..., 50`. -/
theorem create_mesh_spec_witness :
    ((0 : ℚ) < 1 ∧ (10 : ℚ) ≤ 50 ∧ ((50 : ℚ) - 10) / 1 < 2147483647) ∧
    (∃ mesh : List ℚ,
      create_mesh (10 : ℚ) 50 1 = some mesh ∧
      mesh.length = ⌊((50 : ℚ) - 10) / 1⌋.toNat + 1 ∧
      (∀ i : Nat, i < mesh.length → mesh[i]? = some ((10 : ℚ) + i * 1)) ∧
      mesh.head? = some 10 ∧
      ∃ last : ℚ, mesh.getLast? = some last ∧ last ≤ 50 ∧ (50 : ℚ) - 1 < last) ∧
    create_mesh (10 : ℚ) 50 1 =
      some [10, 11, 12, 13, 14, 15, 16, 17, 18, 19, 20, 21, 22, 23, 24, 25, 26, 27, 28, 29,
        30, 31, 32, 33, 34, 35, 36, 37, 38, 39, 40, 41, 42, 43, 44, 45, 46, 47, 48, 49,
        50] := by
  refine ⟨⟨by norm_num, by norm_num, by norm_num⟩,
    create_mesh_spec (10 : ℚ) 50 1 (by norm_num) (by norm_num) (by norm_num), ?_⟩
  have hfloor : ⌊((50 : ℚ) - 10) / 1⌋ = 40 := by
    rw [div_one, show (50 : ℚ) - 10 = 40 by norm_num]
    exact Int.floor_ofNat 40
  unfold create_mesh toInt
  simp only [hfloor]
  norm_num [create_mesh_loop]

end Helper_functions

/-! ## Delta as the derivative of the price -/

namespace PricingLibrary

section Derivatives

open MeasureTheory ProbabilityTheory Set Filter Topology

/-- With a standard library and positive `S`, `K`, `sigma`, `T`: the analytic engine's
price of the European payoff of the given type is, for every underlying `x`, the value of
one function of `x`, and that function has at `S` the derivative `e^((b-r)T) N(d1)` for a
Call and `e^((b-r)T) N(d1) - 1` for a Put. -/
theorem analytic_price_hasDerivAt (m : NumLib ℝ) (hm : m.IsStandard)
    (S K sigma T r b : ℝ) (hS : 0 < S) (hK : 0 < K) (hsigma : 0 < sigma) (hT : 0 < T) :
    (∃ price : ℝ → ℝ,
      (∀ x : ℝ, AnalyticEuropeanEngine.getEnginePrice
          { _S := x, _sigma := sigma, _r := r, _b := b } m
          { _maturity := T, _strike := K, _type := PayoffType.Call,
            _exercise := Exercise.European } = Except.ok (price x)) ∧
      HasDerivAt price
        (Real.exp ((b - r) * T)
          * cdf (gaussianReal 0 1)
              ((Real.log (S / K) + (b + sigma * sigma / 2) * T) / (sigma * √T))) S) ∧
    (∃ price : ℝ → ℝ,
      (∀ x : ℝ, AnalyticEuropeanEngine.getEnginePrice
          { _S := x, _sigma := sigma, _r := r, _b := b } m
          { _maturity := T, _strike := K, _type := PayoffType.Put,
            _exercise := Exercise.European } = Except.ok (price x)) ∧
      HasDerivAt price
        (Real.exp ((b - r) * T)
          * cdf (gaussianReal 0 1)
              ((Real.log (S / K) + (b + sigma * sigma / 2) * T) / (sigma * √T)) - 1) S) := by
  have hs : sigma * √T ≠ 0 := mul_ne_zero hsigma.ne' (Real.sqrt_pos.mpr hT).ne'
  have hcall := numerical_callPrice_hasDerivAt m hm
    { _S := S, _sigma := sigma, _r := r, _b := b, _h := 0 }
    { _maturity := T, _strike := K, _type := PayoffType.Call,
      _exercise := Exercise.European } S hK hT.le hs hS
  have hcall' := numerical_callPrice_hasDerivAt m hm
    { _S := S, _sigma := sigma, _r := r, _b := b, _h := 0 }
    { _maturity := T, _strike := K, _type := PayoffType.Put,
      _exercise := Exercise.European } S hK hT.le hs hS
  constructor
  · refine ⟨_, fun x => ?_, hcall⟩
    rw [analyticEuropean_price_Call m _ ⟨T, K, PayoffType.Call, Exercise.European⟩ rfl rfl,
      analyticEuropean_callPrice_ok m _ ⟨T, K, PayoffType.Call, Exercise.European⟩ rfl]
    rfl
  · refine ⟨fun x => (NumericalEuropeanEngine.getAnalyticCallPrice
        { _S := S, _sigma := sigma, _r := r, _b := b, _h := 0 } m
        { _maturity := T, _strike := K, _type := PayoffType.Put,
          _exercise := Exercise.European } x) - x + K * m.exp (-r * T), fun x => ?_, ?_⟩
    · rw [analyticEuropean_price_Put m _ ⟨T, K, PayoffType.Put, Exercise.European⟩ rfl rfl,
        analyticEuropean_callPrice_ok m _ ⟨T, K, PayoffType.Put, Exercise.European⟩ rfl]
      rfl
    · exact (hcall'.sub (hasDerivAt_id S)).add_const _

/-- C28: for positive `S`, `K`, `sigma`, `T` and any `r`, `b`, with the library computing
the real functions, the map sending `x` to the price `AnalyticEuropeanEngine(x, sigma, r,
b)` returns for the European Call payoff has, at `x = S`, the derivative that
`getEngineDelta` returns for that payoff. -/
theorem analyticEuropean_call_delta_is_derivative (m : NumLib ℝ) (hm : m.IsStandard)
    (S K sigma T r b : ℝ) (hS : 0 < S) (hK : 0 < K) (hsigma : 0 < sigma) (hT : 0 < T) :
    ∃ (price : ℝ → ℝ) (delta : ℝ),
      (∀ x : ℝ, AnalyticEuropeanEngine.getEnginePrice
          { _S := x, _sigma := sigma, _r := r, _b := b } m
          { _maturity := T, _strike := K, _type := PayoffType.Call,
            _exercise := Exercise.European } = Except.ok (price x)) ∧
      AnalyticEuropeanEngine.getEngineDelta
          { _S := S, _sigma := sigma, _r := r, _b := b } m
          { _maturity := T, _strike := K, _type := PayoffType.Call,
            _exercise := Exercise.European } = Except.ok delta ∧
      HasDerivAt price delta S := by
  obtain ⟨price, hprice, hderiv⟩ :=
    (analytic_price_hasDerivAt m hm S K sigma T r b hS hK hsigma hT).1
  refine ⟨price, _, hprice,
    (analyticEuropean_delta_ok m { _S := S, _sigma := sigma, _r := r, _b := b } K T).1, ?_⟩
  show HasDerivAt price (m.exp ((b - r) * T)
    * m.cdf ((m.log (S / K) + (b + sigma * sigma / 2) * T) / (sigma * m.sqrt T))) S
  rw [hm.exp_eq, hm.cdf_eq, hm.log_eq _ (div_pos hS hK), hm.sqrt_eq _ hT.le]
  exact hderiv

/-- C28 at the real library with `S = 105`, `K = 100`, `sigma = 0.36`, `T = 0.5`,
`r = 0.1`, `b = 0`. -/
theorem analyticEuropean_call_delta_is_derivative_witness :
    let m : NumLib ℝ :=
      { log := Real.log, exp := Real.exp, sqrt := Real.sqrt, pow := fun x y => x ^ y,
        cdf := fun x => cdf (gaussianReal 0 1) x, pdf := gaussianPDFReal 0 1 }
    (m.IsStandard ∧ (0 : ℝ) < 105 ∧ (0 : ℝ) < 100 ∧ (0 : ℝ) < 0.36 ∧ (0 : ℝ) < 0.5) ∧
    ∃ (price : ℝ → ℝ) (delta : ℝ),
      (∀ x : ℝ, AnalyticEuropeanEngine.getEnginePrice
          { _S := x, _sigma := 0.36, _r := 0.1, _b := 0 } m
          { _maturity := 0.5, _strike := 100, _type := PayoffType.Call,
            _exercise := Exercise.European } = Except.ok (price x)) ∧
      AnalyticEuropeanEngine.getEngineDelta
          ({ _S := 105, _sigma := 0.36, _r := 0.1, _b := 0 } :
            AnalyticEuropeanEngine ℝ) m
          { _maturity := 0.5, _strike := 100, _type := PayoffType.Call,
            _exercise := Exercise.European } = Except.ok delta ∧
      HasDerivAt price delta 105 := by
  intro m
  exact ⟨⟨isStandard_real, by norm_num, by norm_num, by norm_num, by norm_num⟩,
    analyticEuropean_call_delta_is_derivative m isStandard_real 105 100 0.36 0.5 0.1 0
      (by norm_num) (by norm_num) (by norm_num) (by norm_num)⟩

/-- C29 as stated fails: with the real library, `S = 105`, `K = 100`, `sigma = 0.36`,
`T = 0.5`, `r = 0.1` and `b = 0`, the analytic engine's European Put price as a function
of the underlying does not have the Put delta as its derivative at `S`. -/
theorem analyticEuropean_put_delta_counterexample :
    let m : NumLib ℝ :=
      { log := Real.log, exp := Real.exp, sqrt := Real.sqrt, pow := fun x y => x ^ y,
        cdf := fun x => cdf (gaussianReal 0 1) x, pdf := gaussianPDFReal 0 1 }
    ∃ (price : ℝ → ℝ) (delta : ℝ),
      (∀ x : ℝ, AnalyticEuropeanEngine.getEnginePrice
          { _S := x, _sigma := 0.36, _r := 0.1, _b := 0 } m
          { _maturity := 0.5, _strike := 100, _type := PayoffType.Put,
            _exercise := Exercise.European } = Except.ok (price x)) ∧
      AnalyticEuropeanEngine.getEngineDelta
          ({ _S := 105, _sigma := 0.36, _r := 0.1, _b := 0 } :
            AnalyticEuropeanEngine ℝ) m
          { _maturity := 0.5, _strike := 100, _type := PayoffType.Put,
            _exercise := Exercise.European } = Except.ok delta ∧
      ¬ HasDerivAt price delta 105 := by
  intro m
  obtain ⟨price, hprice, hderiv⟩ :=
    (analytic_price_hasDerivAt m isStandard_real 105 100 0.36 0.5 0.1 0
      (by norm_num) (by norm_num) (by norm_num) (by norm_num)).2
  refine ⟨price, _, hprice,
    (analyticEuropean_delta_ok m { _S := 105, _sigma := 0.36, _r := 0.1, _b := 0 }
      100 0.5).2, ?_⟩
  intro h
  have huniq := h.unique hderiv
  have hA : Real.exp (((0 : ℝ) - 0.1) * 0.5) = 1 := by
    have e : ∀ a p : ℝ, -(a * (1 - p)) = a * p - 1 → a = 1 := fun a p hap => by linarith
    refine e _ (cdf (gaussianReal 0 1)
      ((Real.log (105 / 100) + ((0 : ℝ) + 0.36 * 0.36 / 2) * 0.5) / (0.36 * √0.5))) ?_
    rw [← gaussian_cdf_neg]
    exact huniq
  rw [Real.exp_eq_one_iff] at hA
  norm_num at hA

/-- C29, amended: for positive `S`, `K`, `sigma`, `T` and `b = r`, with the library
computing the real functions, the map sending `x` to the price `AnalyticEuropeanEngine(x,
sigma, r, b)` returns for the European Put payoff has, at `x = S`, the derivative that
`getEngineDelta` returns for that payoff. -/
theorem analyticEuropean_put_delta_is_derivative (m : NumLib ℝ) (hm : m.IsStandard)
    (S K sigma T r b : ℝ) (hS : 0 < S) (hK : 0 < K) (hsigma : 0 < sigma) (hT : 0 < T)
    (hbr : b = r) :
    ∃ (price : ℝ → ℝ) (delta : ℝ),
      (∀ x : ℝ, AnalyticEuropeanEngine.getEnginePrice
          { _S := x, _sigma := sigma, _r := r, _b := b } m
          { _maturity := T, _strike := K, _type := PayoffType.Put,
            _exercise := Exercise.European } = Except.ok (price x)) ∧
      AnalyticEuropeanEngine.getEngineDelta
          { _S := S, _sigma := sigma, _r := r, _b := b } m
          { _maturity := T, _strike := K, _type := PayoffType.Put,
            _exercise := Exercise.European } = Except.ok delta ∧
      HasDerivAt price delta S := by
  obtain ⟨price, hprice, hderiv⟩ :=
    (analytic_price_hasDerivAt m hm S K sigma T r b hS hK hsigma hT).2
  refine ⟨price, _, hprice,
    (analyticEuropean_delta_ok m { _S := S, _sigma := sigma, _r := r, _b := b } K T).2, ?_⟩
  show HasDerivAt price (-(m.exp ((b - r) * T)
    * m.cdf (-((m.log (S / K) + (b + sigma * sigma / 2) * T) / (sigma * m.sqrt T))))) S
  rw [hm.exp_eq, hm.cdf_eq, hm.log_eq _ (div_pos hS hK), hm.sqrt_eq _ hT.le,
    gaussian_cdf_neg]
  have hA : Real.exp ((b - r) * T) = 1 := by
    rw [hbr, sub_self, zero_mul, Real.exp_zero]
  rw [hA] at hderiv ⊢
  convert hderiv using 1
  ring

/-- C29, amended, at the real library with `S = 60`, `K = 65`, `sigma = 0.3`, `T = 0.25`
and `b = r = 0.08`. -/
theorem analyticEuropean_put_delta_is_derivative_witness :
    let m : NumLib ℝ :=
      { log := Real.log, exp := Real.exp, sqrt := Real.sqrt, pow := fun x y => x ^ y,
        cdf := fun x => cdf (gaussianReal 0 1) x, pdf := gaussianPDFReal 0 1 }
    (m.IsStandard ∧ (0 : ℝ) < 60 ∧ (0 : ℝ) < 65 ∧ (0 : ℝ) < 0.3 ∧ (0 : ℝ) < 0.25
      ∧ (0.08 : ℝ) = 0.08) ∧
    ∃ (price : ℝ → ℝ) (delta : ℝ),
      (∀ x : ℝ, AnalyticEuropeanEngine.getEnginePrice
          { _S := x, _sigma := 0.3, _r := 0.08, _b := 0.08 } m
          { _maturity := 0.25, _strike := 65, _type := PayoffType.Put,
            _exercise := Exercise.European } = Except.ok (price x)) ∧
      AnalyticEuropeanEngine.getEngineDelta
          ({ _S := 60, _sigma := 0.3, _r := 0.08, _b := 0.08 } :
            AnalyticEuropeanEngine ℝ) m
          { _maturity := 0.25, _strike := 65, _type := PayoffType.Put,
            _exercise := Exercise.European } = Except.ok delta ∧
      HasDerivAt price delta 60 := by
  intro m
  exact ⟨⟨isStandard_real, by norm_num, by norm_num, by norm_num, by norm_num, rfl⟩,
    analyticEuropean_put_delta_is_derivative m isStandard_real 60 65 0.3 0.25 0.08 0.08
      (by norm_num) (by norm_num) (by norm_num) (by norm_num) rfl⟩

end Derivatives

end PricingLibrary

/-! ## The perpetual engine at `K = 100`, `sigma = 0.1`, `r = 0.1`, `b = 0.02` -/

namespace PricingLibrary

section PerpetualScenario

/-- With a standard library the square root in `y1` and `y2` is the real square root of
`22.25`, between `4.71` and `4.72`. -/
theorem perpetual_scenario_root (m : NumLib ℝ) (hm : m.IsStandard) :
    ∃ Q : ℝ, 4.71 < Q ∧ Q < 4.72 ∧
      m.sqrt (m.pow ((0.02 : ℝ) / (0.1 * 0.1) - 0.5) 2 + (2 * 0.1) / (0.1 * 0.1)) = Q := by
  refine ⟨√22.25, ?_, ?_, ?_⟩
  · exact Real.lt_sqrt_of_sq_lt (by norm_num)
  · rw [Real.sqrt_lt' (by norm_num)]
    norm_num
  · rw [hm.pow_two, hm.sqrt_eq _ (by norm_num)]
    congr 1
    norm_num

/-- The perpetual call price in the scenario, for a positive underlying `S`. -/
theorem perpetual_scenario_call (m : NumLib ℝ) (hm : m.IsStandard) (S T : ℝ) (hS : 0 < S) :
    ∃ y1 : ℝ, 3.21 < y1 ∧ y1 < 3.22 ∧
      y1 = 0.5 - 0.02 / (0.1 * 0.1)
        + m.sqrt (m.pow ((0.02 : ℝ) / (0.1 * 0.1) - 0.5) 2 + (2 * 0.1) / (0.1 * 0.1)) ∧
      AnalyticAmericanPerpetualEngine.getEnginePrice
          ({ _S := S, _sigma := 0.1, _r := 0.1, _b := 0.02 } :
            AnalyticAmericanPerpetualEngine ℝ) m
          { _maturity := T, _strike := 100, _type := PayoffType.Call,
            _exercise := Exercise.American } =
        Except.ok (100 / (y1 - 1) * ((y1 - 1) * S / (y1 * 100)) ^ y1) := by
  obtain ⟨Q, hQ1, hQ2, hQ⟩ := perpetual_scenario_root m hm
  refine ⟨0.5 - 0.02 / (0.1 * 0.1) + Q, by norm_num; linarith, by norm_num; linarith,
    by rw [hQ], ?_⟩
  rw [perpetual_price_Call m _ ⟨T, 100, PayoffType.Call, Exercise.American⟩ rfl rfl,
    perpetual_callPrice_ok m _ ⟨T, 100, PayoffType.Call, Exercise.American⟩ rfl]
  simp only [Payoff.getStrike, hQ]
  rw [hm.pow_eq]
  have h1 : (0 : ℝ) < 0.5 - 0.02 / (0.1 * 0.1) + Q - 1 := by norm_num; linarith
  have h2 : (0 : ℝ) < 0.5 - 0.02 / (0.1 * 0.1) + Q := by norm_num; linarith
  positivity

/-- The perpetual put price in the scenario, for a positive underlying `S`. -/
theorem perpetual_scenario_put (m : NumLib ℝ) (hm : m.IsStandard) (S T : ℝ) (hS : 0 < S) :
    ∃ y2 : ℝ, -6.22 < y2 ∧ y2 < -6.21 ∧
      y2 = 0.5 - 0.02 / (0.1 * 0.1)
        - m.sqrt (m.pow ((0.02 : ℝ) / (0.1 * 0.1) - 0.5) 2 + (2 * 0.1) / (0.1 * 0.1)) ∧
      AnalyticAmericanPerpetualEngine.getEnginePrice
          ({ _S := S, _sigma := 0.1, _r := 0.1, _b := 0.02 } :
            AnalyticAmericanPerpetualEngine ℝ) m
          { _maturity := T, _strike := 100, _type := PayoffType.Put,
            _exercise := Exercise.American } =
        Except.ok (100 / (1 - y2) * ((y2 - 1) * S / (y2 * 100)) ^ y2) := by
  obtain ⟨Q, hQ1, hQ2, hQ⟩ := perpetual_scenario_root m hm
  refine ⟨0.5 - 0.02 / (0.1 * 0.1) - Q, by norm_num; linarith, by norm_num; linarith,
    by rw [hQ], ?_⟩
  rw [perpetual_price_Put m _ ⟨T, 100, PayoffType.Put, Exercise.American⟩ rfl rfl,
    perpetual_putPrice_ok m _ ⟨T, 100, PayoffType.Put, Exercise.American⟩ rfl]
  simp only [Payoff.getStrike, hQ]
  rw [hm.pow_eq]
  have h1 : (0.5 : ℝ) - 0.02 / (0.1 * 0.1) - Q - 1 < 0 := by norm_num; linarith
  have h2 : (0.5 : ℝ) - 0.02 / (0.1 * 0.1) - Q < 0 := by norm_num; linarith
  exact div_pos_of_neg_of_neg (mul_neg_of_neg_of_pos h1 hS)
    (mul_neg_of_neg_of_pos h2 (by norm_num))

/-- C21: with `K = 100`, `sigma = 0.1`, `r = 0.1`, `b = 0.02` and an American Call payoff,
with the library computing the real functions, the perpetual call price is strictly
increasing in the underlying price on `[10, 50]`. -/
theorem perpetual_call_increasing (m : NumLib ℝ) (hm : m.IsStandard) (S₁ S₂ T : ℝ)
    (h₁ : 10 ≤ S₁) (h₁₂ : S₁ < S₂) (_h₂ : S₂ ≤ 50) :
    ∃ p₁ p₂ : ℝ,
      AnalyticAmericanPerpetualEngine.getEnginePrice
          ({ _S := S₁, _sigma := 0.1, _r := 0.1, _b := 0.02 } :
            AnalyticAmericanPerpetualEngine ℝ) m
          { _maturity := T, _strike := 100, _type := PayoffType.Call,
            _exercise := Exercise.American } = Except.ok p₁ ∧
      AnalyticAmericanPerpetualEngine.getEnginePrice
          ({ _S := S₂, _sigma := 0.1, _r := 0.1, _b := 0.02 } :
            AnalyticAmericanPerpetualEngine ℝ) m
          { _maturity := T, _strike := 100, _type := PayoffType.Call,
            _exercise := Exercise.American } = Except.ok p₂ ∧
      p₁ < p₂ := by
  have hS₁ : 0 < S₁ := by linarith
  have hS₂ : 0 < S₂ := by linarith
  obtain ⟨y, hy1, hy2, hy, hp₁⟩ := perpetual_scenario_call m hm S₁ T hS₁
  obtain ⟨y', _, _, hy', hp₂⟩ := perpetual_scenario_call m hm S₂ T hS₂
  have hyy : y' = y := hy'.trans hy.symm
  rw [hyy] at hp₂
  refine ⟨_, _, hp₁, hp₂, ?_⟩
  have hy0 : 0 < y := by linarith
  have hy10 : 0 < y - 1 := by linarith
  have hbase : (y - 1) * S₁ / (y * 100) < (y - 1) * S₂ / (y * 100) :=
    div_lt_div_of_pos_right (mul_lt_mul_of_pos_left h₁₂ hy10) (by positivity)
  have hpow := Real.rpow_lt_rpow (by positivity) hbase hy0
  exact mul_lt_mul_of_pos_left hpow (by positivity)

/-- C21 at the real library and the end points `10` and `50`. -/
theorem perpetual_call_increasing_witness :
    let m : NumLib ℝ :=
      { log := Real.log, exp := Real.exp, sqrt := Real.sqrt, pow := fun x y => x ^ y,
        cdf := fun x => ProbabilityTheory.cdf (ProbabilityTheory.gaussianReal 0 1) x,
        pdf := ProbabilityTheory.gaussianPDFReal 0 1 }
    (m.IsStandard ∧ (10 : ℝ) ≤ 10 ∧ (10 : ℝ) < 50 ∧ (50 : ℝ) ≤ 50) ∧
    ∃ p₁ p₂ : ℝ,
      AnalyticAmericanPerpetualEngine.getEnginePrice
          ({ _S := 10, _sigma := 0.1, _r := 0.1, _b := 0.02 } :
            AnalyticAmericanPerpetualEngine ℝ) m
          { _maturity := 0, _strike := 100, _type := PayoffType.Call,
            _exercise := Exercise.American } = Except.ok p₁ ∧
      AnalyticAmericanPerpetualEngine.getEnginePrice
          ({ _S := 50, _sigma := 0.1, _r := 0.1, _b := 0.02 } :
            AnalyticAmericanPerpetualEngine ℝ) m
          { _maturity := 0, _strike := 100, _type := PayoffType.Call,
            _exercise := Exercise.American } = Except.ok p₂ ∧
      p₁ < p₂ := by
  intro m
  exact ⟨⟨isStandard_real, le_refl _, by norm_num, le_refl _⟩,
    perpetual_call_increasing m isStandard_real 10 50 0 (le_refl _) (by norm_num)
      (le_refl _)⟩

/-- C22: for `S = 110`, `K = 100`, `sigma = 0.1`, `r = 0.1`, `b = 0.02`, with the library
computing the real functions, both perpetual prices are well defined (the divisors
`sigma²`, `y1 - 1`, `y1 K`, `1 - y2`, `y2 K` are not zero, the radicand is not negative
and both power bases are positive) and strictly positive. -/
theorem perpetual_scenario_well_defined (m : NumLib ℝ) (hm : m.IsStandard) (T : ℝ) :
    let root := m.sqrt (m.pow ((0.02 : ℝ) / (0.1 * 0.1) - 0.5) 2 + (2 * 0.1) / (0.1 * 0.1))
    let y1 := 0.5 - 0.02 / (0.1 * 0.1) + root
    let y2 := 0.5 - 0.02 / (0.1 * 0.1) - root
    ((0.1 : ℝ) * 0.1 ≠ 0 ∧
      0 ≤ m.pow ((0.02 : ℝ) / (0.1 * 0.1) - 0.5) 2 + (2 * 0.1) / (0.1 * 0.1)) ∧
    (y1 - 1 ≠ 0 ∧ y1 * 100 ≠ 0 ∧ 0 < (y1 - 1) * 110 / (y1 * 100)) ∧
    (1 - y2 ≠ 0 ∧ y2 * 100 ≠ 0 ∧ 0 < (y2 - 1) * 110 / (y2 * 100)) ∧
    ∃ call put : ℝ,
      AnalyticAmericanPerpetualEngine.getEnginePrice
          ({ _S := 110, _sigma := 0.1, _r := 0.1, _b := 0.02 } :
            AnalyticAmericanPerpetualEngine ℝ) m
          { _maturity := T, _strike := 100, _type := PayoffType.Call,
            _exercise := Exercise.American } = Except.ok call ∧
      AnalyticAmericanPerpetualEngine.getEnginePrice
          ({ _S := 110, _sigma := 0.1, _r := 0.1, _b := 0.02 } :
            AnalyticAmericanPerpetualEngine ℝ) m
          { _maturity := T, _strike := 100, _type := PayoffType.Put,
            _exercise := Exercise.American } = Except.ok put ∧
      0 < call ∧ 0 < put := by
  intro root y1 y2
  obtain ⟨y, hy1, hy2, hy, hc⟩ := perpetual_scenario_call m hm 110 T (by norm_num)
  obtain ⟨z, hz1, hz2, hz, hp⟩ := perpetual_scenario_put m hm 110 T (by norm_num)
  have e1 : y1 = y := hy.symm
  have e2 : y2 = z := hz.symm
  rw [e1, e2]
  have hy0 : 0 < y := by linarith
  have hy10 : 0 < y - 1 := by linarith
  have hz0 : z < 0 := by linarith
  have hz10 : z - 1 < 0 := by linarith
  have hbc : 0 < (y - 1) * 110 / (y * 100) := by positivity
  have hbp : 0 < (z - 1) * 110 / (z * 100) :=
    div_pos_of_neg_of_neg (mul_neg_of_neg_of_pos hz10 (by norm_num))
      (mul_neg_of_neg_of_pos hz0 (by norm_num))
  refine ⟨⟨by norm_num, by rw [hm.pow_two]; positivity⟩, ⟨hy10.ne', by positivity, hbc⟩,
    ⟨by linarith, (mul_neg_of_neg_of_pos hz0 (by norm_num)).ne, hbp⟩,
    _, _, hc, hp, ?_, ?_⟩
  · exact mul_pos (by positivity) (Real.rpow_pos_of_pos hbc _)
  · exact mul_pos (div_pos (by norm_num) (by linarith)) (Real.rpow_pos_of_pos hbp _)

/-- C22 at the real library. -/
theorem perpetual_scenario_well_defined_witness :
    let m : NumLib ℝ :=
      { log := Real.log, exp := Real.exp, sqrt := Real.sqrt, pow := fun x y => x ^ y,
        cdf := fun x => ProbabilityTheory.cdf (ProbabilityTheory.gaussianReal 0 1) x,
        pdf := ProbabilityTheory.gaussianPDFReal 0 1 }
    m.IsStandard ∧
    ∃ call put : ℝ,
      AnalyticAmericanPerpetualEngine.getEnginePrice
          ({ _S := 110, _sigma := 0.1, _r := 0.1, _b := 0.02 } :
            AnalyticAmericanPerpetualEngine ℝ) m
          { _maturity := 0, _strike := 100, _type := PayoffType.Call,
            _exercise := Exercise.American } = Except.ok call ∧
      AnalyticAmericanPerpetualEngine.getEnginePrice
          ({ _S := 110, _sigma := 0.1, _r := 0.1, _b := 0.02 } :
            AnalyticAmericanPerpetualEngine ℝ) m
          { _maturity := 0, _strike := 100, _type := PayoffType.Put,
            _exercise := Exercise.American } = Except.ok put ∧
      0 < call ∧ 0 < put := by
  intro m
  exact ⟨isStandard_real, (perpetual_scenario_well_defined m isStandard_real 0).2.2.2⟩

/-- In the scenario at `S = 110` the perpetual put price is below the perpetual call
price: the put is below `14` and the call above `14`. -/
theorem perpetual_scenario_put_lt_call (m : NumLib ℝ) (hm : m.IsStandard) (T : ℝ) :
    ∃ call put : ℝ,
      AnalyticAmericanPerpetualEngine.getEnginePrice
          ({ _S := 110, _sigma := 0.1, _r := 0.1, _b := 0.02 } :
            AnalyticAmericanPerpetualEngine ℝ) m
          { _maturity := T, _strike := 100, _type := PayoffType.Call,
            _exercise := Exercise.American } = Except.ok call ∧
      AnalyticAmericanPerpetualEngine.getEnginePrice
          ({ _S := 110, _sigma := 0.1, _r := 0.1, _b := 0.02 } :
            AnalyticAmericanPerpetualEngine ℝ) m
          { _maturity := T, _strike := 100, _type := PayoffType.Put,
            _exercise := Exercise.American } = Except.ok put ∧
      put < 14 ∧ 14 < call := by
  obtain ⟨y, hy1, hy2, -, hc⟩ := perpetual_scenario_call m hm 110 T (by norm_num)
  obtain ⟨z, hz1, hz2, -, hp⟩ := perpetual_scenario_put m hm 110 T (by norm_num)
  refine ⟨_, _, hc, hp, ?_, ?_⟩
  · -- the put: the base is at least one and the exponent negative
    have hz0 : z < 0 := by linarith
    have hden : 0 < 1 - z := by linarith
    have hbase : 1 ≤ (z - 1) * 110 / (z * 100) := by
      rw [le_div_iff_of_neg (mul_neg_of_neg_of_pos hz0 (by norm_num))]
      linarith
    have hpow : ((z - 1) * 110 / (z * 100)) ^ z ≤ 1 :=
      Real.rpow_le_one_of_one_le_of_nonpos hbase hz0.le
    have hcoef : 100 / (1 - z) < 14 := by
      rw [div_lt_iff₀ hden]
      linarith
    have hcoef0 : 0 < 100 / (1 - z) := by positivity
    calc 100 / (1 - z) * ((z - 1) * 110 / (z * 100)) ^ z
        ≤ 100 / (1 - z) * 1 := mul_le_mul_of_nonneg_left hpow hcoef0.le
      _ < 14 := by rw [mul_one]; exact hcoef
  · -- the call: the base is between 3/4 and 1 and the exponent at most 4
    have hy0 : 0 < y := by linarith
    have hy10 : 0 < y - 1 := by linarith
    have hb0 : 0 < (y - 1) * 110 / (y * 100) := by positivity
    have hblo : (3 / 4 : ℝ) ≤ (y - 1) * 110 / (y * 100) := by
      rw [le_div_iff₀ (by positivity)]
      linarith
    have hbhi : (y - 1) * 110 / (y * 100) ≤ 1 := by
      rw [div_le_one (by positivity)]
      linarith
    have hpow4 : ((y - 1) * 110 / (y * 100)) ^ (4 : ℝ) ≤ ((y - 1) * 110 / (y * 100)) ^ y :=
      Real.rpow_le_rpow_of_exponent_ge hb0 hbhi (by linarith)
    have h34 : (3 / 4 : ℝ) ^ (4 : ℕ) ≤ ((y - 1) * 110 / (y * 100)) ^ (4 : ℕ) :=
      pow_le_pow_left₀ (by norm_num) hblo 4
    have hcast : ((y - 1) * 110 / (y * 100)) ^ (4 : ℝ)
        = ((y - 1) * 110 / (y * 100)) ^ (4 : ℕ) := by
      rw [← Real.rpow_natCast]; norm_num
    have hpow : (81 / 256 : ℝ) ≤ ((y - 1) * 110 / (y * 100)) ^ y :=
      calc (81 / 256 : ℝ) = (3 / 4 : ℝ) ^ (4 : ℕ) := by norm_num
        _ ≤ ((y - 1) * 110 / (y * 100)) ^ (4 : ℕ) := h34
        _ = ((y - 1) * 110 / (y * 100)) ^ (4 : ℝ) := hcast.symm
        _ ≤ ((y - 1) * 110 / (y * 100)) ^ y := hpow4
    have hcoef : (45 : ℝ) < 100 / (y - 1) := by
      rw [lt_div_iff₀ hy10]
      linarith
    calc (14 : ℝ) < 45 * (81 / 256) := by norm_num
      _ ≤ 100 / (y - 1) * ((y - 1) * 110 / (y * 100)) ^ y :=
          mul_le_mul hcoef.le hpow (by norm_num) (by positivity)

/-- C23 as stated fails: with the real library, for `S = 110`, `K = 100`, `sigma = 0.1`,
`r = 0.1`, `b = 0.02` the perpetual put price does not exceed the perpetual call price. -/
theorem perpetual_put_exceeds_call_counterexample :
    let m : NumLib ℝ :=
      { log := Real.log, exp := Real.exp, sqrt := Real.sqrt, pow := fun x y => x ^ y,
        cdf := fun x => ProbabilityTheory.cdf (ProbabilityTheory.gaussianReal 0 1) x,
        pdf := ProbabilityTheory.gaussianPDFReal 0 1 }
    ∃ call put : ℝ,
      AnalyticAmericanPerpetualEngine.getEnginePrice
          ({ _S := 110, _sigma := 0.1, _r := 0.1, _b := 0.02 } :
            AnalyticAmericanPerpetualEngine ℝ) m
          { _maturity := 0, _strike := 100, _type := PayoffType.Call,
            _exercise := Exercise.American } = Except.ok call ∧
      AnalyticAmericanPerpetualEngine.getEnginePrice
          ({ _S := 110, _sigma := 0.1, _r := 0.1, _b := 0.02 } :
            AnalyticAmericanPerpetualEngine ℝ) m
          { _maturity := 0, _strike := 100, _type := PayoffType.Put,
            _exercise := Exercise.American } = Except.ok put ∧
      ¬ call < put := by
  intro m
  obtain ⟨call, put, hc, hp, h1, h2⟩ := perpetual_scenario_put_lt_call m isStandard_real 0
  exact ⟨call, put, hc, hp, by linarith⟩

/-- C23, amended: for `S = 110`, `K = 100`, `sigma = 0.1`, `r = 0.1`, `b = 0.02`, with the
library computing the real functions, the perpetual call price exceeds the perpetual put
price. -/
theorem perpetual_call_exceeds_put (m : NumLib ℝ) (hm : m.IsStandard) (T : ℝ) :
    ∃ call put : ℝ,
      AnalyticAmericanPerpetualEngine.getEnginePrice
          ({ _S := 110, _sigma := 0.1, _r := 0.1, _b := 0.02 } :
            AnalyticAmericanPerpetualEngine ℝ) m
          { _maturity := T, _strike := 100, _type := PayoffType.Call,
            _exercise := Exercise.American } = Except.ok call ∧
      AnalyticAmericanPerpetualEngine.getEnginePrice
          ({ _S := 110, _sigma := 0.1, _r := 0.1, _b := 0.02 } :
            AnalyticAmericanPerpetualEngine ℝ) m
          { _maturity := T, _strike := 100, _type := PayoffType.Put,
            _exercise := Exercise.American } = Except.ok put ∧
      put < call := by
  obtain ⟨call, put, hc, hp, h1, h2⟩ := perpetual_scenario_put_lt_call m hm T
  exact ⟨call, put, hc, hp, by linarith⟩

/-- C23, amended, at the real library. -/
theorem perpetual_call_exceeds_put_witness :
    let m : NumLib ℝ :=
      { log := Real.log, exp := Real.exp, sqrt := Real.sqrt, pow := fun x y => x ^ y,
        cdf := fun x => ProbabilityTheory.cdf (ProbabilityTheory.gaussianReal 0 1) x,
        pdf := ProbabilityTheory.gaussianPDFReal 0 1 }
    m.IsStandard ∧
    ∃ call put : ℝ,
      AnalyticAmericanPerpetualEngine.getEnginePrice
          ({ _S := 110, _sigma := 0.1, _r := 0.1, _b := 0.02 } :
            AnalyticAmericanPerpetualEngine ℝ) m
          { _maturity := 0, _strike := 100, _type := PayoffType.Call,
            _exercise := Exercise.American } = Except.ok call ∧
      AnalyticAmericanPerpetualEngine.getEnginePrice
          ({ _S := 110, _sigma := 0.1, _r := 0.1, _b := 0.02 } :
            AnalyticAmericanPerpetualEngine ℝ) m
          { _maturity := 0, _strike := 100, _type := PayoffType.Put,
            _exercise := Exercise.American } = Except.ok put ∧
      put < call := by
  intro m
  exact ⟨isStandard_real, perpetual_call_exceeds_put m isStandard_real 0⟩

end PerpetualScenario

end PricingLibrary

/-! ## `create_mesh_matrix` -/

namespace Helper_functions

section Matrix

/-- A loop that threads the state `(res, b)` through a body which appends rows and, when
`tmp` is false, leaves `b` alone: the rows appended are those of each pass in turn. -/
theorem foldl_rows {α β : Type} (tmp : Bool) (g : β → List (List α) × α → List (List α) × α)
    (rows : β → α → List (List α))
    (hg : ∀ x st, (g x st).1 = st.1 ++ rows x st.2 ∧ (tmp = false → (g x st).2 = st.2))
    (hrows : tmp = true → ∀ x b c, rows x b = rows x c) (xs : List β)
    (st : List (List α) × α) :
    (xs.foldl (fun st x => g x st) st).1 = st.1 ++ xs.flatMap (fun x => rows x st.2) ∧
    (tmp = false → (xs.foldl (fun st x => g x st) st).2 = st.2) := by
  induction xs generalizing st with
  | nil => simp
  | cons x rest ih =>
    simp only [List.foldl_cons, List.flatMap_cons]
    obtain ⟨h1, h2⟩ := ih (g x st)
    obtain ⟨g1, g2⟩ := hg x st
    refine ⟨?_, fun ht => ?_⟩
    · rw [h1, g1, List.append_assoc]
      congr 2
      cases tmp with
      | false => rw [g2 rfl]
      | true =>
        apply List.flatMap_congr
        intro y _
        exact hrows rfl y _ _
    · rw [h2 ht, g2 ht]

/-- One row per pass is a `map`. -/
theorem flatMap_singleton_eq_map {β γ : Type} (f : β → γ) (xs : List β) :
    xs.flatMap (fun x => [f x]) = xs.map f := by
  induction xs with
  | nil => rfl
  | cons x rest ih => simp [List.flatMap_cons, ih]

/-- The loops of `create_mesh_matrix` for either value of `tmp`. -/
theorem create_mesh_matrix_loops {α : Type} (S K : α) (expiry volatility rate : List α)
    (b : α) (tmp : Bool) :
    (expiry.foldl (fun state T =>
      volatility.foldl (fun state sigma =>
        rate.foldl (fun (state : List (List α) × α) r =>
          (state.1 ++ [[S, K, T, sigma, r, if tmp then r else state.2]],
            if tmp then r else state.2)) state) state) ([], b)).1 =
      expiry.flatMap (fun T => volatility.flatMap (fun sigma => rate.map (fun r =>
        [S, K, T, sigma, r, if tmp then r else b]))) := by
  have inner : ∀ (T sigma : α) (st : List (List α) × α),
      (rate.foldl (fun (state : List (List α) × α) r =>
          (state.1 ++ [[S, K, T, sigma, r, if tmp then r else state.2]],
            if tmp then r else state.2)) st).1 =
        st.1 ++ rate.flatMap (fun r => [[S, K, T, sigma, r, if tmp then r else st.2]]) ∧
      (tmp = false → (rate.foldl (fun (state : List (List α) × α) r =>
          (state.1 ++ [[S, K, T, sigma, r, if tmp then r else state.2]],
            if tmp then r else state.2)) st).2 = st.2) := fun T sigma st =>
    foldl_rows tmp
      (fun r (state : List (List α) × α) =>
        (state.1 ++ [[S, K, T, sigma, r, if tmp then r else state.2]],
          if tmp then r else state.2))
      (fun r b0 => [[S, K, T, sigma, r, if tmp then r else b0]])
      (fun x st => ⟨rfl, fun ht => by simp [ht]⟩)
      (fun ht x b c => by simp [ht]) rate st
  have middle := fun (T : α) (st : List (List α) × α) =>
    foldl_rows tmp
      (fun sigma (state : List (List α) × α) =>
        rate.foldl (fun (state : List (List α) × α) r =>
          (state.1 ++ [[S, K, T, sigma, r, if tmp then r else state.2]],
            if tmp then r else state.2)) state)
      (fun sigma b0 => rate.flatMap (fun r => [[S, K, T, sigma, r, if tmp then r else b0]]))
      (fun x st => inner T x st)
      (fun ht x b c => by simp [ht]) volatility st
  have outer :=
    foldl_rows tmp
      (fun T (state : List (List α) × α) =>
        volatility.foldl (fun state sigma =>
          rate.foldl (fun (state : List (List α) × α) r =>
            (state.1 ++ [[S, K, T, sigma, r, if tmp then r else state.2]],
              if tmp then r else state.2)) state) state)
      (fun T b0 => volatility.flatMap (fun sigma =>
        rate.flatMap (fun r => [[S, K, T, sigma, r, if tmp then r else b0]])))
      (fun x st => middle x st)
      (fun ht x b c => by simp [ht]) expiry ([], b)
  rw [outer.1]
  simp only [List.nil_append, flatMap_singleton_eq_map]

variable {α : Type} [LinearOrderedField α]

/-- `create_mesh_matrix` as a list comprehension: one row per `(T, sigma, r)`, expiry
outermost and rate innermost, the last entry being `r` when `|b + 1| ≤ 0.01` and `b`
otherwise. -/
theorem create_mesh_matrix_eq (S K : α) (expiry volatility rate : List α) (b : α) :
    create_mesh_matrix S K expiry volatility rate b =
      expiry.flatMap (fun T => volatility.flatMap (fun sigma => rate.map (fun r =>
        [S, K, T, sigma, r, if |b + 1| ≤ 0.01 then r else b]))) := by
  unfold create_mesh_matrix
  have h1 : (1.0 : α) = 1 := by norm_num
  rw [h1]
  have key := create_mesh_matrix_loops S K expiry volatility rate b
    (if |b + 1| ≤ 0.01 then true else false)
  by_cases hb : |b + 1| ≤ 0.01
  · simp only [hb, if_true] at key ⊢
    exact key
  · simp only [hb, if_false] at key ⊢
    simpa using key

/-- C31 as stated fails: `b = -0.995` is not `-1`, yet the row built from the rate `0.05`
ends in the rate, not in the given `b`. -/
theorem create_mesh_matrix_counterexample :
    (-0.995 : ℚ) ≠ -1 ∧
    create_mesh_matrix (100 : ℚ) 100 [1] [0.2] [0.05] (-0.995) =
      [[100, 100, 1, 0.2, 0.05, 0.05]] ∧
    create_mesh_matrix (100 : ℚ) 100 [1] [0.2] [0.05] (-0.995) ≠
      [[100, 100, 1, 0.2, 0.05, -0.995]] := by
  have habs : |(-0.995 : ℚ) + 1| ≤ 0.01 := by
    rw [abs_le]
    constructor <;> norm_num
  have h : create_mesh_matrix (100 : ℚ) 100 [1] [0.2] [0.05] (-0.995) =
      [[100, 100, 1, 0.2, 0.05, 0.05]] := by
    rw [create_mesh_matrix_eq]
    simp only [habs, if_true, List.flatMap_cons, List.flatMap_nil, List.map_cons,
      List.map_nil, List.append_nil]
  refine ⟨by norm_num, h, ?_⟩
  rw [h]
  intro h2
  have h3 := List.cons.inj h2
  simp only [List.cons.injEq, true_and, and_true] at h3
  norm_num at h3

/-- C31, amended: `create_mesh_matrix(S, K, expiry, volatility, rate, b)` returns one row
`{S, K, T, sigma, r, b1}` for every `(T, sigma, r)`, expiry outermost, then volatility,
then rate, where `b1` is the row's rate `r` when `|b + 1| ≤ 0.01` and the given `b`
otherwise. So `b1 = r` when `b` is `-1` (the default), and `b1 = b` when `b` is further
than `0.01` from `-1`. -/
theorem create_mesh_matrix_spec (S K : α) (expiry volatility rate : List α) (b : α) :
    create_mesh_matrix S K expiry volatility rate b =
      expiry.flatMap (fun T => volatility.flatMap (fun sigma => rate.map (fun r =>
        [S, K, T, sigma, r, if |b + 1| ≤ 0.01 then r else b]))) ∧
    create_mesh_matrix S K expiry volatility rate =
      expiry.flatMap (fun T => volatility.flatMap (fun sigma => rate.map (fun r =>
        [S, K, T, sigma, r, r]))) ∧
    (0.01 < |b + 1| →
      create_mesh_matrix S K expiry volatility rate b =
        expiry.flatMap (fun T => volatility.flatMap (fun sigma => rate.map (fun r =>
          [S, K, T, sigma, r, b])))) := by
  refine ⟨create_mesh_matrix_eq S K expiry volatility rate b, ?_, fun hb => ?_⟩
  · rw [create_mesh_matrix_eq]
    have h : |(-1 : α) + 1| ≤ 0.01 := by
      rw [neg_add_cancel, abs_zero]
      norm_num
    simp only [h, if_true]
  · rw [create_mesh_matrix_eq]
    simp only [not_le.mpr hb, if_false]

end Matrix

end Helper_functions

/-! ## `compute_option_prices` and the put helpers -/

namespace Helper_functions

section Batch

open PricingLibrary

variable {α : Type} [LinearOrderedField α]

/-- The `"delta"` loop of `compute_option_prices` on rows `{S, K, T, sigma, r, b}`: it
returns, and it appends for each row, in order, `{S, K, T, sigma, r, d}` with `d` the
value `getEngineDelta` returns for the engine `(S, sigma, r, b)` and the European payoff
`(T, K)` of the given type. -/
theorem compute_option_prices_loop_delta (m : NumLib α) (type : PayoffType)
    (rows : List (α × α × α × α × α × α)) (optionPrices : List (List α)) :
    ∃ out : List (List α),
      compute_option_prices_loop m type "delta"
          (rows.map (fun p => [p.1, p.2.1, p.2.2.1, p.2.2.2.1, p.2.2.2.2.1, p.2.2.2.2.2]))
          optionPrices = some (Except.ok (optionPrices ++ out)) ∧
      List.Forall₂ (fun p row => ∃ d : α,
          AnalyticEuropeanEngine.getEngineDelta
              { _S := p.1, _sigma := p.2.2.2.1, _r := p.2.2.2.2.1, _b := p.2.2.2.2.2 } m
              { _maturity := p.2.2.1, _strike := p.2.1, _type := type,
                _exercise := Exercise.European } = Except.ok d ∧
          row = [p.1, p.2.1, p.2.2.1, p.2.2.2.1, p.2.2.2.2.1, d]) rows out := by
  induction rows generalizing optionPrices with
  | nil => exact ⟨[], by simp [compute_option_prices_loop], List.Forall₂.nil⟩
  | cons p rest ih =>
    have hd : ∃ d : α, AnalyticEuropeanEngine.getEngineDelta
        { _S := p.1, _sigma := p.2.2.2.1, _r := p.2.2.2.2.1, _b := p.2.2.2.2.2 } m
        { _maturity := p.2.2.1, _strike := p.2.1, _type := type,
          _exercise := Exercise.European } = Except.ok d := by
      cases type
      · exact ⟨_, rfl⟩
      · exact ⟨_, rfl⟩
    obtain ⟨d, hd⟩ := hd
    obtain ⟨out, h1, h2⟩ :=
      ih (optionPrices ++ [[p.1, p.2.1, p.2.2.1, p.2.2.2.1, p.2.2.2.2.1, d]])
    refine ⟨[p.1, p.2.1, p.2.2.1, p.2.2.2.1, p.2.2.2.2.1, d] :: out, ?_,
      List.Forall₂.cons ⟨d, hd, rfl⟩ h2⟩
    rw [List.map_cons, compute_option_prices_loop]
    simp [VanillaOption.newWithEngine, VanillaOption.getDelta, PricingEngine.getEngineDelta,
      hd, h1]

/-- The `"gamma"` loop of `compute_option_prices` on rows `{S, K, T, sigma, r, b}`: it
returns, and it appends for each row, in order, `{S, K, T, sigma, r, g}` with `g` the
value `getEngineGamma` returns for the engine `(S, sigma, r, b)` and the European payoff
`(T, K)`, of the type handed to the loop or of the other one. -/
theorem compute_option_prices_loop_gamma (m : NumLib α) (type other : PayoffType)
    (rows : List (α × α × α × α × α × α)) (optionPrices : List (List α)) :
    ∃ out : List (List α),
      compute_option_prices_loop m type "gamma"
          (rows.map (fun p => [p.1, p.2.1, p.2.2.1, p.2.2.2.1, p.2.2.2.2.1, p.2.2.2.2.2]))
          optionPrices = some (Except.ok (optionPrices ++ out)) ∧
      List.Forall₂ (fun p row => ∃ g : α,
          AnalyticEuropeanEngine.getEngineGamma
              { _S := p.1, _sigma := p.2.2.2.1, _r := p.2.2.2.2.1, _b := p.2.2.2.2.2 } m
              { _maturity := p.2.2.1, _strike := p.2.1, _type := other,
                _exercise := Exercise.European } = Except.ok g ∧
          row = [p.1, p.2.1, p.2.2.1, p.2.2.2.1, p.2.2.2.2.1, g]) rows out := by
  induction rows generalizing optionPrices with
  | nil => exact ⟨[], by simp [compute_option_prices_loop], List.Forall₂.nil⟩
  | cons p rest ih =>
    have hg := analyticEuropean_gamma_ok m
      { _S := p.1, _sigma := p.2.2.2.1, _r := p.2.2.2.2.1, _b := p.2.2.2.2.2 }
      p.2.1 p.2.2.1 type
    have hg2 := analyticEuropean_gamma_ok m
      { _S := p.1, _sigma := p.2.2.2.1, _r := p.2.2.2.2.1, _b := p.2.2.2.2.2 }
      p.2.1 p.2.2.1 other
    obtain ⟨out, h1, h2⟩ :=
      ih (optionPrices ++ [[p.1, p.2.1, p.2.2.1, p.2.2.2.1, p.2.2.2.2.1,
        m.pdf ((m.log (p.1 / p.2.1) + (p.2.2.2.2.2 + p.2.2.2.1 * p.2.2.2.1 / 2) * p.2.2.1)
            / (p.2.2.2.1 * m.sqrt p.2.2.1))
          * m.exp ((p.2.2.2.2.2 - p.2.2.2.2.1) * p.2.2.1)
          / (p.1 * p.2.2.2.1 * m.sqrt p.2.2.1)]])
    refine ⟨_ :: out, ?_, List.Forall₂.cons ⟨_, hg2, rfl⟩ h2⟩
    rw [List.map_cons, compute_option_prices_loop]
    simp [VanillaOption.newWithEngine, VanillaOption.getGamma, PricingEngine.getEngineGamma,
      hg, h1]

/-- C33: on a parameter matrix with rows `{S, K, T, sigma, r, b}`,
`compute_put_option_gamma` returns, row for row and in the same order,
`{S, K, T, sigma, r, g}` where `g` is the value `getEngineGamma` of
`AnalyticEuropeanEngine(S, sigma, r, b)` returns for the European Put payoff `(T, K)`. -/
theorem compute_put_option_gamma_spec (m : NumLib α)
    (rows : List (α × α × α × α × α × α)) :
    ∃ out : List (List α),
      compute_put_option_gamma m
          (rows.map (fun (S, K, T, sigma, r, b) => [S, K, T, sigma, r, b])) =
        some (Except.ok out) ∧
      List.Forall₂ (fun (S, K, T, sigma, r, b) row => ∃ g : α,
          AnalyticEuropeanEngine.getEngineGamma
              { _S := S, _sigma := sigma, _r := r, _b := b } m
              { _maturity := T, _strike := K, _type := PayoffType.Put,
                _exercise := Exercise.European } = Except.ok g ∧
          row = [S, K, T, sigma, r, g]) rows out := by
  obtain ⟨out, h1, h2⟩ :=
    compute_option_prices_loop_gamma m PayoffType.Call PayoffType.Put rows []
  exact ⟨out, h1, h2⟩

end Batch

section BatchReal

open PricingLibrary

/-- C32 fails in the code: on a parameter matrix with rows `{S, K, T, sigma, r, b}`, with
the library computing the real functions, `compute_put_option_delta` returns, row for
row, `{S, K, T, sigma, r, dC}` where `dC` is the delta of the European Call, which is not
the delta `dP` of the European Put: `dP = dC - e^((b-r)T)`. -/
theorem compute_put_option_delta_is_call_delta (m : NumLib ℝ) (hm : m.IsStandard)
    (rows : List (ℝ × ℝ × ℝ × ℝ × ℝ × ℝ)) :
    ∃ out : List (List ℝ),
      compute_put_option_delta m
          (rows.map (fun (S, K, T, sigma, r, b) => [S, K, T, sigma, r, b])) =
        some (Except.ok out) ∧
      List.Forall₂ (fun (S, K, T, sigma, r, b) row => ∃ dC dP : ℝ,
          AnalyticEuropeanEngine.getEngineDelta
              { _S := S, _sigma := sigma, _r := r, _b := b } m
              { _maturity := T, _strike := K, _type := PayoffType.Call,
                _exercise := Exercise.European } = Except.ok dC ∧
          AnalyticEuropeanEngine.getEngineDelta
              { _S := S, _sigma := sigma, _r := r, _b := b } m
              { _maturity := T, _strike := K, _type := PayoffType.Put,
                _exercise := Exercise.European } = Except.ok dP ∧
          row = [S, K, T, sigma, r, dC] ∧ dC ≠ dP ∧ dP = dC - Real.exp ((b - r) * T))
        rows out := by
  obtain ⟨out, h1, h2⟩ := compute_option_prices_loop_delta m PayoffType.Call rows []
  refine ⟨out, h1, h2.imp ?_⟩
  rintro ⟨S, K, T, sigma, r, b⟩ row ⟨d, hd, hrow⟩
  obtain ⟨hc, hp⟩ := analyticEuropean_delta_ok m
    ({ _S := S, _sigma := sigma, _r := r, _b := b } : AnalyticEuropeanEngine ℝ) K T
  have hdP : -(m.exp ((b - r) * T)
        * m.cdf (-((m.log (S / K) + (b + sigma * sigma / 2) * T) / (sigma * m.sqrt T)))) =
      m.exp ((b - r) * T)
        * m.cdf ((m.log (S / K) + (b + sigma * sigma / 2) * T) / (sigma * m.sqrt T))
        - Real.exp ((b - r) * T) := by
    rw [hm.exp_eq, hm.cdf_eq, hm.cdf_eq, gaussian_cdf_neg]
    ring
  have hd2 : d = m.exp ((b - r) * T)
        * m.cdf ((m.log (S / K) + (b + sigma * sigma / 2) * T) / (sigma * m.sqrt T)) :=
    Except.ok.inj (hd.symm.trans hc)
  refine ⟨d, _, hd, hp, hrow, ?_, ?_⟩
  · rw [hdP, ← hd2]
    have := Real.exp_pos ((b - r) * T)
    intro h
    linarith
  · rw [hdP, ← hd2]

/-- C32's divergence at the real library and the single row
`{100, 100, 1, 0.2, 0.05, 0.05}`. -/
theorem compute_put_option_delta_is_call_delta_witness :
    let m : NumLib ℝ :=
      { log := Real.log, exp := Real.exp, sqrt := Real.sqrt, pow := fun x y => x ^ y,
        cdf := fun x => ProbabilityTheory.cdf (ProbabilityTheory.gaussianReal 0 1) x,
        pdf := ProbabilityTheory.gaussianPDFReal 0 1 }
    m.IsStandard ∧
    ∃ out : List (List ℝ),
      compute_put_option_delta m [[100, 100, 1, 0.2, 0.05, 0.05]] = some (Except.ok out) ∧
      List.Forall₂ (fun (S, K, T, sigma, r, b) row => ∃ dC dP : ℝ,
          AnalyticEuropeanEngine.getEngineDelta
              { _S := S, _sigma := sigma, _r := r, _b := b } m
              { _maturity := T, _strike := K, _type := PayoffType.Call,
                _exercise := Exercise.European } = Except.ok dC ∧
          AnalyticEuropeanEngine.getEngineDelta
              { _S := S, _sigma := sigma, _r := r, _b := b } m
              { _maturity := T, _strike := K, _type := PayoffType.Put,
                _exercise := Exercise.European } = Except.ok dP ∧
          row = [S, K, T, sigma, r, dC] ∧ dC ≠ dP ∧ dP = dC - Real.exp ((b - r) * T))
        [((100 : ℝ), (100 : ℝ), (1 : ℝ), (0.2 : ℝ), (0.05 : ℝ), (0.05 : ℝ))] out := by
  intro m
  exact ⟨isStandard_real,
    compute_put_option_delta_is_call_delta m isStandard_real
      [(100, 100, 1, 0.2, 0.05, 0.05)]⟩

end BatchReal

end Helper_functions

/-! ## Call and put Greeks of the European engines -/

namespace PricingLibrary

section CallPutGreeks

open MeasureTheory ProbabilityTheory

/-- C34: for every analytic European engine and every European strike `K` and maturity
`T` with `sigma √T ≠ 0`, with the library computing the real functions, the Put delta is
the Call delta minus `e^((b-r)T)`, the Call delta lies in `[0, e^((b-r)T)]` and the Put
delta in `[-e^((b-r)T), 0]`. -/
theorem analyticEuropean_put_delta_eq_call_delta_sub (m : NumLib ℝ) (hm : m.IsStandard)
    (e : AnalyticEuropeanEngine ℝ) (K T : ℝ) (_hs : e._sigma * m.sqrt T ≠ 0) :
    ∃ dC dP : ℝ,
      e.getEngineDelta m
          { _maturity := T, _strike := K, _type := PayoffType.Call,
            _exercise := Exercise.European } = Except.ok dC ∧
      e.getEngineDelta m
          { _maturity := T, _strike := K, _type := PayoffType.Put,
            _exercise := Exercise.European } = Except.ok dP ∧
      dP = dC - Real.exp ((e._b - e._r) * T) ∧
      (0 ≤ dC ∧ dC ≤ Real.exp ((e._b - e._r) * T)) ∧
      (-Real.exp ((e._b - e._r) * T) ≤ dP ∧ dP ≤ 0) := by
  obtain ⟨hc, hp⟩ := analyticEuropean_delta_ok m e K T
  refine ⟨_, _, hc, hp, ?_, ?_, ?_⟩
  · rw [hm.exp_eq, hm.cdf_eq, hm.cdf_eq, gaussian_cdf_neg]
    ring
  · rw [hm.exp_eq, hm.cdf_eq]
    have hA := Real.exp_pos ((e._b - e._r) * T)
    have h0 := cdf_nonneg (gaussianReal 0 1)
      ((m.log (e._S / K) + (e._b + e._sigma * e._sigma / 2) * T) / (e._sigma * m.sqrt T))
    have h1 := cdf_le_one (gaussianReal 0 1)
      ((m.log (e._S / K) + (e._b + e._sigma * e._sigma / 2) * T) / (e._sigma * m.sqrt T))
    exact ⟨mul_nonneg hA.le h0, mul_le_of_le_one_right hA.le h1⟩
  · rw [hm.exp_eq, hm.cdf_eq]
    have hA := Real.exp_pos ((e._b - e._r) * T)
    have h0 := cdf_nonneg (gaussianReal 0 1)
      (-((m.log (e._S / K) + (e._b + e._sigma * e._sigma / 2) * T)
        / (e._sigma * m.sqrt T)))
    have h1 := cdf_le_one (gaussianReal 0 1)
      (-((m.log (e._S / K) + (e._b + e._sigma * e._sigma / 2) * T)
        / (e._sigma * m.sqrt T)))
    exact ⟨neg_le_neg (mul_le_of_le_one_right hA.le h1),
      neg_nonpos.mpr (mul_nonneg hA.le h0)⟩

/-- C34 at the real library with `S = 105`, `K = 100`, `sigma = 0.36`, `T = 1`, `r = 0.1`,
`b = 0`. -/
theorem analyticEuropean_put_delta_eq_call_delta_sub_witness :
    let m : NumLib ℝ :=
      { log := Real.log, exp := Real.exp, sqrt := Real.sqrt, pow := fun x y => x ^ y,
        cdf := fun x => cdf (gaussianReal 0 1) x, pdf := gaussianPDFReal 0 1 }
    (m.IsStandard ∧ (0.36 : ℝ) * m.sqrt 1 ≠ 0) ∧
    ∃ dC dP : ℝ,
      AnalyticEuropeanEngine.getEngineDelta
          ({ _S := 105, _sigma := 0.36, _r := 0.1, _b := 0 } : AnalyticEuropeanEngine ℝ) m
          { _maturity := 1, _strike := 100, _type := PayoffType.Call,
            _exercise := Exercise.European } = Except.ok dC ∧
      AnalyticEuropeanEngine.getEngineDelta
          ({ _S := 105, _sigma := 0.36, _r := 0.1, _b := 0 } : AnalyticEuropeanEngine ℝ) m
          { _maturity := 1, _strike := 100, _type := PayoffType.Put,
            _exercise := Exercise.European } = Except.ok dP ∧
      dP = dC - Real.exp ((0 - 0.1) * 1) ∧
      (0 ≤ dC ∧ dC ≤ Real.exp ((0 - 0.1) * 1)) ∧
      (-Real.exp ((0 - 0.1) * 1) ≤ dP ∧ dP ≤ 0) := by
  intro m
  have hs : (0.36 : ℝ) * m.sqrt 1 ≠ 0 :=
    mul_ne_zero (by norm_num) (Real.sqrt_pos.mpr one_pos).ne'
  exact ⟨⟨isStandard_real, hs⟩,
    analyticEuropean_put_delta_eq_call_delta_sub m isStandard_real
      { _S := 105, _sigma := 0.36, _r := 0.1, _b := 0 } 100 1 hs⟩

/-- C35 as stated fails: with the real library, `sigma = 0.36`, `r = 0.1`, `b = 0`,
`K = 100`, `T = 0.5` and `x = 105`, the analytic engine's price of the European Put is not
the numerical engine's internal put price plus `x (1 - e^((b-r)T))`. -/
theorem analytic_putPrice_offset_counterexample :
    let m : NumLib ℝ :=
      { log := Real.log, exp := Real.exp, sqrt := Real.sqrt, pow := fun x y => x ^ y,
        cdf := fun x => cdf (gaussianReal 0 1) x, pdf := gaussianPDFReal 0 1 }
    ((0.36 : ℝ) * m.sqrt 0.5 ≠ 0 ∧ (0 : ℝ) < 105) ∧
    AnalyticEuropeanEngine.getEnginePrice
        ({ _S := 105, _sigma := 0.36, _r := 0.1, _b := 0 } : AnalyticEuropeanEngine ℝ) m
        { _maturity := 0.5, _strike := 100, _type := PayoffType.Put,
          _exercise := Exercise.European } ≠
      Except.ok
        ((NumericalEuropeanEngine.new 105 0.36 0.1 0).getAnalyticPutPrice m
            { _maturity := 0.5, _strike := 100, _type := PayoffType.Put,
              _exercise := Exercise.European } 105
          + 105 * (1 - m.exp ((0 - 0.1) * 0.5))) := by
  intro m
  have hs : (0.36 : ℝ) * m.sqrt 0.5 ≠ 0 :=
    mul_ne_zero (by norm_num) (Real.sqrt_pos.mpr (by norm_num)).ne'
  refine ⟨⟨hs, by norm_num⟩, ?_⟩
  have key := analytic_putPrice_eq_numerical_add m
    (NumericalEuropeanEngine.new 105 0.36 0.1 0) 100 0.5 105 (fun z => gaussian_cdf_neg z)
  intro h
  have h2 := Except.ok.inj (key.symm.trans h)
  have h3 : Real.exp (((0 : ℝ) - 0.1) * 0.5) = 1 := by
    have h4 : (105 : ℝ) * (Real.exp (((0 : ℝ) - 0.1) * 0.5) - 1)
        = 105 * (1 - Real.exp (((0 : ℝ) - 0.1) * 0.5)) := add_left_cancel h2
    linarith
  rw [Real.exp_eq_one_iff] at h3
  norm_num at h3

/-- C35, amended: for every `sigma`, `r`, `b`, European strike `K` and maturity `T` with
`sigma √T ≠ 0` and every `x > 0`, with the library computing the real functions, the
price the analytic engine built from `(x, sigma, r, b)` returns for the European Put is
the numerical engine's internal put price at `x` plus `x (e^((b-r)T) - 1)`; the two
coincide when `b = r`. -/
theorem analytic_putPrice_offset (m : NumLib ℝ) (hm : m.IsStandard)
    (ne : NumericalEuropeanEngine ℝ) (K T x : ℝ) (_hs : ne._sigma * m.sqrt T ≠ 0)
    (_hx : 0 < x) :
    AnalyticEuropeanEngine.getEnginePrice
        { _S := x, _sigma := ne._sigma, _r := ne._r, _b := ne._b } m
        { _maturity := T, _strike := K, _type := PayoffType.Put,
          _exercise := Exercise.European } =
      Except.ok
        (ne.getAnalyticPutPrice m
            { _maturity := T, _strike := K, _type := PayoffType.Put,
              _exercise := Exercise.European } x
          + x * (Real.exp ((ne._b - ne._r) * T) - 1)) ∧
    (ne._b = ne._r →
      AnalyticEuropeanEngine.getEnginePrice
          { _S := x, _sigma := ne._sigma, _r := ne._r, _b := ne._b } m
          { _maturity := T, _strike := K, _type := PayoffType.Put,
            _exercise := Exercise.European } =
        Except.ok
          (ne.getAnalyticPutPrice m
            { _maturity := T, _strike := K, _type := PayoffType.Put,
              _exercise := Exercise.European } x)) := by
  have key := analytic_putPrice_eq_numerical_add m ne K T x
    (fun z => by rw [hm.cdf_eq, hm.cdf_eq, gaussian_cdf_neg])
  rw [hm.exp_eq] at key
  refine ⟨key, fun hbr => ?_⟩
  rw [key, hbr, sub_self, zero_mul, Real.exp_zero, sub_self, mul_zero, add_zero]

/-- C35, amended, at the real library with `sigma = 0.36`, `r = 0.1`, `b = 0`, `K = 100`,
`T = 0.5` and `x = 105`. -/
theorem analytic_putPrice_offset_witness :
    let m : NumLib ℝ :=
      { log := Real.log, exp := Real.exp, sqrt := Real.sqrt, pow := fun x y => x ^ y,
        cdf := fun x => cdf (gaussianReal 0 1) x, pdf := gaussianPDFReal 0 1 }
    (m.IsStandard ∧ (0.36 : ℝ) * m.sqrt 0.5 ≠ 0 ∧ (0 : ℝ) < 105) ∧
    AnalyticEuropeanEngine.getEnginePrice
        ({ _S := 105, _sigma := 0.36, _r := 0.1, _b := 0 } : AnalyticEuropeanEngine ℝ) m
        { _maturity := 0.5, _strike := 100, _type := PayoffType.Put,
          _exercise := Exercise.European } =
      Except.ok
        ((NumericalEuropeanEngine.new 105 0.36 0.1 0).getAnalyticPutPrice m
            { _maturity := 0.5, _strike := 100, _type := PayoffType.Put,
              _exercise := Exercise.European } 105
          + 105 * (Real.exp ((0 - 0.1) * 0.5) - 1)) := by
  intro m
  have hs : (0.36 : ℝ) * m.sqrt 0.5 ≠ 0 :=
    mul_ne_zero (by norm_num) (Real.sqrt_pos.mpr (by norm_num)).ne'
  exact ⟨⟨isStandard_real, hs, by norm_num⟩,
    (analytic_putPrice_offset m isStandard_real (NumericalEuropeanEngine.new 105 0.36 0.1 0)
      100 0.5 105 hs (by norm_num)).1⟩

/-- C36: for a numerical engine built by the constructor from `(S, sigma, r, b)` with
`S > h = 0.01` and every European strike `K > 0` and maturity `T` with `sigma √T ≠ 0`,
with the library computing the real functions, the finite-difference gamma of the Put is
the finite-difference gamma of the Call, and the finite-difference delta of the Put is
the finite-difference delta of the Call minus `e^((b-r)T)`. -/
theorem numerical_put_greeks_vs_call (m : NumLib ℝ) (hm : m.IsStandard)
    (S sigma r b K T : ℝ) (_hS : 0.01 < S) (_hK : 0 < K) (_hs : sigma * m.sqrt T ≠ 0) :
    ∃ gC gP dC dP : ℝ,
      (NumericalEuropeanEngine.new S sigma r b).getEngineGamma m
          { _maturity := T, _strike := K, _type := PayoffType.Call,
            _exercise := Exercise.European } = Except.ok gC ∧
      (NumericalEuropeanEngine.new S sigma r b).getEngineGamma m
          { _maturity := T, _strike := K, _type := PayoffType.Put,
            _exercise := Exercise.European } = Except.ok gP ∧
      gP = gC ∧
      (NumericalEuropeanEngine.new S sigma r b).getEngineDelta m
          { _maturity := T, _strike := K, _type := PayoffType.Call,
            _exercise := Exercise.European } = Except.ok dC ∧
      (NumericalEuropeanEngine.new S sigma r b).getEngineDelta m
          { _maturity := T, _strike := K, _type := PayoffType.Put,
            _exercise := Exercise.European } = Except.ok dP ∧
      dP = dC - Real.exp ((b - r) * T) := by
  obtain ⟨hdC, hdP⟩ := numerical_delta_ok m (NumericalEuropeanEngine.new S sigma r b) K T
  obtain ⟨hgC, hgP⟩ := numerical_gamma_ok m (NumericalEuropeanEngine.new S sigma r b) K T
  have hput : ∀ x : ℝ,
      (NumericalEuropeanEngine.new S sigma r b).getAnalyticPutPrice m
          ⟨T, K, PayoffType.Put, Exercise.European⟩ x =
        (NumericalEuropeanEngine.new S sigma r b).getAnalyticCallPrice m
            ⟨T, K, PayoffType.Call, Exercise.European⟩ x
          - x * Real.exp ((b - r) * T) + K * Real.exp (-r * T) := fun x =>
    numerical_putPrice_std m hm (NumericalEuropeanEngine.new S sigma r b)
      ⟨T, K, PayoffType.Put, Exercise.European⟩ x
  have hh : (NumericalEuropeanEngine.new S sigma r b)._h = 1 / 100 :=
    numerical_new_h S sigma r b
  refine ⟨_, _, _, _, hgC, hgP, ?_, hdC, hdP, ?_⟩
  · rw [hput, hput, hput, hh]
    show _ = (_ - 2 * _ + _) / _
    congr 1
    have hS0 : (NumericalEuropeanEngine.new S sigma r b)._S = S := rfl
    rw [hS0]
    ring
  · rw [hput, hput, hh]
    have hS0 : (NumericalEuropeanEngine.new S sigma r b)._S = S := rfl
    rw [hS0]
    field_simp
    ring

/-- C36 at the real library with `S = 105`, `K = 100`, `sigma = 0.36`, `T = 1`, `r = 0.1`,
`b = 0`. -/
theorem numerical_put_greeks_vs_call_witness :
    let m : NumLib ℝ :=
      { log := Real.log, exp := Real.exp, sqrt := Real.sqrt, pow := fun x y => x ^ y,
        cdf := fun x => cdf (gaussianReal 0 1) x, pdf := gaussianPDFReal 0 1 }
    (m.IsStandard ∧ (0.01 : ℝ) < 105 ∧ (0 : ℝ) < 100 ∧ (0.36 : ℝ) * m.sqrt 1 ≠ 0) ∧
    ∃ gC gP dC dP : ℝ,
      (NumericalEuropeanEngine.new 105 0.36 0.1 0).getEngineGamma m
          { _maturity := 1, _strike := 100, _type := PayoffType.Call,
            _exercise := Exercise.European } = Except.ok gC ∧
      (NumericalEuropeanEngine.new 105 0.36 0.1 0).getEngineGamma m
          { _maturity := 1, _strike := 100, _type := PayoffType.Put,
            _exercise := Exercise.European } = Except.ok gP ∧
      gP = gC ∧
      (NumericalEuropeanEngine.new 105 0.36 0.1 0).getEngineDelta m
          { _maturity := 1, _strike := 100, _type := PayoffType.Call,
            _exercise := Exercise.European } = Except.ok dC ∧
      (NumericalEuropeanEngine.new 105 0.36 0.1 0).getEngineDelta m
          { _maturity := 1, _strike := 100, _type := PayoffType.Put,
            _exercise := Exercise.European } = Except.ok dP ∧
      dP = dC - Real.exp ((0 - 0.1) * 1) := by
  intro m
  have hs : (0.36 : ℝ) * m.sqrt 1 ≠ 0 :=
    mul_ne_zero (by norm_num) (Real.sqrt_pos.mpr one_pos).ne'
  exact ⟨⟨isStandard_real, by norm_num, by norm_num, hs⟩,
    numerical_put_greeks_vs_call m isStandard_real 105 0.36 0.1 0 100 1 (by norm_num)
      (by norm_num) hs⟩

/-- C37: for every analytic European engine and every European strike `K` and maturity
`T` with `sigma √T ≠ 0`, with the library computing the real functions, the Call theta
minus the Put theta is `-(b-r) S e^((b-r)T) - r K e^(-rT)`. -/
theorem analyticEuropean_theta_call_sub_put (m : NumLib ℝ) (hm : m.IsStandard)
    (e : AnalyticEuropeanEngine ℝ) (K T : ℝ) (_hs : e._sigma * m.sqrt T ≠ 0) :
    ∃ tC tP : ℝ,
      e.getEngineTheta m
          { _maturity := T, _strike := K, _type := PayoffType.Call,
            _exercise := Exercise.European } = Except.ok tC ∧
      e.getEngineTheta m
          { _maturity := T, _strike := K, _type := PayoffType.Put,
            _exercise := Exercise.European } = Except.ok tP ∧
      tC - tP = -(e._b - e._r) * e._S * Real.exp ((e._b - e._r) * T)
        - e._r * K * Real.exp (-e._r * T) := by
  have hC : e.getEngineTheta m ⟨T, K, PayoffType.Call, Exercise.European⟩ =
      Except.ok
        (-(e._S * e._sigma * m.exp ((e._b - e._r) * T)
            * m.pdf ((m.log (e._S / K) + (e._b + e._sigma * e._sigma / 2) * T)
              / (e._sigma * m.sqrt T))) / (2 * m.sqrt T)
          - (e._b - e._r) * e._S * m.exp ((e._b - e._r) * T)
            * m.cdf ((m.log (e._S / K) + (e._b + e._sigma * e._sigma / 2) * T)
              / (e._sigma * m.sqrt T))
          - e._r * K * m.exp (-e._r * T)
            * m.cdf ((m.log (e._S / K) + (e._b + e._sigma * e._sigma / 2) * T)
              / (e._sigma * m.sqrt T) - e._sigma * m.sqrt T)) := rfl
  have hP : e.getEngineTheta m ⟨T, K, PayoffType.Put, Exercise.European⟩ =
      Except.ok
        (-(e._S * e._sigma * m.exp ((e._b - e._r) * T)
            * m.pdf ((m.log (e._S / K) + (e._b + e._sigma * e._sigma / 2) * T)
              / (e._sigma * m.sqrt T))) / (2 * m.sqrt T)
          + (e._b - e._r) * e._S * m.exp ((e._b - e._r) * T)
            * m.cdf (-((m.log (e._S / K) + (e._b + e._sigma * e._sigma / 2) * T)
              / (e._sigma * m.sqrt T)))
          + e._r * K * m.exp (-e._r * T)
            * m.cdf (-((m.log (e._S / K) + (e._b + e._sigma * e._sigma / 2) * T)
              / (e._sigma * m.sqrt T) - e._sigma * m.sqrt T))) := rfl
  refine ⟨_, _, hC, hP, ?_⟩
  simp only [hm.exp_eq, hm.cdf_eq, gaussian_cdf_neg]
  ring

/-- C37 at the real library with `S = 105`, `K = 100`, `sigma = 0.36`, `T = 1`, `r = 0.1`,
`b = 0`. -/
theorem analyticEuropean_theta_call_sub_put_witness :
    let m : NumLib ℝ :=
      { log := Real.log, exp := Real.exp, sqrt := Real.sqrt, pow := fun x y => x ^ y,
        cdf := fun x => cdf (gaussianReal 0 1) x, pdf := gaussianPDFReal 0 1 }
    (m.IsStandard ∧ (0.36 : ℝ) * m.sqrt 1 ≠ 0) ∧
    ∃ tC tP : ℝ,
      AnalyticEuropeanEngine.getEngineTheta
          ({ _S := 105, _sigma := 0.36, _r := 0.1, _b := 0 } : AnalyticEuropeanEngine ℝ) m
          { _maturity := 1, _strike := 100, _type := PayoffType.Call,
            _exercise := Exercise.European } = Except.ok tC ∧
      AnalyticEuropeanEngine.getEngineTheta
          ({ _S := 105, _sigma := 0.36, _r := 0.1, _b := 0 } : AnalyticEuropeanEngine ℝ) m
          { _maturity := 1, _strike := 100, _type := PayoffType.Put,
            _exercise := Exercise.European } = Except.ok tP ∧
      tC - tP = -(0 - 0.1) * 105 * Real.exp ((0 - 0.1) * 1)
        - 0.1 * 100 * Real.exp (-0.1 * 1) := by
  intro m
  have hs : (0.36 : ℝ) * m.sqrt 1 ≠ 0 :=
    mul_ne_zero (by norm_num) (Real.sqrt_pos.mpr one_pos).ne'
  exact ⟨⟨isStandard_real, hs⟩,
    analyticEuropean_theta_call_sub_put m isStandard_real
      { _S := 105, _sigma := 0.36, _r := 0.1, _b := 0 } 100 1 hs⟩

end CallPutGreeks

end PricingLibrary

/-! ## The perpetual call price with checked quotients -/

namespace PricingLibrary

section Checked

variable {α : Type} [LinearOrderedField α]

/-- A quotient by a divisor that is not zero has the field's value. -/
theorem quotient_of_ne (x y : α) (h : y ≠ 0) :
    AnalyticAmericanPerpetualEngine.quotient x y = some (x / y) := by
  unfold AnalyticAmericanPerpetualEngine.quotient
  rw [if_neg h]

/-- A quotient by zero has no value. -/
theorem quotient_zero (x : α) :
    AnalyticAmericanPerpetualEngine.quotient x 0 = none := by
  unfold AnalyticAmericanPerpetualEngine.quotient
  rw [if_pos rfl]

/-- When the checked call price has a value, `getEngineCallPrice` returns that value. -/
theorem perpetual_checked_call_agrees (m : NumLib α) (e : AnalyticAmericanPerpetualEngine α)
    (payoff : Payoff α) (p : α)
    (h : e.getEngineCallPriceChecked m payoff = Except.ok (some p)) :
    e.getEngineCallPrice m payoff = Except.ok p := by
  unfold AnalyticAmericanPerpetualEngine.getEngineCallPriceChecked at h
  unfold AnalyticAmericanPerpetualEngine.getEngineCallPrice
  cases hv : e.validate payoff.getExercise with
  | error ex =>
    rw [hv] at h
    exact absurd h (by intro h2; cases h2)
  | ok u =>
    rw [hv] at h
    have h2 := Except.ok.inj h
    by_cases h1 : e._sigma * e._sigma = 0
    · rw [h1, quotient_zero] at h2
      exact absurd h2 (by intro h3; cases h3)
    · rw [quotient_of_ne _ _ h1, quotient_of_ne _ _ h1] at h2
      simp only [Option.bind_eq_bind, Option.some_bind] at h2
      by_cases h4 : 0.5 - e._b / (e._sigma * e._sigma)
          + m.sqrt (m.pow (e._b / (e._sigma * e._sigma) - 0.5) 2
            + (2 * e._r) / (e._sigma * e._sigma)) - 1 = 0
      · rw [h4, quotient_zero] at h2
        exact absurd h2 (by intro h3; cases h3)
      · rw [quotient_of_ne _ _ h4] at h2
        simp only [Option.bind_eq_bind, Option.some_bind] at h2
        by_cases h5 : (0.5 - e._b / (e._sigma * e._sigma)
            + m.sqrt (m.pow (e._b / (e._sigma * e._sigma) - 0.5) 2
              + (2 * e._r) / (e._sigma * e._sigma))) * payoff.getStrike = 0
        · rw [h5, quotient_zero] at h2
          exact absurd h2 (by intro h3; cases h3)
        · rw [quotient_of_ne _ _ h5] at h2
          have h6 := Option.some.inj h2
          rw [← h6]
          rfl

/-- When the checked put price has a value, `getEnginePutPrice` returns that value. -/
theorem perpetual_checked_put_agrees (m : NumLib α) (e : AnalyticAmericanPerpetualEngine α)
    (payoff : Payoff α) (p : α)
    (h : e.getEnginePutPriceChecked m payoff = Except.ok (some p)) :
    e.getEnginePutPrice m payoff = Except.ok p := by
  unfold AnalyticAmericanPerpetualEngine.getEnginePutPriceChecked at h
  unfold AnalyticAmericanPerpetualEngine.getEnginePutPrice
  cases hv : e.validate payoff.getExercise with
  | error ex =>
    rw [hv] at h
    exact absurd h (by intro h2; cases h2)
  | ok u =>
    rw [hv] at h
    have h2 := Except.ok.inj h
    by_cases h1 : e._sigma * e._sigma = 0
    · rw [h1, quotient_zero] at h2
      exact absurd h2 (by intro h3; cases h3)
    · rw [quotient_of_ne _ _ h1, quotient_of_ne _ _ h1] at h2
      simp only [Option.bind_eq_bind, Option.some_bind] at h2
      by_cases h4 : 1 - (0.5 - e._b / (e._sigma * e._sigma)
          - m.sqrt (m.pow (e._b / (e._sigma * e._sigma) - 0.5) 2
            + (2 * e._r) / (e._sigma * e._sigma))) = 0
      · rw [h4, quotient_zero] at h2
        exact absurd h2 (by intro h3; cases h3)
      · rw [quotient_of_ne _ _ h4] at h2
        simp only [Option.bind_eq_bind, Option.some_bind] at h2
        by_cases h5 : (0.5 - e._b / (e._sigma * e._sigma)
            - m.sqrt (m.pow (e._b / (e._sigma * e._sigma) - 0.5) 2
              + (2 * e._r) / (e._sigma * e._sigma))) * payoff.getStrike = 0
        · rw [h5, quotient_zero] at h2
          exact absurd h2 (by intro h3; cases h3)
        · rw [quotient_of_ne _ _ h5] at h2
          have h6 := Option.some.inj h2
          rw [← h6]
          rfl

/-- The checked `getEnginePrice` throws exactly when `getEnginePrice` throws, and when it
has a value, `getEnginePrice` returns that value. -/
theorem perpetual_checked_price_agrees (m : NumLib α) (e : AnalyticAmericanPerpetualEngine α)
    (payoff : Payoff α) :
    (∀ ex : EngineException,
      e.getEnginePriceChecked m payoff = Except.error ex ↔
        e.getEnginePrice m payoff = Except.error ex) ∧
    (∀ p : α, e.getEnginePriceChecked m payoff = Except.ok (some p) →
      e.getEnginePrice m payoff = Except.ok p) := by
  obtain ⟨T, K, type, exercise⟩ := payoff
  cases exercise with
  | European =>
    have h1 : e.getEnginePriceChecked m ⟨T, K, type, Exercise.European⟩ =
        Except.error (EngineException.IncorrectEngineException
          "Only American options have perpetual engine pricing.") := rfl
    have h2 : e.getEnginePrice m ⟨T, K, type, Exercise.European⟩ =
        Except.error (EngineException.IncorrectEngineException
          "Only American options have perpetual engine pricing.") := rfl
    rw [h1, h2]
    refine ⟨fun ex => ⟨fun h => ?_, fun h => ?_⟩, fun p h => ?_⟩
    · rw [Except.error.inj h]
    · rw [Except.error.inj h]
    · cases h
  | American =>
    have hc : ∃ v, e.getEnginePriceChecked m ⟨T, K, type, Exercise.American⟩ =
        Except.ok v := by
      cases type
      · exact ⟨_, rfl⟩
      · exact ⟨_, rfl⟩
    have hp : ∃ v, e.getEnginePrice m ⟨T, K, type, Exercise.American⟩ = Except.ok v := by
      cases type
      · exact ⟨_, rfl⟩
      · exact ⟨_, rfl⟩
    obtain ⟨v, hv⟩ := hc
    obtain ⟨w, hw⟩ := hp
    refine ⟨fun ex => ⟨fun h => ?_, fun h => ?_⟩, fun p h => ?_⟩
    · rw [hv] at h
      cases h
    · rw [hw] at h
      cases h
    · cases type with
      | Call =>
        exact perpetual_checked_call_agrees m e ⟨T, K, PayoffType.Call, Exercise.American⟩
          p h
      | Put =>
        exact perpetual_checked_put_agrees m e ⟨T, K, PayoffType.Put, Exercise.American⟩
          p h

/-- On an American Call payoff, when `sigma * sigma` is not zero, the checked
`getEnginePrice` passes `validate` twice and returns the checked quotients of the price
expression at the exponent `y1`. -/
theorem perpetual_checked_price_Call (m : NumLib α) (S sigma r b K T : α)
    (hσ : sigma * sigma ≠ 0) :
    AnalyticAmericanPerpetualEngine.getEnginePriceChecked
        { _S := S, _sigma := sigma, _r := r, _b := b } m
        { _maturity := T, _strike := K, _type := PayoffType.Call,
          _exercise := Exercise.American } =
      Except.ok
        ((AnalyticAmericanPerpetualEngine.quotient K
            (0.5 - b / (sigma * sigma)
              + m.sqrt (m.pow (b / (sigma * sigma) - 0.5) 2 + (2 * r) / (sigma * sigma))
              - 1)).bind fun q4 =>
          (AnalyticAmericanPerpetualEngine.quotient
            ((0.5 - b / (sigma * sigma)
              + m.sqrt (m.pow (b / (sigma * sigma) - 0.5) 2 + (2 * r) / (sigma * sigma))
              - 1) * S)
            ((0.5 - b / (sigma * sigma)
              + m.sqrt (m.pow (b / (sigma * sigma) - 0.5) 2 + (2 * r) / (sigma * sigma)))
              * K)).bind fun q5 =>
          some (q4 * m.pow q5
            (0.5 - b / (sigma * sigma)
              + m.sqrt (m.pow (b / (sigma * sigma) - 0.5) 2
                + (2 * r) / (sigma * sigma))))) := by
  have hcall : AnalyticAmericanPerpetualEngine.getEnginePriceChecked
        { _S := S, _sigma := sigma, _r := r, _b := b } m
        { _maturity := T, _strike := K, _type := PayoffType.Call,
          _exercise := Exercise.American } =
      AnalyticAmericanPerpetualEngine.getEngineCallPriceChecked
        { _S := S, _sigma := sigma, _r := r, _b := b } m
        { _maturity := T, _strike := K, _type := PayoffType.Call,
          _exercise := Exercise.American } := rfl
  rw [hcall]
  have hbody : AnalyticAmericanPerpetualEngine.getEngineCallPriceChecked
        { _S := S, _sigma := sigma, _r := r, _b := b } m
        { _maturity := T, _strike := K, _type := PayoffType.Call,
          _exercise := Exercise.American } =
      Except.ok
        ((AnalyticAmericanPerpetualEngine.quotient b (sigma * sigma)).bind fun q1 =>
          (AnalyticAmericanPerpetualEngine.quotient b (sigma * sigma)).bind fun q2 =>
          (AnalyticAmericanPerpetualEngine.quotient (2 * r) (sigma * sigma)).bind fun q3 =>
          (AnalyticAmericanPerpetualEngine.quotient K
            (0.5 - q1 + m.sqrt (m.pow (q2 - 0.5) 2 + q3) - 1)).bind fun q4 =>
          (AnalyticAmericanPerpetualEngine.quotient
            ((0.5 - q1 + m.sqrt (m.pow (q2 - 0.5) 2 + q3) - 1) * S)
            ((0.5 - q1 + m.sqrt (m.pow (q2 - 0.5) 2 + q3)) * K)).bind fun q5 =>
          some (q4 * m.pow q5 (0.5 - q1 + m.sqrt (m.pow (q2 - 0.5) 2 + q3)))) := rfl
  rw [hbody, quotient_of_ne _ _ hσ, quotient_of_ne _ _ hσ]
  rfl

end Checked

end PricingLibrary

/-! ## The perpetual exponents `y1` and `y2` -/

namespace PricingLibrary

section PerpetualExponents

/-- With a standard library the perpetual call price at exponent `y1`, when the power
base is positive. -/
theorem perpetual_call_value (m : NumLib ℝ) (hm : m.IsStandard) (S sigma r b K T y1 : ℝ)
    (hy : y1 = 0.5 - b / (sigma * sigma)
      + m.sqrt (m.pow (b / (sigma * sigma) - 0.5) 2 + (2 * r) / (sigma * sigma)))
    (hbase : 0 < (y1 - 1) * S / (y1 * K)) :
    AnalyticAmericanPerpetualEngine.getEnginePrice
        { _S := S, _sigma := sigma, _r := r, _b := b } m
        { _maturity := T, _strike := K, _type := PayoffType.Call,
          _exercise := Exercise.American } =
      Except.ok (K / (y1 - 1) * ((y1 - 1) * S / (y1 * K)) ^ y1) := by
  rw [perpetual_price_Call m _ ⟨T, K, PayoffType.Call, Exercise.American⟩ rfl rfl,
    perpetual_callPrice_ok m _ ⟨T, K, PayoffType.Call, Exercise.American⟩ rfl]
  simp only [Payoff.getStrike, ← hy]
  rw [hm.pow_eq _ _ hbase]

/-- With a standard library the perpetual put price at exponent `y2`, when the power
base is positive. -/
theorem perpetual_put_value (m : NumLib ℝ) (hm : m.IsStandard) (S sigma r b K T y2 : ℝ)
    (hy : y2 = 0.5 - b / (sigma * sigma)
      - m.sqrt (m.pow (b / (sigma * sigma) - 0.5) 2 + (2 * r) / (sigma * sigma)))
    (hbase : 0 < (y2 - 1) * S / (y2 * K)) :
    AnalyticAmericanPerpetualEngine.getEnginePrice
        { _S := S, _sigma := sigma, _r := r, _b := b } m
        { _maturity := T, _strike := K, _type := PayoffType.Put,
          _exercise := Exercise.American } =
      Except.ok (K / (1 - y2) * ((y2 - 1) * S / (y2 * K)) ^ y2) := by
  rw [perpetual_price_Put m _ ⟨T, K, PayoffType.Put, Exercise.American⟩ rfl rfl,
    perpetual_putPrice_ok m _ ⟨T, K, PayoffType.Put, Exercise.American⟩ rfl]
  simp only [Payoff.getStrike, ← hy]
  rw [hm.pow_eq _ _ hbase]

/-- For `sigma > 0` and `r > b` the radicand of `y1` is positive and `y1 > 1`. -/
theorem perpetual_y1_gt_one (m : NumLib ℝ) (hm : m.IsStandard) (sigma r b : ℝ)
    (hσ : 0 < sigma) (hrb : b < r) :
    0 < m.pow (b / (sigma * sigma) - 0.5) 2 + (2 * r) / (sigma * sigma) ∧
    1 < 0.5 - b / (sigma * sigma)
      + m.sqrt (m.pow (b / (sigma * sigma) - 0.5) 2 + (2 * r) / (sigma * sigma)) := by
  have hσ2 : 0 < sigma * sigma := mul_pos hσ hσ
  have hlt : 2 * (b / (sigma * sigma)) < (2 * r) / (sigma * sigma) := by
    rw [← mul_div_assoc]
    exact div_lt_div_of_pos_right (by linarith) hσ2
  have hsq : (b / (sigma * sigma) + 0.5) ^ 2
      < (b / (sigma * sigma) - 0.5) ^ 2 + (2 * r) / (sigma * sigma) := by
    have : (b / (sigma * sigma) + 0.5) ^ 2
        = (b / (sigma * sigma) - 0.5) ^ 2 + 2 * (b / (sigma * sigma)) := by ring
    linarith
  have hpos : 0 < (b / (sigma * sigma) - 0.5) ^ 2 + (2 * r) / (sigma * sigma) :=
    lt_of_le_of_lt (sq_nonneg _) hsq
  rw [hm.pow_two, hm.sqrt_eq _ hpos.le]
  have hroot := Real.lt_sqrt_of_sq_lt hsq
  exact ⟨hpos, by linarith⟩

/-- For `sigma > 0` and `r > 0` the radicand of `y2` is positive and `y2 < 0`. -/
theorem perpetual_y2_neg (m : NumLib ℝ) (hm : m.IsStandard) (sigma r b : ℝ)
    (hσ : 0 < sigma) (hr : 0 < r) :
    0 < m.pow (b / (sigma * sigma) - 0.5) 2 + (2 * r) / (sigma * sigma) ∧
    0.5 - b / (sigma * sigma)
      - m.sqrt (m.pow (b / (sigma * sigma) - 0.5) 2 + (2 * r) / (sigma * sigma)) < 0 := by
  have hσ2 : 0 < sigma * sigma := mul_pos hσ hσ
  have hρ : 0 < (2 * r) / (sigma * sigma) := div_pos (by linarith) hσ2
  have hsq : (0.5 - b / (sigma * sigma)) ^ 2
      < (b / (sigma * sigma) - 0.5) ^ 2 + (2 * r) / (sigma * sigma) := by
    have : (0.5 - b / (sigma * sigma)) ^ 2 = (b / (sigma * sigma) - 0.5) ^ 2 := by ring
    linarith
  have hpos : 0 < (b / (sigma * sigma) - 0.5) ^ 2 + (2 * r) / (sigma * sigma) :=
    lt_of_le_of_lt (sq_nonneg _) hsq
  rw [hm.pow_two, hm.sqrt_eq _ hpos.le]
  have hroot := Real.lt_sqrt_of_sq_lt hsq
  exact ⟨hpos, by linarith⟩

/-- For `sigma > 0`, `r > b`, `S > 0` and `K > 0` no divisor is zero and the checked
price of the American Call is the value `getEnginePrice` returns. -/
theorem perpetual_checked_call_defined (m : NumLib ℝ) (hm : m.IsStandard)
    (S sigma r b K T : ℝ) (hσ : 0 < sigma) (hrb : b < r) (hS : 0 < S) (hK : 0 < K) :
    ∃ p : ℝ,
      AnalyticAmericanPerpetualEngine.getEnginePriceChecked
          { _S := S, _sigma := sigma, _r := r, _b := b } m
          { _maturity := T, _strike := K, _type := PayoffType.Call,
            _exercise := Exercise.American } = Except.ok (some p) ∧
      AnalyticAmericanPerpetualEngine.getEnginePrice
          { _S := S, _sigma := sigma, _r := r, _b := b } m
          { _maturity := T, _strike := K, _type := PayoffType.Call,
            _exercise := Exercise.American } = Except.ok p ∧
      0 < p := by
  obtain ⟨-, hy1⟩ := perpetual_y1_gt_one m hm sigma r b hσ hrb
  have hy10 : 0.5 - b / (sigma * sigma)
      + m.sqrt (m.pow (b / (sigma * sigma) - 0.5) 2 + (2 * r) / (sigma * sigma)) - 1 ≠ 0 := by
    intro h
    linarith
  have hyK : (0.5 - b / (sigma * sigma)
      + m.sqrt (m.pow (b / (sigma * sigma) - 0.5) 2 + (2 * r) / (sigma * sigma))) * K
      ≠ 0 := (mul_pos (by linarith) hK).ne'
  have hbase : 0 < (0.5 - b / (sigma * sigma)
      + m.sqrt (m.pow (b / (sigma * sigma) - 0.5) 2 + (2 * r) / (sigma * sigma)) - 1) * S
      / ((0.5 - b / (sigma * sigma)
      + m.sqrt (m.pow (b / (sigma * sigma) - 0.5) 2 + (2 * r) / (sigma * sigma))) * K) :=
    div_pos (mul_pos (by linarith) hS) (mul_pos (by linarith) hK)
  have hval := perpetual_call_value m hm S sigma r b K T _ rfl hbase
  refine ⟨_, ?_, hval, mul_pos (div_pos hK (by linarith)) (Real.rpow_pos_of_pos hbase _)⟩
  rw [perpetual_checked_price_Call m S sigma r b K T (mul_pos hσ hσ).ne',
    quotient_of_ne _ _ hy10, quotient_of_ne _ _ hyK]
  show Except.ok (some _) = Except.ok (some _)
  rw [hm.pow_eq _ _ hbase]

/-- C38: for `sigma > 0` and `r > b`, with the library computing the real functions, the
perpetual call exponent `y1` is greater than `1`; so for every `S > 0` and `K > 0` no
divisor of the perpetual call price is zero, the radicand and the power base are
positive, the price is `K/(y1-1) ((y1-1) S / (y1 K))^y1` and positive, and the price is
strictly increasing in `S`. -/
theorem perpetual_call_well_defined (m : NumLib ℝ) (hm : m.IsStandard) (sigma r b : ℝ)
    (hσ : 0 < sigma) (hrb : b < r) :
    let y1 := 0.5 - b / (sigma * sigma)
      + m.sqrt (m.pow (b / (sigma * sigma) - 0.5) 2 + (2 * r) / (sigma * sigma))
    1 < y1 ∧
    (∀ S K T : ℝ, 0 < S → 0 < K →
      (sigma * sigma ≠ 0 ∧
        0 < m.pow (b / (sigma * sigma) - 0.5) 2 + (2 * r) / (sigma * sigma) ∧
        y1 - 1 ≠ 0 ∧ y1 * K ≠ 0 ∧ 0 < (y1 - 1) * S / (y1 * K)) ∧
      ∃ p : ℝ,
        AnalyticAmericanPerpetualEngine.getEnginePrice
            { _S := S, _sigma := sigma, _r := r, _b := b } m
            { _maturity := T, _strike := K, _type := PayoffType.Call,
              _exercise := Exercise.American } = Except.ok p ∧
        p = K / (y1 - 1) * ((y1 - 1) * S / (y1 * K)) ^ y1 ∧ 0 < p) ∧
    (∀ S₁ S₂ K T : ℝ, 0 < S₁ → S₁ < S₂ → 0 < K →
      ∃ p₁ p₂ : ℝ,
        AnalyticAmericanPerpetualEngine.getEnginePrice
            { _S := S₁, _sigma := sigma, _r := r, _b := b } m
            { _maturity := T, _strike := K, _type := PayoffType.Call,
              _exercise := Exercise.American } = Except.ok p₁ ∧
        AnalyticAmericanPerpetualEngine.getEnginePrice
            { _S := S₂, _sigma := sigma, _r := r, _b := b } m
            { _maturity := T, _strike := K, _type := PayoffType.Call,
              _exercise := Exercise.American } = Except.ok p₂ ∧
        p₁ < p₂) := by
  intro y1
  obtain ⟨hrad, hy1⟩ := perpetual_y1_gt_one m hm sigma r b hσ hrb
  have hy : 1 < y1 := hy1
  have hy0 : 0 < y1 := by linarith
  have hy10 : 0 < y1 - 1 := by linarith
  have hbase : ∀ S K : ℝ, 0 < S → 0 < K → 0 < (y1 - 1) * S / (y1 * K) :=
    fun S K hS hK => div_pos (mul_pos hy10 hS) (mul_pos hy0 hK)
  refine ⟨hy, fun S K T hS hK => ⟨⟨(mul_pos hσ hσ).ne', hrad, hy10.ne',
    (mul_pos hy0 hK).ne', hbase S K hS hK⟩, _,
    perpetual_call_value m hm S sigma r b K T y1 rfl (hbase S K hS hK), rfl,
    mul_pos (div_pos hK hy10) (Real.rpow_pos_of_pos (hbase S K hS hK) _)⟩,
    fun S₁ S₂ K T hS₁ h₁₂ hK => ⟨_, _,
      perpetual_call_value m hm S₁ sigma r b K T y1 rfl (hbase S₁ K hS₁ hK),
      perpetual_call_value m hm S₂ sigma r b K T y1 rfl (hbase S₂ K (hS₁.trans h₁₂) hK),
      ?_⟩⟩
  have hlt : (y1 - 1) * S₁ / (y1 * K) < (y1 - 1) * S₂ / (y1 * K) :=
    div_lt_div_of_pos_right (mul_lt_mul_of_pos_left h₁₂ hy10) (mul_pos hy0 hK)
  exact mul_lt_mul_of_pos_left (Real.rpow_lt_rpow (hbase S₁ K hS₁ hK).le hlt hy0)
    (div_pos hK hy10)

/-- C38 at the real library with `sigma = 0.1`, `r = 0.1`, `b = 0.02`. -/
theorem perpetual_call_well_defined_witness :
    let m : NumLib ℝ :=
      { log := Real.log, exp := Real.exp, sqrt := Real.sqrt, pow := fun x y => x ^ y,
        cdf := fun x => ProbabilityTheory.cdf (ProbabilityTheory.gaussianReal 0 1) x,
        pdf := ProbabilityTheory.gaussianPDFReal 0 1 }
    (m.IsStandard ∧ (0 : ℝ) < 0.1 ∧ (0.02 : ℝ) < 0.1) ∧
    1 < 0.5 - (0.02 : ℝ) / (0.1 * 0.1)
      + m.sqrt (m.pow ((0.02 : ℝ) / (0.1 * 0.1) - 0.5) 2 + (2 * 0.1) / (0.1 * 0.1)) := by
  intro m
  exact ⟨⟨isStandard_real, by norm_num, by norm_num⟩,
    (perpetual_call_well_defined m isStandard_real 0.1 0.1 0.02 (by norm_num)
      (by norm_num)).1⟩

/-- C39: for `sigma > 0` and `b = r` with `b/sigma² ≥ -1/2`, with the library computing
the real functions, the perpetual call exponent `y1` is exactly `1`; `validate` accepts
the American exercise, and `getEnginePrice` on an American Call divides the strike by
`y1 - 1 = 0`: that quotient has no value, so no finite price is defined (the checked
price is `none`, and is `some p` for no `p`). -/
theorem perpetual_call_divides_by_zero (m : NumLib ℝ) (hm : m.IsStandard) (sigma r b : ℝ)
    (hσ : 0 < sigma) (hbr : b = r) (hb : -1 / 2 ≤ b / (sigma * sigma)) :
    let y1 := 0.5 - b / (sigma * sigma)
      + m.sqrt (m.pow (b / (sigma * sigma) - 0.5) 2 + (2 * r) / (sigma * sigma))
    y1 = 1 ∧ y1 - 1 = 0 ∧
    ∀ S K T : ℝ,
      AnalyticAmericanPerpetualEngine.validate
          ({ _S := S, _sigma := sigma, _r := r, _b := b } :
            AnalyticAmericanPerpetualEngine ℝ) Exercise.American = Except.ok () ∧
      AnalyticAmericanPerpetualEngine.quotient K (y1 - 1) = none ∧
      AnalyticAmericanPerpetualEngine.getEnginePriceChecked
          { _S := S, _sigma := sigma, _r := r, _b := b } m
          { _maturity := T, _strike := K, _type := PayoffType.Call,
            _exercise := Exercise.American } = Except.ok none ∧
      ∀ p : ℝ,
        AnalyticAmericanPerpetualEngine.getEnginePriceChecked
            { _S := S, _sigma := sigma, _r := r, _b := b } m
            { _maturity := T, _strike := K, _type := PayoffType.Call,
              _exercise := Exercise.American } ≠ Except.ok (some p) := by
  intro y1
  have hy : y1 = 1 := by
    have hrad : (b / (sigma * sigma) - 0.5) ^ 2 + (2 * r) / (sigma * sigma)
        = (b / (sigma * sigma) + 0.5) ^ 2 := by
      rw [← hbr, mul_div_assoc]
      ring
    have hnn : 0 ≤ b / (sigma * sigma) + 0.5 := by
      have : (0.5 : ℝ) = 1 / 2 := by norm_num
      linarith
    show 0.5 - b / (sigma * sigma)
      + m.sqrt (m.pow (b / (sigma * sigma) - 0.5) 2 + (2 * r) / (sigma * sigma)) = 1
    rw [hm.pow_two, hrad, hm.sqrt_eq _ (sq_nonneg _), Real.sqrt_sq hnn]
    ring
  have hy0 : y1 - 1 = 0 := by rw [hy, sub_self]
  have hprice : ∀ S K T : ℝ,
      AnalyticAmericanPerpetualEngine.getEnginePriceChecked
          { _S := S, _sigma := sigma, _r := r, _b := b } m
          { _maturity := T, _strike := K, _type := PayoffType.Call,
            _exercise := Exercise.American } = Except.ok none := by
    intro S K T
    rw [perpetual_checked_price_Call m S sigma r b K T (mul_pos hσ hσ).ne']
    have hy1 : 0.5 - b / (sigma * sigma)
        + m.sqrt (m.pow (b / (sigma * sigma) - 0.5) 2 + (2 * r) / (sigma * sigma)) - 1
        = 0 := hy0
    rw [hy1, quotient_zero]
    rfl
  refine ⟨hy, hy0, fun S K T => ⟨rfl, ?_, hprice S K T, fun p hp => ?_⟩⟩
  · rw [hy0]
    exact quotient_zero K
  · rw [hprice S K T] at hp
    cases hp

/-- C39 at the real library with `sigma = 0.3`, `b = r = 0.08`, `S = 110`, `K = 100`. -/
theorem perpetual_call_divides_by_zero_witness :
    let m : NumLib ℝ :=
      { log := Real.log, exp := Real.exp, sqrt := Real.sqrt, pow := fun x y => x ^ y,
        cdf := fun x => ProbabilityTheory.cdf (ProbabilityTheory.gaussianReal 0 1) x,
        pdf := ProbabilityTheory.gaussianPDFReal 0 1 }
    (m.IsStandard ∧ (0 : ℝ) < 0.3 ∧ (0.08 : ℝ) = 0.08 ∧
      (-1 / 2 : ℝ) ≤ 0.08 / (0.3 * 0.3)) ∧
    0.5 - (0.08 : ℝ) / (0.3 * 0.3)
      + m.sqrt (m.pow ((0.08 : ℝ) / (0.3 * 0.3) - 0.5) 2 + (2 * 0.08) / (0.3 * 0.3)) = 1 ∧
    AnalyticAmericanPerpetualEngine.getEnginePriceChecked
        ({ _S := 110, _sigma := 0.3, _r := 0.08, _b := 0.08 } :
          AnalyticAmericanPerpetualEngine ℝ) m
        { _maturity := 0, _strike := 100, _type := PayoffType.Call,
          _exercise := Exercise.American } = Except.ok none := by
  intro m
  have h := perpetual_call_divides_by_zero m isStandard_real 0.3 0.08 0.08 (by norm_num)
    rfl (by norm_num)
  exact ⟨⟨isStandard_real, by norm_num, rfl, by norm_num⟩, h.1, (h.2.2 110 100 0).2.2.1⟩

/-- C40: for `sigma > 0` and `r > 0` (any `b`), with the library computing the real
functions, the perpetual put exponent `y2` is negative; so for every `S > 0` and `K > 0`
no divisor of the perpetual put price is zero, the radicand and the power base are
positive, the price is `K/(1-y2) ((y2-1) S / (y2 K))^y2` and positive, and the price is
strictly decreasing in `S`. -/
theorem perpetual_put_well_defined (m : NumLib ℝ) (hm : m.IsStandard) (sigma r b : ℝ)
    (hσ : 0 < sigma) (hr : 0 < r) :
    let y2 := 0.5 - b / (sigma * sigma)
      - m.sqrt (m.pow (b / (sigma * sigma) - 0.5) 2 + (2 * r) / (sigma * sigma))
    y2 < 0 ∧
    (∀ S K T : ℝ, 0 < S → 0 < K →
      (sigma * sigma ≠ 0 ∧
        0 < m.pow (b / (sigma * sigma) - 0.5) 2 + (2 * r) / (sigma * sigma) ∧
        1 - y2 ≠ 0 ∧ y2 * K ≠ 0 ∧ 0 < (y2 - 1) * S / (y2 * K)) ∧
      ∃ p : ℝ,
        AnalyticAmericanPerpetualEngine.getEnginePrice
            { _S := S, _sigma := sigma, _r := r, _b := b } m
            { _maturity := T, _strike := K, _type := PayoffType.Put,
              _exercise := Exercise.American } = Except.ok p ∧
        p = K / (1 - y2) * ((y2 - 1) * S / (y2 * K)) ^ y2 ∧ 0 < p) ∧
    (∀ S₁ S₂ K T : ℝ, 0 < S₁ → S₁ < S₂ → 0 < K →
      ∃ p₁ p₂ : ℝ,
        AnalyticAmericanPerpetualEngine.getEnginePrice
            { _S := S₁, _sigma := sigma, _r := r, _b := b } m
            { _maturity := T, _strike := K, _type := PayoffType.Put,
              _exercise := Exercise.American } = Except.ok p₁ ∧
        AnalyticAmericanPerpetualEngine.getEnginePrice
            { _S := S₂, _sigma := sigma, _r := r, _b := b } m
            { _maturity := T, _strike := K, _type := PayoffType.Put,
              _exercise := Exercise.American } = Except.ok p₂ ∧
        p₂ < p₁) := by
  intro y2
  obtain ⟨hrad, hy2⟩ := perpetual_y2_neg m hm sigma r b hσ hr
  have hy : y2 < 0 := hy2
  have hy10 : y2 - 1 < 0 := by linarith
  have hden : 0 < 1 - y2 := by linarith
  have hbase : ∀ S K : ℝ, 0 < S → 0 < K → 0 < (y2 - 1) * S / (y2 * K) :=
    fun S K hS hK => div_pos_of_neg_of_neg (mul_neg_of_neg_of_pos hy10 hS)
      (mul_neg_of_neg_of_pos hy hK)
  refine ⟨hy, fun S K T hS hK => ⟨⟨(mul_pos hσ hσ).ne', hrad, hden.ne',
    (mul_neg_of_neg_of_pos hy hK).ne, hbase S K hS hK⟩, _,
    perpetual_put_value m hm S sigma r b K T y2 rfl (hbase S K hS hK), rfl,
    mul_pos (div_pos hK hden) (Real.rpow_pos_of_pos (hbase S K hS hK) _)⟩,
    fun S₁ S₂ K T hS₁ h₁₂ hK => ⟨_, _,
      perpetual_put_value m hm S₁ sigma r b K T y2 rfl (hbase S₁ K hS₁ hK),
      perpetual_put_value m hm S₂ sigma r b K T y2 rfl (hbase S₂ K (hS₁.trans h₁₂) hK),
      ?_⟩⟩
  have hlt : (y2 - 1) * S₁ / (y2 * K) < (y2 - 1) * S₂ / (y2 * K) :=
    div_lt_div_of_neg_of_lt (mul_neg_of_neg_of_pos hy hK)
      (mul_lt_mul_of_neg_left h₁₂ hy10)
  exact mul_lt_mul_of_pos_left
    (Real.rpow_lt_rpow_of_neg (hbase S₁ K hS₁ hK) hlt hy) (div_pos hK hden)

/-- C40 at the real library with `sigma = 0.1`, `r = 0.1`, `b = 0.02`. -/
theorem perpetual_put_well_defined_witness :
    let m : NumLib ℝ :=
      { log := Real.log, exp := Real.exp, sqrt := Real.sqrt, pow := fun x y => x ^ y,
        cdf := fun x => ProbabilityTheory.cdf (ProbabilityTheory.gaussianReal 0 1) x,
        pdf := ProbabilityTheory.gaussianPDFReal 0 1 }
    (m.IsStandard ∧ (0 : ℝ) < 0.1 ∧ (0 : ℝ) < 0.1) ∧
    0.5 - (0.02 : ℝ) / (0.1 * 0.1)
      - m.sqrt (m.pow ((0.02 : ℝ) / (0.1 * 0.1) - 0.5) 2 + (2 * 0.1) / (0.1 * 0.1)) < 0 := by
  intro m
  exact ⟨⟨isStandard_real, by norm_num, by norm_num⟩,
    (perpetual_put_well_defined m isStandard_real 0.1 0.1 0.02 (by norm_num)
      (by norm_num)).1⟩

end PerpetualExponents

end PricingLibrary
